import Mathlib

/-!
# IceGrid adapter cache: replica-group resolution and cache bookkeeping

A shallow embedding of `src/cpp/src/IceGrid/AdapterCache.cpp`.

* Objects held through reference-counted pointers are modelled as values.  A
  `ServerAdapterEntry` is immutable after construction, so sharing it between the
  cache map and a replica list is the same as copying it.  A `ReplicaGroupEntry`
  is mutable; an in-place mutation of the object stored in the cache is modelled
  by writing the new value back under its key.
* Exceptions are modelled with `Except`; a failed `assert` is a failure of the
  operation.  An operation that has already changed state when it fails returns
  that state together with the failure.
* The C++ standard library (`std::sort`, `std::random_shuffle`) is a parameter
  carrying only what the language standard promises about it; `gnuLib` is the
  instance with the `std::sort` of libstdc++.
* Sizes and counters are natural numbers or integers without wrap-around: a replica
  sequence is assumed to be shorter than the range of an `int`.
* Locks and trace output are not modelled.
-/

namespace IceGrid

/-! ## External collaborators -/

/-- Reference to a `ServerEntry` object of the server cache (the server handle). -/
abbrev ServerEntryPtr := Nat

/-- Proxy to a remote adapter, as handed out by the server handle. -/
abbrev AdapterPrx := Nat

/-- The load averages a node reports (`LoadSample1`, `LoadSample5`, `LoadSample15`). -/
inductive LoadSample
  | LoadSample1
  | LoadSample5
  | LoadSample15
  deriving DecidableEq, Repr

/-- The Ice exceptions that travel through this file.  `OtherIceException` stands
for any `Ice::Exception` that no handler of this file names. -/
inductive Exn
  | AdapterNotExistException
  | InvalidReplicaGroupIdException
  | NodeUnreachableException
  | ServerNotExistException
  | NodeNotExistException
  | OtherIceException (name : String)
  deriving DecidableEq, Repr

deriving instance DecidableEq for Except

/-- What the server handles answer during one call: `ServerEntry::getAdapter(id, upToDate)`
and `ServerEntry::getLoad(sample)`.  Loads are C++ `float`s; only their order is used,
and they are modelled as rationals. -/
structure ServerEnv where
  getAdapter : ServerEntryPtr → String → Bool → Except Exn AdapterPrx
  getLoad : ServerEntryPtr → LoadSample → Except Exn Rat

/-- The float literal `999.9f` returned in place of a load that could not be sampled. -/
def sentinelLoad : Rat := 9999 / 10

/-! ## The C++ standard library -/

/-- A comparator is a strict weak ordering, the precondition of `std::sort`. -/
structure StrictWeakOrder {α : Type} (lt : α → α → Bool) : Prop where
  irrefl : ∀ a, lt a a = false
  trans : ∀ a b c, lt a b = true → lt b c = true → lt a c = true
  incomp_trans : ∀ a b c, lt a b = false → lt b c = false → lt a c = false

/-- The two library algorithms the resolver calls.  `std::sort(first, last, comp)`
rearranges the range so that no element compares less than an earlier one; it is not
required to keep equivalent elements in their original order.
`std::random_shuffle(first, last, rng)` rearranges the range in some order chosen by
the random number generator. -/
structure StdLib where
  sort : {α : Type} → (α → α → Bool) → List α → List α
  sort_perm : ∀ {α : Type} (lt : α → α → Bool) (l : List α), (sort lt l).Perm l
  sort_sorted : ∀ {α : Type} (lt : α → α → Bool) (l : List α), StrictWeakOrder lt →
    (sort lt l).Pairwise (fun a b => lt b a = false)
  random_shuffle : {α : Type} → List α → List α
  random_shuffle_perm : ∀ {α : Type} (l : List α), (random_shuffle l).Perm l

/-- Insert `x` into a list, before the first element that does not compare less than `x`. -/
def orderedInsert {α : Type} (lt : α → α → Bool) (x : α) : List α → List α
  | [] => [x]
  | y :: ys => if lt y x then y :: orderedInsert lt x ys else x :: y :: ys

/-- Insertion sort, one algorithm that `std::sort` may be. -/
def insertionSort {α : Type} (lt : α → α → Bool) : List α → List α
  | [] => []
  | x :: xs => orderedInsert lt x (insertionSort lt xs)

/-- A library whose sort is insertion sort and whose shuffle reverses the range. -/
def refLib : StdLib where
  sort := insertionSort
  sort_perm := by
    intro α lt l
    have hins : ∀ (x : α) (l : List α), (orderedInsert lt x l).Perm (x :: l) := by
      intro x l
      induction l with
      | nil => exact List.Perm.refl _
      | cons y ys ih =>
        unfold orderedInsert
        split
        · exact ((List.Perm.cons y ih).trans (List.Perm.swap x y ys))
        · exact List.Perm.refl _
    induction l with
    | nil => exact List.Perm.refl _
    | cons x xs ih => exact (hins x _).trans (List.Perm.cons x ih)
  sort_sorted := by
    intro α lt l h
    have hasymm : ∀ a b, lt a b = true → lt b a = false := by
      intro a b hab
      cases hba : lt b a with
      | false => rfl
      | true =>
        have := h.trans a b a hab hba
        rw [h.irrefl a] at this
        exact absurd this (by decide)
    have hmem : ∀ (x z : α) (l : List α), z ∈ orderedInsert lt x l → z = x ∨ z ∈ l := by
      intro x z l
      induction l with
      | nil =>
        intro hz
        exact Or.inl (List.mem_singleton.1 hz)
      | cons y ys ih =>
        unfold orderedInsert
        split
        · intro hz
          rcases List.mem_cons.1 hz with h1 | h1
          · exact Or.inr (h1 ▸ List.mem_cons_self _ _)
          · rcases ih h1 with h2 | h2
            · exact Or.inl h2
            · exact Or.inr (List.mem_cons_of_mem _ h2)
        · intro hz
          exact List.mem_cons.1 hz
    have hins : ∀ (x : α) (l : List α), l.Pairwise (fun a b => lt b a = false) →
        (orderedInsert lt x l).Pairwise (fun a b => lt b a = false) := by
      intro x l
      induction l with
      | nil =>
        intro _
        exact List.pairwise_singleton _ _
      | cons y ys ih =>
        intro hl
        rw [List.pairwise_cons] at hl
        unfold orderedInsert
        split
        · rename_i hyx
          rw [List.pairwise_cons]
          refine ⟨?_, ih hl.2⟩
          intro z hz
          rcases hmem x z ys hz with hz1 | hz1
          · rw [hz1]
            exact hasymm y x hyx
          · exact hl.1 z hz1
        · rename_i hyx
          have hyx1 : lt y x = false := by simpa using hyx
          rw [List.pairwise_cons]
          refine ⟨?_, List.pairwise_cons.2 hl⟩
          intro z hz
          rcases List.mem_cons.1 hz with hz1 | hz1
          · rw [hz1]; exact hyx1
          · exact h.incomp_trans z y x (hl.1 z hz1) hyx1
    induction l with
    | nil => exact List.Pairwise.nil
    | cons x xs ih => exact hins x _ ih
  random_shuffle := List.reverse
  random_shuffle_perm := fun l => List.reverse_perm l

/-- `std::min_element(first, last, comp)`: the first element of the range that no element
compares less than; nothing for an empty range. -/
def min_element {α : Type} (lt : α → α → Bool) : List α → Option α
  | [] => none
  | x :: xs => some (xs.foldl (fun result y => if lt y result then y else result) x)

/-- `std::iter_swap(v + i, v + j)`: exchange the elements at the positions `i` and `j`.
This and the following definitions, up to `gnuSort`, follow `std::sort` in
`bits/stl_algo.h` of libstdc++ (GCC); a range is a vector with the positions of its
bounds. -/
def iter_swap {α : Type} (v : List α) (i j : Nat) : List α :=
  match v[i]?, v[j]? with
  | some a, some b => (v.set i b).set j a
  | _, _ => v

/-- The comparison `comp(v + i, v + j)` of the elements at two positions of the range. -/
def compAt {α : Type} (lt : α → α → Bool) (v : List α) (i j : Nat) : Bool :=
  match v[i]?, v[j]? with
  | some a, some b => lt a b
  | _, _ => false

/-- `std::__move_median_to_first(result, a, b, c, comp)` of libstdc++: move the median of
the elements at `a`, `b`, `c` to the position `result`. -/
def move_median_to_first {α : Type} (lt : α → α → Bool) (v : List α) (result a b c : Nat) :
    List α :=
  if compAt lt v a b then
    if compAt lt v b c then iter_swap v result b
    else if compAt lt v a c then iter_swap v result c
    else iter_swap v result a
  else if compAt lt v a c then iter_swap v result a
  else if compAt lt v b c then iter_swap v result c
  else iter_swap v result b

/-- The loop `while (comp(first, pivot)) ++first;` of `std::__unguarded_partition`.  The
fuel is the distance from `first` to the end of the vector, where the loop has stopped. -/
def scanUp {α : Type} (lt : α → α → Bool) (v : List α) (pivot : Nat) : Nat → Nat → Nat
  | 0, first => first
  | fuel + 1, first =>
    if compAt lt v first pivot then scanUp lt v pivot fuel (first + 1) else first

/-- The loop `while (comp(pivot, last)) --last;` of `std::__unguarded_partition`, which
the pivot stops before it leaves the vector. -/
def scanDown {α : Type} (lt : α → α → Bool) (v : List α) (pivot : Nat) : Nat → Nat
  | 0 => 0
  | last + 1 =>
    if compAt lt v pivot (last + 1) then scanDown lt v pivot last else last + 1

/-- `std::__unguarded_partition(first, last, pivot, comp)` of libstdc++: the vector after
the exchanges and the cut point.  Each round moves `first` up, so `last - first` rounds are
enough; the result is `none` if the fuel is used up before the loop ends. -/
def unguarded_partition {α : Type} (lt : α → α → Bool) (pivot : Nat) :
    Nat → List α → Nat → Nat → Option (List α × Nat)
  | 0, _, _, _ => none
  | fuel + 1, v, first, last =>
    let first1 := scanUp lt v pivot (v.length - first) first
    let last1 := scanDown lt v pivot (last - 1)
    if first1 < last1 then
      unguarded_partition lt pivot fuel (iter_swap v first1 last1) (first1 + 1) last1
    else some (v, first1)

/-- `std::__unguarded_partition_pivot(first, last, comp)` of libstdc++. -/
def unguarded_partition_pivot {α : Type} (lt : α → α → Bool) (v : List α) (first last : Nat) :
    Option (List α × Nat) :=
  let mid := first + (last - first) / 2
  unguarded_partition lt first (last - first)
    (move_median_to_first lt v first (first + 1) mid (last - 1)) (first + 1) last

/-- `std::__introsort_loop(first, last, depth_limit, comp)` of libstdc++, with the
threshold of 16 elements.  When the depth limit is used up, libstdc++ sorts the range with
heap sort, which is not modelled: the result is `none` then. -/
def introsort_loop {α : Type} (lt : α → α → Bool) : Nat → List α → Nat → Nat → Option (List α)
  | depth_limit, v, first, last =>
    if 16 < last - first then
      match depth_limit with
      | 0 => none
      | depth_limit + 1 =>
        match unguarded_partition_pivot lt v first last with
        | none => none
        | some (v1, cut) =>
          match introsort_loop lt depth_limit v1 cut last with
          | none => none
          | some v2 => introsort_loop lt depth_limit v2 first cut
    else some v

/-- `std::__unguarded_linear_insert` of libstdc++: put `val` into the sorted range before
it, which is given from its last element to its first, behind the elements that compare
greater than `val`. -/
def linear_insert {α : Type} (lt : α → α → Bool) (val : α) : List α → List α
  | [] => [val]
  | next :: before =>
    if lt val next then next :: linear_insert lt val before else val :: next :: before

/-- `std::__final_insertion_sort(first, last, comp)` of libstdc++: insertion sort from the
left to the right.  The library inserts the first 16 elements with a check of the lower
bound and the others without one; both move an element to the left past the elements
that compare greater than it, so one function stands for both. -/
def final_insertion_sort {α : Type} (lt : α → α → Bool) (v : List α) : List α :=
  (v.foldl (fun sorted val => linear_insert lt val sorted) []).reverse

/-- `std::sort(first, last, comp)` of libstdc++ (GCC): introsort down to ranges of 16
elements, then one insertion sort.  `none` for an input on which the depth limit
`2 * floor(log2 n)` is reached, which takes more than 24 elements. -/
def gnuSort {α : Type} (lt : α → α → Bool) (v : List α) : Option (List α) :=
  match introsort_loop lt (2 * Nat.log2 v.length) v 0 v.length with
  | none => none
  | some w => some (final_insertion_sort lt w)

/-- The library of GCC: `std::sort` is the introsort of libstdc++, and the shuffle is the
one outcome of `std::random_shuffle` that leaves the range as it is.  On an input for which
`gnuSort` has no result the range is sorted by insertion sort. -/
def gnuLib : StdLib where
  sort := fun lt l =>
    match gnuSort lt l with
    | some w => w
    | none => insertionSort lt l
  sort_perm := by
    intro α lt l
    have hA : ∀ (a b : α) (v : List α) (k : Nat), v[k]? = some b →
        (b :: v.set k a).Perm (a :: v) := by
      intro a b v
      induction v with
      | nil =>
        intro k h
        simp at h
      | cons x xs ih =>
        intro k h
        cases k with
        | zero =>
          simp only [List.getElem?_cons_zero, Option.some.injEq] at h
          rw [h]
          exact List.Perm.swap a b xs
        | succ k =>
          simp only [List.getElem?_cons_succ] at h
          exact (List.Perm.swap x b _).trans
            (((ih k h).cons x).trans (List.Perm.swap a x xs))
    have hswap : ∀ (v : List α) (i j : Nat), (iter_swap v i j).Perm v := by
      intro v i j
      unfold iter_swap
      split
      · rename_i a b hi hj
        have hilt : i < v.length := by
          rcases List.getElem?_eq_some_iff.1 hi with ⟨h1, _⟩
          exact h1
        have hw : (v.set i b)[j]? = some b := by
          by_cases hij : i = j
          · subst hij
            simp [hilt]
          · rw [List.getElem?_set_ne hij]
            exact hj
        exact ((hA a b (v.set i b) j hw).trans (hA b a v i hi)).cons_inv
      · exact List.Perm.refl v
    have hmed : ∀ (v : List α) (r a b c : Nat), (move_median_to_first lt v r a b c).Perm v := by
      intro v r a b c
      unfold move_median_to_first
      split_ifs <;> exact hswap _ _ _
    have hpart : ∀ (pivot fuel : Nat) (v : List α) (first last : Nat) (r : List α × Nat),
        unguarded_partition lt pivot fuel v first last = some r → r.1.Perm v := by
      intro pivot fuel
      induction fuel with
      | zero =>
        intro v first last r h
        simp [unguarded_partition] at h
      | succ fuel ih =>
        intro v first last r h
        unfold unguarded_partition at h
        simp only [] at h
        split at h
        · exact (ih _ _ _ r h).trans (hswap _ _ _)
        · simp only [Option.some.injEq] at h
          rw [← h]
    have hloop : ∀ (depth : Nat) (v : List α) (first last : Nat) (w : List α),
        introsort_loop lt depth v first last = some w → w.Perm v := by
      intro depth
      induction depth with
      | zero =>
        intro v first last w h
        unfold introsort_loop at h
        split at h
        · simp at h
        · simp only [Option.some.injEq] at h
          rw [← h]
      | succ depth ih =>
        intro v first last w h
        unfold introsort_loop at h
        split at h
        · simp only [] at h
          split at h
          · simp at h
          · rename_i v1 cut hp
            split at h
            · simp at h
            · rename_i v2 h2
              have hp1 : v1.Perm v :=
                (hpart _ _ _ _ _ (v1, cut) hp).trans (hmed _ _ _ _ _)
              exact ((ih _ _ _ w h).trans (ih _ _ _ v2 h2)).trans hp1
        · simp only [Option.some.injEq] at h
          rw [← h]
    have hfold : ∀ (v acc : List α),
        (v.foldl (fun sorted val => linear_insert lt val sorted) acc).Perm (v ++ acc) := by
      have hins : ∀ (x : α) (l : List α), (linear_insert lt x l).Perm (x :: l) := by
        intro x l
        induction l with
        | nil => exact List.Perm.refl _
        | cons y ys ih =>
          unfold linear_insert
          split
          · exact ((List.Perm.cons y ih).trans (List.Perm.swap x y ys))
          · exact List.Perm.refl _
      intro v
      induction v with
      | nil => intro acc; exact List.Perm.refl _
      | cons x xs ih =>
        intro acc
        exact (ih _).trans (((hins x acc).append_left xs).trans List.perm_middle)
    show (match gnuSort lt l with
      | some w => w
      | none => insertionSort lt l).Perm l
    split
    · rename_i w hw
      unfold gnuSort at hw
      split at hw
      · simp at hw
      · rename_i w1 h1
        simp only [Option.some.injEq] at hw
        rw [← hw]
        unfold final_insertion_sort
        have h2 := hfold w1 []
        rw [List.append_nil] at h2
        exact ((List.reverse_perm _).trans h2).trans (hloop _ _ _ _ w1 h1)
    · exact refLib.sort_perm lt l
  sort_sorted := by
    intro α lt l h
    have hflip : StrictWeakOrder (fun a b => lt b a) :=
      ⟨h.irrefl, fun a b c hab hbc => h.trans c b a hbc hab,
        fun a b c hab hbc => h.incomp_trans c b a hbc hab⟩
    have hins : ∀ (x : α) (s : List α),
        linear_insert lt x s = orderedInsert (fun a b => lt b a) x s := by
      intro x s
      induction s with
      | nil => rfl
      | cons y ys ih =>
        unfold linear_insert orderedInsert
        rw [ih]
    have hfold : ∀ (v : List α),
        v.foldl (fun sorted val => linear_insert lt val sorted) [] =
          insertionSort (fun a b => lt b a) v.reverse := by
      intro v
      have hr : ∀ (u : List α), insertionSort (fun a b => lt b a) u =
          u.foldr (fun val sorted => linear_insert lt val sorted) [] := by
        intro u
        induction u with
        | nil => rfl
        | cons x xs ih =>
          show orderedInsert _ x (insertionSort _ xs) = linear_insert lt x _
          rw [ih, hins]
      rw [hr, List.foldr_reverse]
    show (match gnuSort lt l with
      | some w => w
      | none => insertionSort lt l).Pairwise (fun a b => lt b a = false)
    split
    · rename_i w hw
      unfold gnuSort at hw
      split at hw
      · simp at hw
      · rename_i w1 h1
        simp only [Option.some.injEq] at hw
        rw [← hw]
        unfold final_insertion_sort
        rw [hfold, List.pairwise_reverse]
        exact refLib.sort_sorted (fun a b => lt b a) w1.reverse hflip
    · exact refLib.sort_sorted lt l h
  random_shuffle := fun l => l
  random_shuffle_perm := fun l => List.Perm.refl l

/-- Skip leading white space, as a formatted input function does (`std::isspace`). -/
def skipWs : List Char → List Char
  | [] => []
  | c :: cs =>
    if c = ' ' ∨ c = '\t' ∨ c = '\n' ∨ c = '\r' ∨ c.toNat = 11 ∨ c.toNat = 12 then skipWs cs
    else c :: cs

/-- The value of the longest prefix of decimal digits, with the number of digits read. -/
def readDigits : List Char → Nat → Nat → Nat × Nat
  | [], acc, n => (acc, n)
  | c :: cs, acc, n =>
    if c.isDigit then readDigits cs (acc * 10 + (c.toNat - '0'.toNat)) (n + 1)
    else (acc, n)

/-- The value an `int` takes when a number outside its range is extracted: the nearest
bound of the range. -/
def clampInt (i : Int) : Int :=
  if i < -2147483648 then -2147483648
  else if 2147483647 < i then 2147483647
  else i

/-- `int v = 0; istringstream is(s); is >> v;` as a function of `s`: leading white
space is skipped, then an optional sign and the run of decimal digits that follows is
read; what comes after the digits is left in the stream.  When no digit is found the
extraction fails and `v` is 0; a number that does not fit an `int` is stored as the
nearest bound of the range. -/
def streamExtractInt (s : String) : Int :=
  let cs := skipWs s.toList
  let (neg, rest) :=
    match cs with
    | '-' :: r => (true, r)
    | '+' :: r => (false, r)
    | r => (false, r)
  let (v, n) := readDigits rest 0 0
  if n = 0 then 0
  else clampInt (if neg then -(v : Int) else (v : Int))

/-! ## Descriptors and policies -/

/-- Modelled from the spec: the dynamic type of a `LoadBalancingPolicyPtr`, whose class
declarations are not part of the sources at hand.  The adaptive policy carries its
`loadSample` string. -/
inductive PolicyKind
  | Random
  | RoundRobin
  | Ordered
  | Adaptive (loadSample : String)
  deriving DecidableEq, Repr

/-- Modelled from the spec: a load-balancing policy, its kind and the raw `nReplicas`
string. -/
structure LoadBalancingPolicy where
  kind : PolicyKind
  nReplicas : String
  deriving DecidableEq, Repr

/-- The fields of an `AdapterDescriptor` that the cache reads. -/
structure AdapterDescriptor where
  id : String
  replicaGroupId : String
  priority : String
  deriving DecidableEq, Repr

/-- The fields of a `ReplicaGroupDescriptor` that the cache reads. -/
structure ReplicaGroupDescriptor where
  id : String
  loadBalancing : LoadBalancingPolicy
  deriving DecidableEq, Repr

/-! ## Server-adapter entries -/

/-- `ServerAdapterEntry`: the members set by its constructor. -/
structure ServerAdapterEntry where
  id : String
  application : String
  replicaGroupId : String
  priority : Int
  server : ServerEntryPtr
  deriving DecidableEq, Repr

/-- One call of `ServerEntry::getAdapter`: the handle that is asked and the arguments. -/
structure HandleQuery where
  server : ServerEntryPtr
  id : String
  upToDate : Bool
  deriving DecidableEq, Repr

/-- What a call of `ServerAdapterEntry::getProxies` leaves behind: the two output
parameters, the calls of `ServerEntry::getAdapter` it made, and the returned vector or the
exception that left the function. -/
structure ServerProxiesResult where
  nReplicas : Int
  replicaGroup : Bool
  queries : List HandleQuery
  adapters : Except Exn (List (String × AdapterPrx))

namespace ServerAdapterEntry

/-- `ServerAdapterEntry::getProxy(replicaGroupId, upToDate)`. -/
def getProxy (env : ServerEnv) (e : ServerAdapterEntry) (replicaGroupId : String)
    (upToDate : Bool) : Except Exn AdapterPrx :=
  if replicaGroupId.isEmpty then
    env.getAdapter e.server e.id upToDate
  else
    if e.replicaGroupId ≠ replicaGroupId then
      .error Exn.InvalidReplicaGroupIdException
    else
      env.getAdapter e.server e.id upToDate

/-- `ServerAdapterEntry::getLeastLoadedNodeLoad(loadSample)`: every Ice exception of
the load query is caught and answered with the sentinel. -/
def getLeastLoadedNodeLoad (env : ServerEnv) (e : ServerAdapterEntry)
    (loadSample : LoadSample) : Rat :=
  match env.getLoad e.server loadSample with
  | .ok v => v
  | .error Exn.ServerNotExistException => sentinelLoad
  | .error Exn.NodeNotExistException => sentinelLoad
  | .error Exn.NodeUnreachableException => sentinelLoad
  | .error _ => sentinelLoad

/-- `ServerAdapterEntry::getPriority()`. -/
def getPriority (e : ServerAdapterEntry) : Int := e.priority

/-- `ServerAdapterEntry::getProxy(replicaGroupId, upToDate)` once more, this time with
the list of the calls of `ServerEntry::getAdapter` it makes, in the order it makes them. -/
def getProxyTraced (env : ServerEnv) (e : ServerAdapterEntry) (replicaGroupId : String)
    (upToDate : Bool) : List HandleQuery × Except Exn AdapterPrx :=
  if replicaGroupId.isEmpty then
    ([⟨e.server, e.id, upToDate⟩], env.getAdapter e.server e.id upToDate)
  else
    if e.replicaGroupId ≠ replicaGroupId then
      ([], .error Exn.InvalidReplicaGroupIdException)
    else
      ([⟨e.server, e.id, upToDate⟩], env.getAdapter e.server e.id upToDate)

/-- `ServerAdapterEntry::getProxies(nReplicas, replicaGroup)`: the two output parameters
are assigned before the proxy is asked for, so they are set also when the call leaves
with an exception. -/
def getProxies (env : ServerEnv) (e : ServerAdapterEntry) : ServerProxiesResult :=
  { nReplicas := 1
    replicaGroup := false
    queries := (e.getProxyTraced env "" true).1
    adapters :=
      match (e.getProxyTraced env "" true).2 with
      | .ok adpt => .ok [(e.id, adpt)]
      | .error ex => .error ex }

end ServerAdapterEntry

/-- `ReplicaPriorityComp`: compares two replicas by priority. -/
def ReplicaPriorityComp (lhs rhs : ServerAdapterEntry) : Bool :=
  decide (lhs.getPriority < rhs.getPriority)

/-- `ReplicaLoadComp`: compares two sampled replicas by load. -/
def ReplicaLoadComp (lhs rhs : Rat × ServerAdapterEntry) : Bool :=
  decide (lhs.1 < rhs.1)

/-- `TransformToReplicaLoad(loadSample)`: pairs a replica with its sampled load. -/
def TransformToReplicaLoad (env : ServerEnv) (loadSample : LoadSample)
    (value : ServerAdapterEntry) : Rat × ServerAdapterEntry :=
  (value.getLeastLoadedNodeLoad env loadSample, value)

/-- `TransformToReplica`: forgets the sampled load. -/
def TransformToReplica (value : Rat × ServerAdapterEntry) : ServerAdapterEntry :=
  value.2

/-! ## Replica-group entries -/

/-- `ReplicaGroupEntry`: its data members.  `_lastReplica` is an `int` that is only ever
assigned 0 or a remainder modulo a positive size, so it is modelled as a natural
number.  `_loadSample` is not set by the constructor for a policy that is not adaptive;
it is read only under an adaptive policy, after `update` has set it. -/
structure ReplicaGroupEntry where
  id : String
  application : String
  loadBalancing : LoadBalancingPolicy
  loadBalancingNReplicas : Int
  loadSample : LoadSample
  replicas : List ServerAdapterEntry
  lastReplica : Nat
  deriving DecidableEq, Repr

/-- What a call of `getProxies` leaves behind: the entry after the call, the two output
parameters, and the returned vector or the exception that left the function. -/
structure ProxiesResult where
  entry : ReplicaGroupEntry
  nReplicas : Int
  replicaGroup : Bool
  adapters : Except Exn (List (String × AdapterPrx))

namespace ReplicaGroupEntry

/-- `ReplicaGroupEntry::update(policy)`. -/
def update (g : ReplicaGroupEntry) (policy : LoadBalancingPolicy) : ReplicaGroupEntry :=
  let nReplicas := streamExtractInt policy.nReplicas
  let g1 := { g with
    loadBalancing := policy
    loadBalancingNReplicas := if nReplicas < 0 then 1 else nReplicas }
  match policy.kind with
  | .Adaptive loadSample =>
    if loadSample = "1" then { g1 with loadSample := .LoadSample1 }
    else if loadSample = "5" then { g1 with loadSample := .LoadSample5 }
    else if loadSample = "15" then { g1 with loadSample := .LoadSample15 }
    else { g1 with loadSample := .LoadSample1 }
  | _ => g1

/-- The constructor `ReplicaGroupEntry::ReplicaGroupEntry(cache, id, application, policy)`. -/
def new (id application : String) (policy : LoadBalancingPolicy) : ReplicaGroupEntry :=
  update
    { id := id, application := application, loadBalancing := policy,
      loadBalancingNReplicas := 0, loadSample := .LoadSample1, replicas := [],
      lastReplica := 0 }
    policy

/-- `ReplicaGroupEntry::addReplica(replicaId, adapter)`. -/
def addReplica (g : ReplicaGroupEntry) (_replicaId : String) (adapter : ServerAdapterEntry) :
    ReplicaGroupEntry :=
  { g with replicas := g.replicas ++ [adapter] }

/-- The loop of `removeReplica`: erase the first replica whose id is `replicaId`; the
flag tells whether one was found. -/
def eraseFirst (replicaId : String) : List ServerAdapterEntry → List ServerAdapterEntry × Bool
  | [] => ([], false)
  | p :: rest =>
    if replicaId = p.id then (rest, true)
    else
      let (rest1, found) := eraseFirst replicaId rest
      (p :: rest1, found)

/-- `ReplicaGroupEntry::removeReplica(replicaId)`. -/
def removeReplica (g : ReplicaGroupEntry) (replicaId : String) : ReplicaGroupEntry :=
  match eraseFirst replicaId g.replicas with
  | (replicas, true) =>
    { g with
      replicas := replicas
      lastReplica := if replicas.isEmpty then 0 else g.lastReplica % replicas.length }
  | (_, false) => g

/-- The round-robin snapshot: `_replicas[(_lastReplica + i) % _replicas.size()]` for
`i = 0 .. size - 1`. -/
def roundRobinSnapshot (g : ReplicaGroupEntry) : List ServerAdapterEntry :=
  List.ofFn fun i : Fin g.replicas.length =>
    g.replicas.get ⟨(g.lastReplica + i.val) % g.replicas.length, Nat.mod_lt _ i.pos⟩

/-- The part of `getProxies` that runs under the lock of a non-empty group: the entry
afterwards and the snapshot of the replicas in the order of the policy. -/
def snapshot (lib : StdLib) (g : ReplicaGroupEntry) : ReplicaGroupEntry × List ServerAdapterEntry :=
  match g.loadBalancing.kind with
  | .RoundRobin =>
    ({ g with lastReplica := (g.lastReplica + 1) % g.replicas.length }, g.roundRobinSnapshot)
  | .Adaptive _ => (g, lib.random_shuffle g.replicas)
  | .Ordered => (g, lib.sort ReplicaPriorityComp g.replicas)
  | .Random => (g, lib.random_shuffle g.replicas)

/-- The block `if(adaptive)` of `getProxies`: sample the load of every replica of the
snapshot, sort the samples by load, drop the loads. -/
def adaptiveRefine (lib : StdLib) (env : ServerEnv) (loadSample : LoadSample)
    (replicas : List ServerAdapterEntry) : List ServerAdapterEntry :=
  let rl := replicas.map (TransformToReplicaLoad env loadSample)
  (lib.sort ReplicaLoadComp rl).map TransformToReplica

/-- The replicas in the order in which `getProxies` asks them for their proxy, for a
non-empty group. -/
def candidates (lib : StdLib) (env : ServerEnv) (g : ReplicaGroupEntry) : List ServerAdapterEntry :=
  match g.loadBalancing.kind with
  | .Adaptive _ => adaptiveRefine lib env g.loadSample (snapshot lib g).2
  | _ => (snapshot lib g).2

/-- The final loop of `getProxies`: ask every replica for its proxy, skip the replicas
that raise one of the three caught exceptions, let any other exception escape. -/
def collectProxies (env : ServerEnv) (groupId : String) :
    List ServerAdapterEntry → Except Exn (List (String × AdapterPrx))
  | [] => .ok []
  | p :: rest =>
    match p.getProxy env groupId true with
    | .ok adpt =>
      match collectProxies env groupId rest with
      | .ok adapters => .ok ((p.id, adpt) :: adapters)
      | .error ex => .error ex
    | .error Exn.AdapterNotExistException => collectProxies env groupId rest
    | .error Exn.InvalidReplicaGroupIdException => collectProxies env groupId rest
    | .error Exn.NodeUnreachableException => collectProxies env groupId rest
    | .error ex => .error ex

/-- `ReplicaGroupEntry::getProxies(nReplicas, replicaGroup)`; `nReplicas` is the value
the caller's variable holds before the call. -/
def getProxies (lib : StdLib) (env : ServerEnv) (g : ReplicaGroupEntry) (nReplicas : Int) :
    ProxiesResult :=
  if g.replicas.isEmpty then
    { entry := g, nReplicas := nReplicas, replicaGroup := true, adapters := .ok [] }
  else
    { entry := (snapshot lib g).1
      nReplicas :=
        if g.loadBalancingNReplicas > 0 then g.loadBalancingNReplicas
        else (g.replicas.length : Int)
      replicaGroup := true
      adapters := collectProxies env g.id (candidates lib env g) }

/-- `ReplicaGroupEntry::getLeastLoadedNodeLoad(loadSample)`: the three branches on the
size of the copied replica sequence.  `min_element` of a range of two or more samples is
never the end of the range. -/
def getLeastLoadedNodeLoad (lib : StdLib) (env : ServerEnv) (g : ReplicaGroupEntry)
    (loadSample : LoadSample) : Rat :=
  match g.replicas with
  | [] => sentinelLoad
  | [r] => r.getLeastLoadedNodeLoad env loadSample
  | replicas =>
    let rl := (lib.random_shuffle replicas).map (TransformToReplicaLoad env loadSample)
    match min_element ReplicaLoadComp rl with
    | some p => p.1
    | none => sentinelLoad

end ReplicaGroupEntry

/-! ## The adapter cache -/

/-- An `AdapterEntryPtr` that is not null points to an entry of one of the two classes. -/
inductive AdapterEntry
  | server (e : ServerAdapterEntry)
  | group (g : ReplicaGroupEntry)
  deriving DecidableEq, Repr

/-- `ServerAdapterEntryPtr::dynamicCast`: null for a null pointer and for a replica group. -/
def asServerAdapter : Option AdapterEntry → Option ServerAdapterEntry
  | some (.server e) => some e
  | _ => none

/-- `ReplicaGroupEntryPtr::dynamicCast`: null for a null pointer and for a server adapter. -/
def asReplicaGroup : Option AdapterEntry → Option ReplicaGroupEntry
  | some (.group g) => some g
  | _ => none

/-- The ways in which an operation of the cache fails.  The first four are failed
assertions: `AlreadyExists` is `assert(!getImpl(desc.id))`, `InvariantViolation` is
`assert(repEntry)`, `NotServerAdapter` is `assert(entry)` in `removeServerAdapter`, and
`NotInCache` is the rejection of a removal of an id that is not in the store.
`AdapterNotExistException` is the exception thrown by the lookups. -/
inductive CacheError
  | AlreadyExists
  | InvariantViolation
  | NotServerAdapter
  | NotInCache
  | AdapterNotExistException (id : String)
  deriving DecidableEq, Repr

/-- Modelled from the spec: the keyed store of the base class `Cache<string, AdapterEntry>`,
whose header is not part of the sources at hand: a finite association of ids to entries. -/
structure AdapterCache where
  entries : List (String × AdapterEntry)
  deriving DecidableEq, Repr

namespace AdapterCache

/-- The cache of a registry that has just started. -/
def empty : AdapterCache := ⟨[]⟩

/-- Modelled from the spec: `Cache::getImpl(id)`, missing from the sources: the entry
stored under `id`, or null. -/
def getImpl (c : AdapterCache) (id : String) : Option AdapterEntry :=
  c.entries.lookup id

/-- Modelled from the spec: `Cache::addImpl(id, entry)`, missing from the sources: store
`entry` under `id`; an id maps to one entry, so an id that is present keeps its entry. -/
def addImpl (c : AdapterCache) (id : String) (entry : AdapterEntry) : AdapterCache :=
  match c.getImpl id with
  | some _ => c
  | none => ⟨(id, entry) :: c.entries⟩

/-- Modelled from the spec: `Cache::removeImpl(id)`, missing from the sources: drop the
entry stored under `id`; removing an id that is not present is rejected. -/
def removeImpl (c : AdapterCache) (id : String) : AdapterCache × Except CacheError Unit :=
  match c.getImpl id with
  | none => (c, .error .NotInCache)
  | some _ => (⟨c.entries.filter fun kv => kv.1 != id⟩, .ok ())

/-- A member function has changed the object that the store holds under `id`: the store
holds the changed object under the same id. -/
def store (c : AdapterCache) (id : String) (entry : AdapterEntry) : AdapterCache :=
  ⟨c.entries.map fun kv => if kv.1 = id then (kv.1, entry) else kv⟩

/-- `AdapterCache::addServerAdapter(desc, server, app)`. -/
def addServerAdapter (c : AdapterCache) (desc : AdapterDescriptor) (server : ServerEntryPtr)
    (app : String) : AdapterCache × Except CacheError ServerAdapterEntry :=
  match c.getImpl desc.id with
  | some _ => (c, .error .AlreadyExists)
  | none =>
    let priority := streamExtractInt desc.priority
    let entry : ServerAdapterEntry :=
      { id := desc.id, application := app, replicaGroupId := desc.replicaGroupId,
        priority := priority, server := server }
    let c1 := c.addImpl desc.id (.server entry)
    if !desc.replicaGroupId.isEmpty then
      match asReplicaGroup (c1.getImpl desc.replicaGroupId) with
      | none => (c1, .error .InvariantViolation)
      | some repEntry =>
        (c1.store desc.replicaGroupId (.group (repEntry.addReplica desc.id entry)), .ok entry)
    else
      (c1, .ok entry)

/-- `AdapterCache::addReplicaGroup(desc, app)`. -/
def addReplicaGroup (c : AdapterCache) (desc : ReplicaGroupDescriptor) (app : String) :
    AdapterCache × Except CacheError ReplicaGroupEntry :=
  match c.getImpl desc.id with
  | some _ => (c, .error .AlreadyExists)
  | none =>
    let entry := ReplicaGroupEntry.new desc.id app desc.loadBalancing
    (c.addImpl desc.id (.group entry), .ok entry)

/-- `AdapterCache::get(id)`. -/
def get (c : AdapterCache) (id : String) : Except CacheError AdapterEntry :=
  match c.getImpl id with
  | none => .error (.AdapterNotExistException id)
  | some entry => .ok entry

/-- `AdapterCache::getServerAdapter(id)`. -/
def getServerAdapter (c : AdapterCache) (id : String) : Except CacheError ServerAdapterEntry :=
  match asServerAdapter (c.getImpl id) with
  | none => .error (.AdapterNotExistException id)
  | some svrEntry => .ok svrEntry

/-- `AdapterCache::getReplicaGroup(id)`. -/
def getReplicaGroup (c : AdapterCache) (id : String) : Except CacheError ReplicaGroupEntry :=
  match asReplicaGroup (c.getImpl id) with
  | none => .error (.AdapterNotExistException id)
  | some repEntry => .ok repEntry

/-- `AdapterCache::removeServerAdapter(id)`. -/
def removeServerAdapter (c : AdapterCache) (id : String) : AdapterCache × Except CacheError Unit :=
  match asServerAdapter (c.getImpl id) with
  | none => (c, .error .NotServerAdapter)
  | some entry =>
    match c.removeImpl id with
    | (c1, .error err) => (c1, .error err)
    | (c1, .ok ()) =>
      let replicaGroupId := entry.replicaGroupId
      if !replicaGroupId.isEmpty then
        match asReplicaGroup (c1.getImpl replicaGroupId) with
        | none => (c1, .error .InvariantViolation)
        | some repEntry =>
          (c1.store replicaGroupId (.group (repEntry.removeReplica id)), .ok ())
      else
        (c1, .ok ())

/-- `AdapterCache::removeReplicaGroup(id)`. -/
def removeReplicaGroup (c : AdapterCache) (id : String) : AdapterCache × Except CacheError Unit :=
  c.removeImpl id

end AdapterCache

/-! ## Vocabulary of the statements -/

/-- The exceptions that the final loop of `getProxies` catches. -/
def skipped (ex : Exn) : Prop :=
  ex = Exn.AdapterNotExistException ∨ ex = Exn.InvalidReplicaGroupIdException ∨
    ex = Exn.NodeUnreachableException

/-- The pair a member contributes to the result of its group, if its proxy can be
retrieved. -/
def proxyPair (env : ServerEnv) (groupId : String) (m : ServerAdapterEntry) :
    Option (String × AdapterPrx) :=
  match m.getProxy env groupId true with
  | .ok adpt => some (m.id, adpt)
  | .error _ => none

/-- The entry of a group after `j` calls of `getProxies`. -/
def entryAfter (lib : StdLib) (env : ServerEnv) : Nat → ReplicaGroupEntry → ReplicaGroupEntry
  | 0, g => g
  | j + 1, g => entryAfter lib env j (g.getProxies lib env 0).entry

/-- The outcome of the call of `getProxies` that follows `j` earlier calls. -/
def nthCall (lib : StdLib) (env : ServerEnv) (g : ReplicaGroupEntry) (j : Nat) : ProxiesResult :=
  (entryAfter lib env j g).getProxies lib env 0

/-- The id of the first candidate of a returned list. -/
def firstCandidate (r : ProxiesResult) : Option String :=
  match r.adapters with
  | .ok ((id, _) :: _) => some id
  | _ => none

/-- The operations that change a replica group. -/
inductive GroupOp
  | addReplica (replicaId : String) (adapter : ServerAdapterEntry)
  | removeReplica (replicaId : String)
  | update (policy : LoadBalancingPolicy)
  | getProxies (lib : StdLib) (env : ServerEnv) (nReplicas : Int)

/-- The entry after one operation. -/
def GroupOp.apply (g : ReplicaGroupEntry) : GroupOp → ReplicaGroupEntry
  | .addReplica replicaId adapter => g.addReplica replicaId adapter
  | .removeReplica replicaId => g.removeReplica replicaId
  | .update policy => g.update policy
  | .getProxies lib env nReplicas => (g.getProxies lib env nReplicas).entry

/-- The entry after a sequence of operations. -/
def runGroupOps (g : ReplicaGroupEntry) (ops : List GroupOp) : ReplicaGroupEntry :=
  ops.foldl GroupOp.apply g

namespace ReplicaGroupEntry

/-- The cursor of a group is within the bounds of its replica sequence. -/
def cursorInBounds (g : ReplicaGroupEntry) : Prop :=
  (g.replicas ≠ [] → g.lastReplica < g.replicas.length) ∧
    (g.replicas = [] → g.lastReplica = 0)

end ReplicaGroupEntry

namespace AdapterCache

/-- The entry that `addServerAdapter` constructs from a descriptor. -/
def newServerAdapter (desc : AdapterDescriptor) (server : ServerEntryPtr) (app : String) :
    ServerAdapterEntry :=
  { id := desc.id, application := app, replicaGroupId := desc.replicaGroupId,
    priority := streamExtractInt desc.priority, server := server }

/-- The ids under which the store holds an entry, one for each stored entry. -/
def ids (c : AdapterCache) : List String := c.entries.map Prod.fst

end AdapterCache

/-- The four operations that change the cache. -/
inductive CacheOp
  | addServerAdapter (desc : AdapterDescriptor) (server : ServerEntryPtr) (app : String)
  | addReplicaGroup (desc : ReplicaGroupDescriptor) (app : String)
  | removeServerAdapter (id : String)
  | removeReplicaGroup (id : String)
  deriving DecidableEq, Repr

/-- The cache after a call that succeeds; nothing for a call that fails. -/
def CacheOp.run (c : AdapterCache) : CacheOp → Option AdapterCache
  | .addServerAdapter desc server app =>
    match c.addServerAdapter desc server app with
    | (c2, .ok _) => some c2
    | (_, .error _) => none
  | .addReplicaGroup desc app =>
    match c.addReplicaGroup desc app with
    | (c2, .ok _) => some c2
    | (_, .error _) => none
  | .removeServerAdapter id =>
    match c.removeServerAdapter id with
    | (c2, .ok _) => some c2
    | (_, .error _) => none
  | .removeReplicaGroup id =>
    match c.removeReplicaGroup id with
    | (c2, .ok _) => some c2
    | (_, .error _) => none

/-- The cache after a sequence of calls that all succeed. -/
def runCacheOps (c : AdapterCache) : List CacheOp → Option AdapterCache
  | [] => some c
  | op :: rest =>
    match op.run c with
    | some c2 => runCacheOps c2 rest
    | none => none

/-- A call is orderly when it is not a `removeReplicaGroup`, or when it removes a replica
group whose replica sequence is empty. -/
def CacheOp.orderly (c : AdapterCache) : CacheOp → Bool
  | .removeReplicaGroup id =>
    match c.getImpl id with
    | some (.group G) => G.replicas.isEmpty
    | _ => false
  | _ => true

/-- The cache after a sequence of orderly calls that all succeed. -/
def runOrderlyOps (c : AdapterCache) : List CacheOp → Option AdapterCache
  | [] => some c
  | op :: rest =>
    if op.orderly c then
      match op.run c with
      | some c2 => runOrderlyOps c2 rest
      | none => none
    else none

/-- Every server adapter of the cache that names a replica group is referenced exactly
once in the replica sequence of the group of that id. -/
def linkedOnce (c : AdapterCache) : Prop :=
  ∀ id e, c.getImpl id = some (.server e) → e.replicaGroupId ≠ "" →
    ∃ G, c.getImpl e.replicaGroupId = some (.group G) ∧ G.replicas.count e = 1

/-- The invariant of the cache that orderly calls keep. -/
structure CacheInv (c : AdapterCache) : Prop where
  keyed : ∀ id e, c.getImpl id = some (.server e) → e.id = id
  linked : ∀ id e, c.getImpl id = some (.server e) → e.replicaGroupId ≠ "" →
    ∃ G, c.getImpl e.replicaGroupId = some (.group G) ∧ e ∈ G.replicas
  members : ∀ gid G, c.getImpl gid = some (.group G) → ∀ r ∈ G.replicas,
    c.getImpl r.id = some (.server r) ∧ r.replicaGroupId = gid ∧ r.replicaGroupId ≠ ""
  distinct : ∀ gid G, c.getImpl gid = some (.group G) →
    (G.replicas.map fun m => m.id).Nodup

namespace AdapterCache

/-- The calls that leave a member without its group: add the group `G`, add the
adapter `a` to it, remove the group. -/
def danglingOps : List CacheOp :=
  [ .addReplicaGroup ⟨"G", ⟨.RoundRobin, "0"⟩⟩ "app",
    .addServerAdapter ⟨"a", "G", "1"⟩ 7 "app",
    .removeReplicaGroup "G" ]

/-- The cache that `danglingOps` leaves behind. -/
def danglingCache : AdapterCache :=
  ⟨[("a", .server ⟨"a", "app", "G", 1, 7⟩)]⟩

/-- The calls that leave a stale reference in a group: add the group `G`, add the
adapter `a` to it, remove `a` through `removeReplicaGroup`, add `a` to `G` again. -/
def staleOps : List CacheOp :=
  [ .addReplicaGroup ⟨"G", ⟨.RoundRobin, "0"⟩⟩ "app",
    .addServerAdapter ⟨"a", "G", "1"⟩ 7 "app",
    .removeReplicaGroup "a",
    .addServerAdapter ⟨"a", "G", "1"⟩ 7 "app" ]

/-- The cache that `staleOps` leaves behind: `G` references `a` twice. -/
def staleCache : AdapterCache :=
  ⟨[("a", .server ⟨"a", "app", "G", 1, 7⟩),
    ("G", .group
      { ReplicaGroupEntry.new "G" "app" ⟨.RoundRobin, "0"⟩ with
        replicas := [⟨"a", "app", "G", 1, 7⟩, ⟨"a", "app", "G", 1, 7⟩] })]⟩

end AdapterCache

/-! ## Concrete groups, caches and server answers -/

/-- Orderly calls: add the group `G`, add `a` and `b` to it, remove `a`. -/
def orderlyOps : List CacheOp :=
  [ .addReplicaGroup ⟨"G", ⟨.RoundRobin, "0"⟩⟩ "app",
    .addServerAdapter ⟨"a", "G", "1"⟩ 7 "app",
    .addServerAdapter ⟨"b", "G", "2"⟩ 8 "app",
    .removeServerAdapter "a" ]

/-- A server adapter of the application `app` that is a member of the group `G`. -/
def exReplica (id : String) (priority : Int) (server : ServerEntryPtr) : ServerAdapterEntry :=
  { id := id, application := "app", replicaGroupId := "G", priority := priority,
    server := server }

/-- The group `G` built by its constructor and one `addReplica` for each replica. -/
def exGroup (kind : PolicyKind) (replicas : List ServerAdapterEntry) : ReplicaGroupEntry :=
  replicas.foldl (fun g r => g.addReplica r.id r)
    (ReplicaGroupEntry.new "G" "app" ⟨kind, "0"⟩)

/-- Every server handle `s` gives the proxy `100 + s` and the load `s`. -/
def envHealthy : ServerEnv where
  getAdapter := fun s _ _ => .ok (100 + s)
  getLoad := fun s _ => .ok (s : Rat)

/-- The node of server 2 is unreachable; server 1 reports the load 2.0 and every other
server the load 0.5. -/
def envOneDown : ServerEnv where
  getAdapter := fun s _ _ =>
    if s = 2 then .error Exn.NodeUnreachableException else .ok (100 + s)
  getLoad := fun s _ =>
    if s = 2 then .error Exn.NodeUnreachableException
    else if s = 1 then .ok 2 else .ok (1 / 2)

/-- The round-robin group `[A, B, C]`. -/
def groupABC : ReplicaGroupEntry :=
  exGroup .RoundRobin [exReplica "A" 0 1, exReplica "B" 0 2, exReplica "C" 0 3]

/-- The ordered group `[X (priority 10), Y (priority 1), Z (priority 5)]`. -/
def groupXYZ : ReplicaGroupEntry :=
  exGroup .Ordered [exReplica "X" 10 1, exReplica "Y" 1 2, exReplica "Z" 5 3]

/-- The adaptive group `[P, Q, R]`. -/
def groupPQR : ReplicaGroupEntry :=
  exGroup (.Adaptive "1") [exReplica "P" 0 1, exReplica "Q" 0 2, exReplica "R" 0 3]

/-- The round-robin group `[A, B, C, D]` after three resolutions. -/
def groupABCD : ReplicaGroupEntry :=
  entryAfter refLib envHealthy 3
    (exGroup .RoundRobin
      [exReplica "A" 0 1, exReplica "B" 0 2, exReplica "C" 0 3, exReplica "D" 0 4])

/-- A cache that holds the group `G` and nothing else. -/
def cacheG : AdapterCache :=
  (AdapterCache.empty.addReplicaGroup ⟨"G", ⟨.RoundRobin, "0"⟩⟩ "app").1

/-- A cache that holds `groupABCD` and its four members. -/
def cacheABCD : AdapterCache :=
  ⟨[("G", .group groupABCD), ("A", .server (exReplica "A" 0 1)),
    ("B", .server (exReplica "B" 0 2)), ("C", .server (exReplica "C" 0 3)),
    ("D", .server (exReplica "D" 0 4))]⟩

/-- The character of a decimal digit. -/
def digitChar (d : Nat) : Char := Char.ofNat (48 + d)

/-- The number that a sequence of decimal digits denotes, most significant digit first. -/
def decimalValue (ds : List Nat) : Nat := ds.foldl (fun acc d => acc * 10 + d) 0

/-- The string of an optional minus sign followed by decimal digits. -/
def decimalString (neg : Bool) (ds : List Nat) : String :=
  String.mk ((if neg then ['-'] else []) ++ ds.map digitChar)

/-- The string `s` is a decimal integer and denotes `v`. -/
def denotesInt (s : String) (v : Int) : Prop :=
  ∃ (neg : Bool) (ds : List Nat), ds ≠ [] ∧ (∀ d ∈ ds, d < 10) ∧ s = decimalString neg ds ∧
    v = if neg then -(decimalValue ds : Int) else (decimalValue ds : Int)

/-- The string is empty, or it starts with a character that can start neither a number
nor the white space before one. -/
def nonNumeric (s : String) : Prop :=
  match s.toList with
  | [] => True
  | c :: _ =>
    c.isDigit = false ∧ c ≠ '-' ∧ c ≠ '+' ∧
      ¬ (c = ' ' ∨ c = '\t' ∨ c = '\n' ∨ c = '\r' ∨ c.toNat = 11 ∨ c.toNat = 12)

/-- The filter of `getProxy` is set and is not the replica group of the entry. -/
def filterMismatch (e : ServerAdapterEntry) (replicaGroupId : String) : Prop :=
  replicaGroupId ≠ "" ∧ e.replicaGroupId ≠ replicaGroupId

/-- The group `G` with the raw `nReplicas` string `raw` and the given replicas. -/
def exGroupRaw (raw : String) (replicas : List ServerAdapterEntry) : ReplicaGroupEntry :=
  replicas.foldl (fun g r => g.addReplica r.id r)
    (ReplicaGroupEntry.new "G" "app" ⟨.RoundRobin, raw⟩)

/-- A group of four members built with the raw `nReplicas` string `-7`. -/
def groupClamped : ReplicaGroupEntry :=
  exGroupRaw "-7" [exReplica "A" 0 1, exReplica "B" 0 2, exReplica "C" 0 3, exReplica "D" 0 4]

/-- The server 2 does not exist any more. -/
def envServerGone : ServerEnv where
  getAdapter := fun s _ _ =>
    if s = 2 then .error Exn.ServerNotExistException else .ok (100 + s)
  getLoad := fun s _ =>
    if s = 2 then .error Exn.ServerNotExistException else .ok (s : Rat)

/-- The node of server 2 does not exist any more. -/
def envNodeGone : ServerEnv where
  getAdapter := fun s _ _ =>
    if s = 2 then .error Exn.NodeNotExistException else .ok (100 + s)
  getLoad := fun s _ =>
    if s = 2 then .error Exn.NodeNotExistException else .ok (s : Rat)

/-- Every server handle raises `InvalidReplicaGroupIdException`. -/
def envInvalidGroup : ServerEnv where
  getAdapter := fun _ _ _ => .error Exn.InvalidReplicaGroupIdException
  getLoad := fun s _ => .ok (s : Rat)

/-- The load of a server adapter in the words of the specification: the value the server
handle returns, or the sentinel when the handle raises an error. -/
def serverLoadReference (env : ServerEnv) (sample : LoadSample) (e : ServerAdapterEntry) : Rat :=
  match env.getLoad e.server sample with
  | .ok v => v
  | .error _ => sentinelLoad

/-- The load of a replica group in the words of the specification: the sentinel without
replicas, the value of the member when there is one, the minimum of the values of the
members otherwise. -/
def groupLoadReference (env : ServerEnv) (sample : LoadSample) (g : ReplicaGroupEntry) : Rat :=
  match g.replicas with
  | [] => sentinelLoad
  | [m] => serverLoadReference env sample m
  | m :: ms => (ms.map (serverLoadReference env sample)).foldl min (serverLoadReference env sample m)

/-- The character is white space for a formatted input function. -/
def isSpace (c : Char) : Prop :=
  c = ' ' ∨ c = '\t' ∨ c = '\n' ∨ c = '\r' ∨ c.toNat = 11 ∨ c.toNat = 12

/-- No decimal integer can be read from the string: after leading white space comes the
end of the string or a character that starts no number, or a sign that no digit follows. -/
def unparsable (s : String) : Prop :=
  ∃ ws sign rest, s.toList = ws ++ sign ++ rest ∧ (∀ c ∈ ws, isSpace c) ∧
    ((sign = [] ∧ (rest = [] ∨ ∃ c tl, rest = c :: tl ∧ ¬ isSpace c ∧ c ≠ '-' ∧ c ≠ '+' ∧
        c.isDigit = false)) ∨
     ((sign = ['-'] ∨ sign = ['+']) ∧ (rest = [] ∨ ∃ c tl, rest = c :: tl ∧
        c.isDigit = false)))

/-- The string reads as a number with the digits `ds`: it consists of white space, an
optional sign (`neg` tells whether it is a minus), the decimal digits `ds`, and a remainder
that does not continue the digits.  With no sign and no digit, the remainder starts with
no white space and no sign, so the white space and the sign are all there is of them. -/
def readsAs (s : String) (neg : Bool) (ds : List Nat) : Prop :=
  ∃ ws sign rest, s.toList = ws ++ (sign ++ (ds.map digitChar ++ rest)) ∧
    (∀ c ∈ ws, isSpace c) ∧ (∀ d ∈ ds, d < 10) ∧
    ((sign = ['-'] ∧ neg = true) ∨ (sign = ['+'] ∧ neg = false) ∨
      (sign = [] ∧ neg = false ∧
        (ds = [] → rest = [] ∨ ∃ c tl, rest = c :: tl ∧ ¬ isSpace c ∧ c ≠ '-' ∧ c ≠ '+'))) ∧
    (rest = [] ∨ ∃ c tl, rest = c :: tl ∧ c.isDigit = false)

/-- The `int` that the extraction stores for a string that reads as `neg`, `ds`: 0 without
digits, and otherwise the number the digits denote, negated after a minus sign and brought
into the range of an `int`. -/
def extractedValue (neg : Bool) (ds : List Nat) : Int :=
  if ds = [] then 0
  else clampInt (if neg then -(decimalValue ds : Int) else (decimalValue ds : Int))

/-- Seventeen server adapters `A` .. `Q` of the priority 1, on the servers 1 .. 17. -/
def tiedMembers : List ServerAdapterEntry :=
  [exReplica "A" 1 1, exReplica "B" 1 2, exReplica "C" 1 3, exReplica "D" 1 4,
    exReplica "E" 1 5, exReplica "F" 1 6, exReplica "G" 1 7, exReplica "H" 1 8,
    exReplica "I" 1 9, exReplica "J" 1 10, exReplica "K" 1 11, exReplica "L" 1 12,
    exReplica "M" 1 13, exReplica "N" 1 14, exReplica "O" 1 15, exReplica "P" 1 16,
    exReplica "Q" 1 17]

/-- The ordered group to which `A` .. `Q` are added in this order. -/
def groupTiedPriority : ReplicaGroupEntry :=
  exGroup .Ordered tiedMembers

/-- The adaptive group to which `A` .. `Q` are added in this order. -/
def groupTiedLoad : ReplicaGroupEntry :=
  exGroup (.Adaptive "1") tiedMembers

/-- Every server handle gives the proxy `100 + s` and reports the load 1. -/
def envEqualLoads : ServerEnv where
  getAdapter := fun s _ _ => .ok (100 + s)
  getLoad := fun _ _ => .ok 1

/-- A cache that holds the group `G` and its member `a`. -/
def cacheGa : AdapterCache :=
  (cacheG.addServerAdapter ⟨"a", "G", "1"⟩ 7 "app").1

/-! ## Replica-group resolution -/

namespace ReplicaGroupEntry

theorem roundRobinSnapshot_eq_rotate (g : ReplicaGroupEntry) :
    g.roundRobinSnapshot = g.replicas.rotate g.lastReplica := by
  apply List.ext_getElem
  · simp [roundRobinSnapshot]
  · intro i h1 h2
    simp [roundRobinSnapshot, List.getElem_rotate, Nat.add_comm]

theorem collectProxies_healthy (env : ServerEnv) (groupId : String)
    (prx : ServerAdapterEntry → AdapterPrx) (l : List ServerAdapterEntry)
    (h : ∀ m ∈ l, m.getProxy env groupId true = .ok (prx m)) :
    collectProxies env groupId l = .ok (l.map fun m => (m.id, prx m)) := by
  induction l with
  | nil => rfl
  | cons p rest ih =>
    have hp := h p (List.mem_cons_self _ _)
    have hr := ih fun m hm => h m (List.mem_cons_of_mem _ hm)
    simp [collectProxies, hp, hr]

theorem collectProxies_filterMap (env : ServerEnv) (groupId : String)
    (l : List ServerAdapterEntry)
    (h : ∀ m ∈ l, ∀ ex, m.getProxy env groupId true = .error ex → skipped ex) :
    collectProxies env groupId l = .ok (l.filterMap (proxyPair env groupId)) := by
  induction l with
  | nil => rfl
  | cons p rest ih =>
    have hr := ih fun m hm => h m (List.mem_cons_of_mem _ hm)
    have hp := h p (List.mem_cons_self _ _)
    cases hq : p.getProxy env groupId true with
    | ok adpt => simp [collectProxies, hq, hr, proxyPair]
    | error ex =>
      rcases hp ex hq with h1 | h1 | h1 <;> subst h1 <;>
        simp [collectProxies, hq, hr, proxyPair]

theorem collectProxies_error (env : ServerEnv) (groupId : String)
    (l1 : List ServerAdapterEntry) (m : ServerAdapterEntry) (l2 : List ServerAdapterEntry)
    (ex : Exn)
    (h1 : ∀ x ∈ l1, ∀ ex1, x.getProxy env groupId true = .error ex1 → skipped ex1)
    (hm : m.getProxy env groupId true = .error ex) (hex : ¬ skipped ex) :
    collectProxies env groupId (l1 ++ m :: l2) = .error ex := by
  induction l1 with
  | nil =>
    cases ex <;> simp [collectProxies, hm, skipped] at hex ⊢
  | cons p rest ih =>
    have hr := ih fun x hx => h1 x (List.mem_cons_of_mem _ hx)
    have hp := h1 p (List.mem_cons_self _ _)
    cases hq : p.getProxy env groupId true with
    | ok adpt => simp [collectProxies, hq, hr]
    | error ex1 =>
      rcases hp ex1 hq with h2 | h2 | h2 <;> subst h2 <;>
        simp [collectProxies, hq, hr]

theorem candidates_roundRobin (lib : StdLib) (env : ServerEnv) (g : ReplicaGroupEntry)
    (hrr : g.loadBalancing.kind = PolicyKind.RoundRobin) :
    g.candidates lib env = g.replicas.rotate g.lastReplica := by
  simp [candidates, snapshot, hrr, roundRobinSnapshot_eq_rotate]

theorem candidates_perm (lib : StdLib) (env : ServerEnv) (g : ReplicaGroupEntry) :
    (g.candidates lib env).Perm g.replicas := by
  unfold candidates snapshot
  cases hk : g.loadBalancing.kind with
  | Random => exact lib.random_shuffle_perm _
  | RoundRobin =>
    simp only [roundRobinSnapshot_eq_rotate]
    exact List.rotate_perm _ _
  | Ordered => exact lib.sort_perm _ _
  | Adaptive s =>
    simp only [adaptiveRefine]
    refine ((lib.sort_perm ReplicaLoadComp _).map TransformToReplica).trans ?_
    have hmap : (List.map (TransformToReplicaLoad env g.loadSample)
        (lib.random_shuffle g.replicas)).map TransformToReplica = lib.random_shuffle g.replicas := by
      simp [List.map_map, Function.comp_def, TransformToReplica, TransformToReplicaLoad]
    rw [hmap]
    exact lib.random_shuffle_perm _

theorem getProxies_adapters (lib : StdLib) (env : ServerEnv) (g : ReplicaGroupEntry) (n : Int) :
    (g.getProxies lib env n).adapters = collectProxies env g.id (g.candidates lib env) := by
  unfold getProxies
  split
  · rename_i hempty
    have h0 : g.replicas = [] := by simpa using hempty
    have hc : g.candidates lib env = [] := by
      have := candidates_perm lib env g
      rw [h0] at this
      exact List.Perm.eq_nil this
    rw [hc]
    rfl
  · rfl

/-- C1: for a non-empty group under the round-robin policy, one call of `getProxies` asks
the replicas in the order `r[(c + i) mod len]`, `i = 0 .. len - 1`, and changes nothing
of the entry but the cursor, which becomes `(c + 1) mod len` whatever the server handles
answer; when every member gives its proxy, the returned vector is the list of the pairs
`(id, proxy)` in that order. -/
theorem C1_roundRobin_order_and_cursor (lib : StdLib) (env : ServerEnv)
    (g : ReplicaGroupEntry) (n : Int)
    (hne : g.replicas ≠ [])
    (hrr : g.loadBalancing.kind = PolicyKind.RoundRobin) :
    (g.candidates lib env).length = g.replicas.length ∧
    (∀ i, i < g.replicas.length →
      (g.candidates lib env)[i]? = g.replicas[(g.lastReplica + i) % g.replicas.length]?) ∧
    (g.getProxies lib env n).entry =
      { g with lastReplica := (g.lastReplica + 1) % g.replicas.length } ∧
    (g.getProxies lib env n).adapters = collectProxies env g.id (g.candidates lib env) ∧
    (∀ prx : ServerAdapterEntry → AdapterPrx,
      (∀ m ∈ g.replicas, m.getProxy env g.id true = .ok (prx m)) →
      (g.getProxies lib env n).adapters =
        .ok ((g.candidates lib env).map fun m => (m.id, prx m))) := by
  have hcand := candidates_roundRobin lib env g hrr
  refine ⟨?_, ?_, ?_, getProxies_adapters lib env g n, ?_⟩
  · rw [hcand, List.length_rotate]
  · intro i hi
    have hlt : (g.lastReplica + i) % g.replicas.length < g.replicas.length :=
      Nat.mod_lt _ (by omega)
    rw [hcand, List.getElem?_eq_getElem (by simpa using hi), List.getElem?_eq_getElem hlt,
      List.getElem_rotate]
    simp [Nat.add_comm]
  · have hemp : g.replicas.isEmpty = false := by
      cases hr : g.replicas with
      | nil => exact absurd hr hne
      | cons a l => rfl
    simp [getProxies, hemp, snapshot, hrr]
  · intro prx hprx
    rw [getProxies_adapters]
    exact collectProxies_healthy env g.id prx _
      fun m hm => hprx m ((candidates_perm lib env g).mem_iff.1 hm)

/-- C2: the vector returned by `getProxies` is the candidate ordering of the policy, a
rearrangement of the replicas, restricted to the members whose `getProxy(group id)`
succeeds, in the same order and as pairs `(member id, proxy)`, provided every failing
member raises `AdapterNotExistException`, `InvalidReplicaGroupIdException` or
`NodeUnreachableException`; the first member in that order that raises another exception
makes `getProxies` fail with it. -/
theorem C2_getProxies_filters_candidates (lib : StdLib) (env : ServerEnv)
    (g : ReplicaGroupEntry) (n : Int) :
    (g.candidates lib env).Perm g.replicas ∧
    ((∀ m ∈ g.replicas, ∀ ex, m.getProxy env g.id true = .error ex → skipped ex) →
      (g.getProxies lib env n).adapters =
        .ok ((g.candidates lib env).filterMap (proxyPair env g.id))) ∧
    (∀ l1 m l2 ex, g.candidates lib env = l1 ++ m :: l2 →
      (∀ x ∈ l1, ∀ ex1, x.getProxy env g.id true = .error ex1 → skipped ex1) →
      m.getProxy env g.id true = .error ex → ¬ skipped ex →
      (g.getProxies lib env n).adapters = .error ex) := by
  refine ⟨candidates_perm lib env g, ?_, ?_⟩
  · intro h
    rw [getProxies_adapters]
    exact collectProxies_filterMap env g.id _
      fun m hm => h m ((candidates_perm lib env g).mem_iff.1 hm)
  · intro l1 m l2 ex hc h1 hm hex
    rw [getProxies_adapters, hc]
    exact collectProxies_error env g.id l1 m l2 ex h1 hm hex

theorem priorityComp_strictWeakOrder : StrictWeakOrder ReplicaPriorityComp where
  irrefl := by intro a; simp [ReplicaPriorityComp]
  trans := by
    intro a b c h1 h2
    simp only [ReplicaPriorityComp, decide_eq_true_eq] at *
    exact lt_trans h1 h2
  incomp_trans := by
    intro a b c h1 h2
    simp only [ReplicaPriorityComp, decide_eq_false_iff_not, not_lt] at *
    exact le_trans h2 h1

theorem loadComp_strictWeakOrder : StrictWeakOrder ReplicaLoadComp where
  irrefl := by intro a; simp [ReplicaLoadComp]
  trans := by
    intro a b c h1 h2
    simp only [ReplicaLoadComp, decide_eq_true_eq] at *
    exact lt_trans h1 h2
  incomp_trans := by
    intro a b c h1 h2
    simp only [ReplicaLoadComp, decide_eq_false_iff_not, not_lt] at *
    exact le_trans h2 h1

/-- A list without two equal keys that never descends ascends strictly. -/
theorem strict_of_sorted_nodup {α K : Type} [LinearOrder K] (key : α → K) (l : List α)
    (hs : l.Pairwise fun a b => ¬ key b < key a) (hn : (l.map key).Nodup) :
    l.Pairwise fun a b => key a < key b := by
  have hne : l.Pairwise fun a b => key a ≠ key b := by
    simpa [List.Nodup, List.pairwise_map] using hn
  exact (hs.and hne).imp fun h => lt_of_le_of_ne (not_lt.1 h.1) h.2

/-- Two strictly ascending arrangements of the same elements are the same list. -/
theorem ascending_unique {α K : Type} [LinearOrder K] (key : α → K) (l1 l2 : List α)
    (hp : l1.Perm l2) (h1 : l1.Pairwise fun a b => key a < key b)
    (h2 : l2.Pairwise fun a b => key a < key b) : l1 = l2 := by
  haveI : IsAntisymm α (fun a b => key a < key b) :=
    ⟨fun a b hab hba => absurd hab (lt_asymm hba)⟩
  exact List.eq_of_perm_of_sorted hp h1 h2

/-- In a strictly ascending list an element with a smaller key stands before one with a
larger key. -/
theorem sublist_pair_of_ascending {α K : Type} [LinearOrder K] (key : α → K) (l : List α)
    (hs : l.Pairwise fun a b => key a < key b) (a b : α) (ha : a ∈ l) (hb : b ∈ l)
    (hab : key a < key b) : List.Sublist [a, b] l := by
  induction l with
  | nil => cases ha
  | cons x xs ih =>
    rw [List.pairwise_cons] at hs
    rcases List.mem_cons.1 ha with hax | hax
    · rcases List.mem_cons.1 hb with hbx | hbx
      · rw [hax, hbx] at hab
        exact absurd hab (lt_irrefl _)
      · rw [hax]
        exact List.Sublist.cons₂ x (List.singleton_sublist.2 hbx)
    · rcases List.mem_cons.1 hb with hbx | hbx
      · have := hs.1 a hax
        rw [hbx] at hab
        exact absurd hab (lt_asymm this)
      · exact List.Sublist.cons x (ih hs.2 hax hbx)

theorem candidates_ordered_ascending (lib : StdLib) (env : ServerEnv) (g : ReplicaGroupEntry)
    (hord : g.loadBalancing.kind = PolicyKind.Ordered)
    (hdist : (g.replicas.map fun m => m.priority).Nodup) :
    (g.candidates lib env).Pairwise fun a b => a.priority < b.priority := by
  have hperm := candidates_perm lib env g
  have hn : ((g.candidates lib env).map fun m => m.priority).Nodup :=
    ((hperm.map _).nodup_iff).2 hdist
  refine strict_of_sorted_nodup (fun m : ServerAdapterEntry => m.priority) _ ?_ hn
  have hs := lib.sort_sorted ReplicaPriorityComp g.replicas priorityComp_strictWeakOrder
  have hc : g.candidates lib env = lib.sort ReplicaPriorityComp g.replicas := by
    simp [candidates, snapshot, hord]
  rw [hc]
  exact hs.imp fun h => by
    simpa [ReplicaPriorityComp, ServerAdapterEntry.getPriority] using h

/-- C3: under the ordered policy, when the members have pairwise distinct priorities and
every member gives its proxy, `getProxies` returns the pairs `(id, proxy)` of a
rearrangement of the replicas in strictly ascending priority; the returned vector is the
same for every cursor, every insertion order of the same replicas and every sorting
algorithm. -/
theorem C3_ordered_ascending_priority (lib : StdLib) (env : ServerEnv)
    (g : ReplicaGroupEntry) (n : Int) (prx : ServerAdapterEntry → AdapterPrx)
    (hord : g.loadBalancing.kind = PolicyKind.Ordered)
    (hdist : (g.replicas.map fun m => m.priority).Nodup)
    (hhealthy : ∀ m ∈ g.replicas, m.getProxy env g.id true = .ok (prx m)) :
    (g.candidates lib env).Perm g.replicas ∧
    ((g.candidates lib env).Pairwise fun a b => a.priority < b.priority) ∧
    (g.getProxies lib env n).adapters =
      .ok ((g.candidates lib env).map fun m => (m.id, prx m)) ∧
    (∀ (lib2 : StdLib) (g2 : ReplicaGroupEntry) (n2 : Int),
      g2.loadBalancing.kind = PolicyKind.Ordered → g2.id = g.id →
      g2.replicas.Perm g.replicas →
      (g2.getProxies lib2 env n2).adapters = (g.getProxies lib env n).adapters) := by
  have hperm := candidates_perm lib env g
  have hasc := candidates_ordered_ascending lib env g hord hdist
  refine ⟨hperm, hasc, ?_, ?_⟩
  · rw [getProxies_adapters]
    exact collectProxies_healthy env g.id prx _ fun m hm => hhealthy m (hperm.mem_iff.1 hm)
  · intro lib2 g2 n2 hord2 hid hp2
    have hperm2 := candidates_perm lib2 env g2
    have hdist2 : (g2.replicas.map fun m => m.priority).Nodup :=
      ((hp2.map _).nodup_iff).2 hdist
    have hasc2 := candidates_ordered_ascending lib2 env g2 hord2 hdist2
    have heq : g2.candidates lib2 env = g.candidates lib env :=
      ascending_unique (fun m : ServerAdapterEntry => m.priority) _ _
        ((hperm2.trans hp2).trans hperm.symm) hasc2 hasc
    rw [getProxies_adapters, getProxies_adapters, heq, hid]

/-- C4: under the adaptive policy, whatever the shuffle and the sorting algorithm do, when
the sampled loads of the members are pairwise distinct (a member whose load query raises
an exception is sampled as 999.9), `getProxies` asks a rearrangement of the replicas in
strictly ascending order of sampled load; so a member whose load query fails is asked
after every member whose sampled load is below 999.9. -/
theorem C4_adaptive_ascending_load (lib : StdLib) (env : ServerEnv)
    (g : ReplicaGroupEntry) (n : Int) (s : String)
    (hk : g.loadBalancing.kind = PolicyKind.Adaptive s)
    (hdist : (g.replicas.map fun m => m.getLeastLoadedNodeLoad env g.loadSample).Nodup) :
    (g.candidates lib env).Perm g.replicas ∧
    ((g.candidates lib env).Pairwise fun a b =>
      a.getLeastLoadedNodeLoad env g.loadSample < b.getLeastLoadedNodeLoad env g.loadSample) ∧
    (g.getProxies lib env n).adapters = collectProxies env g.id (g.candidates lib env) ∧
    (∀ (q : ServerAdapterEntry) (ex : Exn), env.getLoad q.server g.loadSample = .error ex →
      q.getLeastLoadedNodeLoad env g.loadSample = sentinelLoad) ∧
    (∀ (m q : ServerAdapterEntry) (ex : Exn), m ∈ g.replicas → q ∈ g.replicas →
      env.getLoad q.server g.loadSample = .error ex →
      m.getLeastLoadedNodeLoad env g.loadSample < sentinelLoad →
      List.Sublist [m, q] (g.candidates lib env)) := by
  have hperm := candidates_perm lib env g
  have hsent : ∀ (q : ServerAdapterEntry) (ex : Exn),
      env.getLoad q.server g.loadSample = .error ex →
      q.getLeastLoadedNodeLoad env g.loadSample = sentinelLoad := by
    intro q ex hq
    cases ex <;> simp [ServerAdapterEntry.getLeastLoadedNodeLoad, hq]
  have hn : ((g.candidates lib env).map
      fun m => m.getLeastLoadedNodeLoad env g.loadSample).Nodup :=
    ((hperm.map _).nodup_iff).2 hdist
  have hasc : (g.candidates lib env).Pairwise fun a b =>
      a.getLeastLoadedNodeLoad env g.loadSample < b.getLeastLoadedNodeLoad env g.loadSample := by
    refine strict_of_sorted_nodup
      (fun m : ServerAdapterEntry => m.getLeastLoadedNodeLoad env g.loadSample) _ ?_ hn
    have hc : g.candidates lib env =
        (lib.sort ReplicaLoadComp ((lib.random_shuffle g.replicas).map
          (TransformToReplicaLoad env g.loadSample))).map TransformToReplica := by
      simp [candidates, snapshot, hk, adaptiveRefine]
    rw [hc, List.pairwise_map]
    have hs := lib.sort_sorted ReplicaLoadComp ((lib.random_shuffle g.replicas).map
      (TransformToReplicaLoad env g.loadSample)) loadComp_strictWeakOrder
    have hmem : ∀ x ∈ lib.sort ReplicaLoadComp ((lib.random_shuffle g.replicas).map
        (TransformToReplicaLoad env g.loadSample)),
        x.1 = x.2.getLeastLoadedNodeLoad env g.loadSample := by
      intro x hx
      have hx1 := (lib.sort_perm ReplicaLoadComp _).mem_iff.1 hx
      rcases List.mem_map.1 hx1 with ⟨m, _, hm⟩
      rw [← hm]
      rfl
    refine List.Pairwise.imp_of_mem ?_ hs
    intro a b ha hb hab
    simp only [ReplicaLoadComp, decide_eq_false_iff_not] at hab
    simpa [TransformToReplica, ← hmem a ha, ← hmem b hb] using hab
  refine ⟨hperm, hasc, getProxies_adapters lib env g n, hsent, ?_⟩
  intro m q ex hm hq hqe hlt
  refine sublist_pair_of_ascending
    (fun m : ServerAdapterEntry => m.getLeastLoadedNodeLoad env g.loadSample) _ hasc m q
    (hperm.mem_iff.2 hm) (hperm.mem_iff.2 hq) ?_
  show m.getLeastLoadedNodeLoad env g.loadSample < q.getLeastLoadedNodeLoad env g.loadSample
  rw [hsent q ex hqe]
  exact hlt

theorem getProxies_entry_roundRobin (lib : StdLib) (env : ServerEnv) (g : ReplicaGroupEntry)
    (n : Int) (hne : g.replicas ≠ [])
    (hrr : g.loadBalancing.kind = PolicyKind.RoundRobin) :
    (g.getProxies lib env n).entry =
      { g with lastReplica := (g.lastReplica + 1) % g.replicas.length } := by
  have hemp : g.replicas.isEmpty = false := by
    cases hr : g.replicas with
    | nil => exact absurd hr hne
    | cons a l => rfl
  simp [getProxies, hemp, snapshot, hrr]

theorem entryAfter_roundRobin (lib : StdLib) (env : ServerEnv) (j : Nat) :
    ∀ g : ReplicaGroupEntry, g.replicas ≠ [] →
      g.loadBalancing.kind = PolicyKind.RoundRobin →
      (entryAfter lib env j g).replicas = g.replicas ∧
      (entryAfter lib env j g).id = g.id ∧
      (entryAfter lib env j g).loadBalancing = g.loadBalancing ∧
      (entryAfter lib env j g).lastReplica % g.replicas.length =
        (g.lastReplica + j) % g.replicas.length := by
  induction j with
  | zero => intro g _ _; exact ⟨rfl, rfl, rfl, rfl⟩
  | succ j ih =>
    intro g hne hrr
    have he := getProxies_entry_roundRobin lib env g 0 hne hrr
    have h := ih (g.getProxies lib env 0).entry (by rw [he]; exact hne) (by rw [he]; exact hrr)
    simp only [entryAfter]
    rw [he] at h ⊢
    refine ⟨h.1, h.2.1, h.2.2.1, ?_⟩
    rw [h.2.2.2]
    simp only [Nat.mod_add_mod]
    congr 1
    omega

theorem nthCall_roundRobin (lib : StdLib) (env : ServerEnv) (g : ReplicaGroupEntry)
    (prx : ServerAdapterEntry → AdapterPrx) (j : Nat) (hne : g.replicas ≠ [])
    (hrr : g.loadBalancing.kind = PolicyKind.RoundRobin)
    (hhealthy : ∀ m ∈ g.replicas, m.getProxy env g.id true = .ok (prx m)) :
    (nthCall lib env g j).adapters =
      .ok ((g.replicas.rotate (g.lastReplica + j)).map fun m => (m.id, prx m)) := by
  obtain ⟨h1, h2, h3, h4⟩ := entryAfter_roundRobin lib env j g hne hrr
  have hc := candidates_roundRobin lib env (entryAfter lib env j g) (by rw [h3]; exact hrr)
  rw [h1, ← List.rotate_mod, h4, List.rotate_mod] at hc
  unfold nthCall
  rw [getProxies_adapters, hc, h2]
  exact collectProxies_healthy env g.id prx _
    fun m hm => hhealthy m (List.mem_rotate.1 hm)

theorem firstCandidate_roundRobin (lib : StdLib) (env : ServerEnv) (g : ReplicaGroupEntry)
    (prx : ServerAdapterEntry → AdapterPrx) (j : Nat) (hne : g.replicas ≠ [])
    (hrr : g.loadBalancing.kind = PolicyKind.RoundRobin)
    (hhealthy : ∀ m ∈ g.replicas, m.getProxy env g.id true = .ok (prx m)) :
    firstCandidate (nthCall lib env g j) =
      (g.replicas[(g.lastReplica + j) % g.replicas.length]?).map fun m => m.id := by
  have hpos : 0 < g.replicas.length := List.length_pos.2 hne
  have hlt : (g.lastReplica + j) % g.replicas.length < g.replicas.length := Nat.mod_lt _ hpos
  have h := nthCall_roundRobin lib env g prx j hne hrr hhealthy
  have hh := List.head?_rotate hlt
  rw [List.rotate_mod] at hh
  unfold firstCandidate
  rw [h]
  cases hr : g.replicas.rotate (g.lastReplica + j) with
  | nil =>
    rw [hr] at hh
    simp at hh
    omega
  | cons a l =>
    rw [hr] at hh
    simp only [List.head?_cons] at hh
    rw [← hh]
    rfl

theorem exists_offset (c k i0 : Nat) (hi0 : i0 < k) :
    ∃ j, j < k ∧ (c + j) % k = i0 := by
  have hpos : 0 < k := by omega
  have ha : c % k < k := Nat.mod_lt _ hpos
  by_cases h : c % k ≤ i0
  · refine ⟨i0 - c % k, by omega, ?_⟩
    rw [Nat.add_mod, Nat.mod_eq_of_lt (show i0 - c % k < k by omega)]
    rw [show c % k + (i0 - c % k) = i0 by omega]
    exact Nat.mod_eq_of_lt hi0
  · refine ⟨i0 + k - c % k, by omega, ?_⟩
    rw [Nat.add_mod, Nat.mod_eq_of_lt (show i0 + k - c % k < k by omega)]
    rw [show c % k + (i0 + k - c % k) = i0 + k by omega]
    rw [Nat.add_mod_right]
    exact Nat.mod_eq_of_lt hi0

theorem offset_unique (c k j1 j2 : Nat) (h1 : j1 < k) (h2 : j2 < k)
    (h : (c + j1) % k = (c + j2) % k) : j1 = j2 :=
  Nat.ModEq.eq_of_lt_of_lt (Nat.ModEq.add_left_cancel' c h) h1 h2

/-- C5: for a round-robin group of `k >= 1` replicas with pairwise distinct ids, all giving
their proxy, and with no change of membership in between: among `k` consecutive calls of
`getProxies` every member is the first candidate of exactly one call, and the call after
them returns the same vector as the first. -/
theorem C5_roundRobin_fairness (lib : StdLib) (env : ServerEnv) (g : ReplicaGroupEntry)
    (prx : ServerAdapterEntry → AdapterPrx)
    (hrr : g.loadBalancing.kind = PolicyKind.RoundRobin)
    (hne : g.replicas ≠ [])
    (hdistinct : (g.replicas.map fun m => m.id).Nodup)
    (hhealthy : ∀ m ∈ g.replicas, m.getProxy env g.id true = .ok (prx m)) :
    (∀ m ∈ g.replicas, ∃! j, j < g.replicas.length ∧
      firstCandidate (nthCall lib env g j) = some m.id) ∧
    (nthCall lib env g g.replicas.length).adapters = (nthCall lib env g 0).adapters := by
  have hpos : 0 < g.replicas.length := List.length_pos.2 hne
  constructor
  · intro m hm
    obtain ⟨i0, hi0, hget⟩ := List.getElem_of_mem hm
    obtain ⟨j, hj, hji⟩ := exists_offset g.lastReplica g.replicas.length i0 hi0
    refine ⟨j, ⟨hj, ?_⟩, ?_⟩
    · rw [firstCandidate_roundRobin lib env g prx j hne hrr hhealthy, hji,
        List.getElem?_eq_getElem hi0, hget]
      rfl
    · rintro j2 ⟨hj2, hf2⟩
      rw [firstCandidate_roundRobin lib env g prx j2 hne hrr hhealthy] at hf2
      have hlt : (g.lastReplica + j2) % g.replicas.length < g.replicas.length :=
        Nat.mod_lt _ hpos
      rw [List.getElem?_eq_getElem hlt] at hf2
      simp only [Option.map_some', Option.some.injEq] at hf2
      have hidx : (g.lastReplica + j2) % g.replicas.length = i0 := by
        have hl1 : (g.lastReplica + j2) % g.replicas.length <
            (g.replicas.map fun m => m.id).length := by simpa using hlt
        have hl2 : i0 < (g.replicas.map fun m => m.id).length := by simpa using hi0
        refine (@List.Nodup.getElem_inj_iff _ _ hdistinct _ hl1 _ hl2).1 ?_
        simp only [List.getElem_map]
        rw [hf2, hget]
      exact offset_unique g.lastReplica g.replicas.length j2 j hj2 hj (hidx.trans hji.symm)
  · rw [nthCall_roundRobin lib env g prx _ hne hrr hhealthy,
      nthCall_roundRobin lib env g prx 0 hne hrr hhealthy]
    rw [← List.rotate_mod, Nat.add_mod_right, List.rotate_mod]
    rfl

theorem update_replicas (g : ReplicaGroupEntry) (policy : LoadBalancingPolicy) :
    (g.update policy).replicas = g.replicas ∧ (g.update policy).lastReplica = g.lastReplica := by
  unfold update
  cases policy.kind with
  | Adaptive s => simp only []; split_ifs <;> exact ⟨rfl, rfl⟩
  | _ => exact ⟨rfl, rfl⟩

theorem cursorInBounds_new (id application : String) (policy : LoadBalancingPolicy) :
    cursorInBounds (ReplicaGroupEntry.new id application policy) := by
  obtain ⟨h1, h2⟩ := update_replicas
    { id := id, application := application, loadBalancing := policy,
      loadBalancingNReplicas := 0, loadSample := .LoadSample1, replicas := [],
      lastReplica := 0 } policy
  unfold cursorInBounds ReplicaGroupEntry.new
  rw [h1, h2]
  simp

theorem cursorInBounds_apply (g : ReplicaGroupEntry) (op : GroupOp) (h : cursorInBounds g) :
    cursorInBounds (op.apply g) := by
  obtain ⟨h1, h2⟩ := h
  cases op with
  | addReplica replicaId adapter =>
    constructor
    · intro _
      simp only [GroupOp.apply, addReplica, List.length_append, List.length_singleton]
      by_cases he : g.replicas = []
      · rw [h2 he]; omega
      · have := h1 he; omega
    · intro he
      simp [GroupOp.apply, addReplica] at he
  | removeReplica replicaId =>
    simp only [GroupOp.apply, removeReplica]
    split
    · rename_i replicas _
      constructor
      · intro hne
        have hne1 : replicas ≠ [] := hne
        have hpos : 0 < replicas.length := List.length_pos.2 hne1
        have hemp : replicas.isEmpty = false := by
          cases replicas with
          | nil => exact absurd rfl hne1
          | cons a l => rfl
        simp only [hemp]
        exact Nat.mod_lt _ hpos
      · intro he
        have he1 : replicas = [] := he
        simp [he1]
    · exact ⟨h1, h2⟩
  | update policy =>
    obtain ⟨hr, hl⟩ := update_replicas g policy
    simp only [GroupOp.apply, cursorInBounds]
    rw [hr, hl]
    exact ⟨h1, h2⟩
  | getProxies lib env nReplicas =>
    simp only [GroupOp.apply, getProxies]
    split
    · exact ⟨h1, h2⟩
    · rename_i hemp
      have hne : g.replicas ≠ [] := by simpa using hemp
      unfold snapshot
      cases g.loadBalancing.kind with
      | RoundRobin =>
        constructor
        · intro _
          exact Nat.mod_lt _ (List.length_pos.2 hne)
        · intro he
          exact absurd he hne
      | _ => exact ⟨h1, h2⟩

/-- C8: after any sequence of `addReplica`, `removeReplica`, `update` and `getProxies`
calls on a freshly constructed group, the cursor is below the number of replicas when
there are replicas, and 0 when there are none. -/
theorem C8_cursor_in_bounds (id application : String) (policy : LoadBalancingPolicy)
    (ops : List GroupOp) :
    ((runGroupOps (ReplicaGroupEntry.new id application policy) ops).replicas ≠ [] →
      (runGroupOps (ReplicaGroupEntry.new id application policy) ops).lastReplica <
        (runGroupOps (ReplicaGroupEntry.new id application policy) ops).replicas.length) ∧
    ((runGroupOps (ReplicaGroupEntry.new id application policy) ops).replicas = [] →
      (runGroupOps (ReplicaGroupEntry.new id application policy) ops).lastReplica = 0) := by
  have key : ∀ (ops : List GroupOp) (g : ReplicaGroupEntry), cursorInBounds g →
      cursorInBounds (runGroupOps g ops) := by
    intro ops
    induction ops with
    | nil => intro g h; exact h
    | cons op rest ih =>
      intro g h
      exact ih (op.apply g) (cursorInBounds_apply g op h)
  exact key ops _ (cursorInBounds_new id application policy)

end ReplicaGroupEntry

/-! ## Cache bookkeeping -/

namespace AdapterCache

theorem lookup_cons_self (k : String) (b : AdapterEntry) (rest : List (String × AdapterEntry)) :
    List.lookup k ((k, b) :: rest) = some b := by
  simp [List.lookup]

theorem lookup_cons_ne (k a : String) (b : AdapterEntry) (rest : List (String × AdapterEntry))
    (h : k ≠ a) : List.lookup k ((a, b) :: rest) = List.lookup k rest := by
  have hb : (k == a) = false := by simpa using h
  simp [List.lookup, hb]

theorem lookup_filter_ne (l : List (String × AdapterEntry)) (id k : String) :
    (l.filter fun kv => kv.1 != id).lookup k = if k = id then none else l.lookup k := by
  induction l with
  | nil => simp
  | cons kv rest ih =>
    obtain ⟨a, b⟩ := kv
    by_cases ha : a = id
    · subst ha
      have hf : ((a, b) :: rest).filter (fun kv => kv.1 != a) =
          rest.filter (fun kv => kv.1 != a) := by
        simp [List.filter_cons]
      rw [hf, ih]
      by_cases hk : k = a
      · simp [hk]
      · simp [hk, lookup_cons_ne k a b rest hk]
    · have hf : ((a, b) :: rest).filter (fun kv => kv.1 != id) =
          (a, b) :: rest.filter (fun kv => kv.1 != id) := by
        simp [List.filter_cons, ha]
      rw [hf]
      by_cases hka : k = a
      · subst hka
        simp [lookup_cons_self, ha]
      · rw [lookup_cons_ne _ _ _ _ hka, lookup_cons_ne _ _ _ _ hka, ih]

theorem lookup_map_store (l : List (String × AdapterEntry)) (id k : String) (e : AdapterEntry) :
    (l.map fun kv => if kv.1 = id then (kv.1, e) else kv).lookup k =
      if k = id then (l.lookup id).map (fun _ => e) else l.lookup k := by
  induction l with
  | nil => simp
  | cons kv rest ih =>
    obtain ⟨a, b⟩ := kv
    rw [List.map_cons]
    by_cases ha : a = id
    · subst ha
      simp only [if_true]
      by_cases hk : k = a
      · subst hk
        simp [lookup_cons_self]
      · rw [lookup_cons_ne _ _ _ _ hk, lookup_cons_ne _ _ _ _ hk, ih]
        simp [hk]
    · simp only [ha, if_false]
      by_cases hka : k = a
      · subst hka
        simp [lookup_cons_self, ha]
      · rw [lookup_cons_ne _ _ _ _ hka, lookup_cons_ne _ _ _ _ hka, ih]
        by_cases hk : k = id
        · subst hk
          have : k ≠ a := hka
          simp [lookup_cons_ne k a b rest this]
        · simp [hk]

theorem getImpl_addImpl (c : AdapterCache) (id k : String) (e : AdapterEntry)
    (h : c.getImpl id = none) :
    (c.addImpl id e).getImpl k = if k = id then some e else c.getImpl k := by
  unfold addImpl
  rw [h]
  by_cases hk : k = id
  · subst hk; simp [getImpl, lookup_cons_self]
  · simp [getImpl, lookup_cons_ne _ _ _ _ hk, hk]

theorem getImpl_store (c : AdapterCache) (id k : String) (e : AdapterEntry) :
    (c.store id e).getImpl k =
      if k = id then (c.getImpl id).map (fun _ => e) else c.getImpl k :=
  lookup_map_store c.entries id k e

theorem removeImpl_present (c : AdapterCache) (id : String) (e : AdapterEntry)
    (h : c.getImpl id = some e) :
    (c.removeImpl id).2 = .ok () ∧
    ∀ k, (c.removeImpl id).1.getImpl k = if k = id then none else c.getImpl k := by
  unfold removeImpl
  rw [h]
  exact ⟨rfl, fun k => lookup_filter_ne c.entries id k⟩

theorem isEmpty_false_of_ne (s : String) (h : s ≠ "") : s.isEmpty = false := by
  cases hs : s.isEmpty with
  | false => rfl
  | true => exact absurd ((String.isEmpty_iff s).1 hs) h

theorem addServerAdapter_grouped (c : AdapterCache) (desc : AdapterDescriptor)
    (server : ServerEntryPtr) (app : String) (G : ReplicaGroupEntry)
    (habsent : c.getImpl desc.id = none)
    (hrg : desc.replicaGroupId ≠ "")
    (hG : c.getImpl desc.replicaGroupId = some (.group G)) :
    desc.replicaGroupId ≠ desc.id ∧
    c.addServerAdapter desc server app =
      ((c.addImpl desc.id (.server (newServerAdapter desc server app))).store
        desc.replicaGroupId
        (.group (G.addReplica desc.id (newServerAdapter desc server app))),
       .ok (newServerAdapter desc server app)) := by
  have hne : desc.replicaGroupId ≠ desc.id := by
    intro h
    rw [h, habsent] at hG
    cases hG
  have h1 : (c.addImpl desc.id (.server (newServerAdapter desc server app))).getImpl
      desc.replicaGroupId = some (.group G) := by
    rw [getImpl_addImpl _ _ _ _ habsent, if_neg hne, hG]
  refine ⟨hne, ?_⟩
  unfold addServerAdapter
  rw [habsent]
  simp only [isEmpty_false_of_ne _ hrg]
  change (match asReplicaGroup ((c.addImpl desc.id
    (.server (newServerAdapter desc server app))).getImpl desc.replicaGroupId) with
    | none => _
    | some repEntry => _) = _
  rw [h1]
  rfl

theorem getImpl_addServerAdapter_grouped (c : AdapterCache) (desc : AdapterDescriptor)
    (server : ServerEntryPtr) (app : String) (G : ReplicaGroupEntry)
    (habsent : c.getImpl desc.id = none)
    (hrg : desc.replicaGroupId ≠ "")
    (hG : c.getImpl desc.replicaGroupId = some (.group G)) (k : String) :
    (c.addServerAdapter desc server app).1.getImpl k =
      if k = desc.replicaGroupId then
        some (.group { G with replicas := G.replicas ++ [newServerAdapter desc server app] })
      else if k = desc.id then some (.server (newServerAdapter desc server app))
      else c.getImpl k := by
  obtain ⟨hne, hrun⟩ := addServerAdapter_grouped c desc server app G habsent hrg hG
  rw [hrun]
  simp only []
  rw [getImpl_store]
  by_cases hk : k = desc.replicaGroupId
  · rw [if_pos hk, if_pos hk, getImpl_addImpl _ _ _ _ habsent, if_neg hne, hG]
    rfl
  · rw [if_neg hk, if_neg hk, getImpl_addImpl _ _ _ _ habsent]

/-- C6: when `desc.id` is not in the cache and `desc.replicaGroupId` is not empty and
names a replica group `G` of the cache, `addServerAdapter` succeeds; afterwards
`getServerAdapter(desc.id)` returns the new entry, `G` is unchanged but for its replica
sequence, which is the old one with the new entry appended at the end, and every other id
maps to what it mapped to before. -/
theorem C6_addServerAdapter_appends (c : AdapterCache) (desc : AdapterDescriptor)
    (server : ServerEntryPtr) (app : String) (G : ReplicaGroupEntry)
    (habsent : c.getImpl desc.id = none)
    (hrg : desc.replicaGroupId ≠ "")
    (hG : c.getImpl desc.replicaGroupId = some (.group G)) :
    (c.addServerAdapter desc server app).2 = .ok (newServerAdapter desc server app) ∧
    (c.addServerAdapter desc server app).1.getServerAdapter desc.id =
      .ok (newServerAdapter desc server app) ∧
    (c.addServerAdapter desc server app).1.getReplicaGroup desc.replicaGroupId =
      .ok { G with replicas := G.replicas ++ [newServerAdapter desc server app] } ∧
    (∀ k, k ≠ desc.id → k ≠ desc.replicaGroupId →
      (c.addServerAdapter desc server app).1.getImpl k = c.getImpl k) := by
  obtain ⟨hne, hrun⟩ := addServerAdapter_grouped c desc server app G habsent hrg hG
  have h1 : (c.addImpl desc.id (.server (newServerAdapter desc server app))).getImpl
      desc.replicaGroupId = some (.group G) := by
    rw [getImpl_addImpl _ _ _ _ habsent, if_neg hne, hG]
  rw [hrun]
  refine ⟨rfl, ?_, ?_, ?_⟩
  · simp only [getServerAdapter]
    rw [getImpl_store, if_neg (Ne.symm hne), getImpl_addImpl _ _ _ _ habsent, if_pos rfl]
    rfl
  · simp only [getReplicaGroup]
    rw [getImpl_store, if_pos rfl, h1]
    rfl
  · intro k hk1 hk2
    simp only []
    rw [getImpl_store, if_neg hk2, getImpl_addImpl _ _ _ _ habsent, if_neg hk1]

theorem eraseFirst_found (id : String) (l : List ServerAdapterEntry)
    (h : ∃ m ∈ l, m.id = id) :
    ∃ l1 m l2, l = l1 ++ m :: l2 ∧ m.id = id ∧ (∀ x ∈ l1, x.id ≠ id) ∧
      ReplicaGroupEntry.eraseFirst id l = (l1 ++ l2, true) := by
  induction l with
  | nil =>
    obtain ⟨m, hm, _⟩ := h
    cases hm
  | cons p rest ih =>
    by_cases hp : id = p.id
    · refine ⟨[], p, rest, rfl, hp.symm, ?_, ?_⟩
      · intro x hx; cases hx
      · simp [ReplicaGroupEntry.eraseFirst, hp]
    · have hrest : ∃ m ∈ rest, m.id = id := by
        obtain ⟨m, hm, hmid⟩ := h
        rcases List.mem_cons.1 hm with h1 | h1
        · exact absurd (h1 ▸ hmid.symm) hp
        · exact ⟨m, h1, hmid⟩
      obtain ⟨l1, m, l2, hl, hmid, hl1, he⟩ := ih hrest
      refine ⟨p :: l1, m, l2, by rw [hl]; rfl, hmid, ?_, ?_⟩
      · intro x hx
        rcases List.mem_cons.1 hx with h1 | h1
        · rw [h1]; exact fun h2 => hp h2.symm
        · exact hl1 x h1
      · simp [ReplicaGroupEntry.eraseFirst, hp, he]

theorem eraseFirst_not_found (id : String) (l : List ServerAdapterEntry)
    (h : ∀ m ∈ l, m.id ≠ id) : ReplicaGroupEntry.eraseFirst id l = (l, false) := by
  induction l with
  | nil => rfl
  | cons p rest ih =>
    have hp : ¬ id = p.id := fun h1 => h p (List.mem_cons_self _ _) h1.symm
    have hr := ih fun m hm => h m (List.mem_cons_of_mem _ hm)
    simp [ReplicaGroupEntry.eraseFirst, hp, hr]

theorem removeServerAdapter_grouped (c : AdapterCache) (id : String)
    (e : ServerAdapterEntry) (G : ReplicaGroupEntry)
    (he : c.getImpl id = some (.server e))
    (hrg : e.replicaGroupId ≠ "")
    (hG : c.getImpl e.replicaGroupId = some (.group G)) :
    e.replicaGroupId ≠ id ∧
    c.removeServerAdapter id =
      ((c.removeImpl id).1.store e.replicaGroupId (.group (G.removeReplica id)), .ok ()) := by
  have hne : e.replicaGroupId ≠ id := by
    intro h
    rw [h, he] at hG
    cases hG
  obtain ⟨hok, hget⟩ := removeImpl_present c id _ he
  have h1 : (c.removeImpl id).1.getImpl e.replicaGroupId = some (.group G) := by
    rw [hget, if_neg hne, hG]
  refine ⟨hne, ?_⟩
  unfold removeServerAdapter
  rw [he]
  simp only [asServerAdapter]
  have hsplit : c.removeImpl id = ((c.removeImpl id).1, .ok ()) := by
    rw [← hok]
  rw [hsplit]
  simp only [isEmpty_false_of_ne _ hrg, h1, asReplicaGroup]
  rfl

theorem getImpl_removeServerAdapter_grouped (c : AdapterCache) (id : String)
    (e : ServerAdapterEntry) (G : ReplicaGroupEntry)
    (he : c.getImpl id = some (.server e))
    (hrg : e.replicaGroupId ≠ "")
    (hG : c.getImpl e.replicaGroupId = some (.group G)) (k : String) :
    (c.removeServerAdapter id).1.getImpl k =
      if k = e.replicaGroupId then some (.group (G.removeReplica id))
      else if k = id then none
      else c.getImpl k := by
  obtain ⟨hne, hrun⟩ := removeServerAdapter_grouped c id e G he hrg hG
  obtain ⟨_, hget⟩ := removeImpl_present c id _ he
  rw [hrun]
  simp only []
  rw [getImpl_store]
  by_cases hk : k = e.replicaGroupId
  · rw [if_pos hk, if_pos hk, hget, if_neg hne, hG]
    rfl
  · rw [if_neg hk, if_neg hk, hget]

theorem not_mem_keys_of_lookup_none (l : List (String × AdapterEntry)) (id : String)
    (h : l.lookup id = none) : id ∉ l.map Prod.fst := by
  induction l with
  | nil => simp
  | cons kv rest ih =>
    obtain ⟨a, b⟩ := kv
    by_cases ha : id = a
    · subst ha
      rw [lookup_cons_self] at h
      cases h
    · rw [lookup_cons_ne _ _ _ _ ha] at h
      simp only [List.map_cons, List.mem_cons, not_or]
      exact ⟨ha, ih h⟩

theorem not_mem_ids_of_getImpl_none (c : AdapterCache) (id : String)
    (h : c.getImpl id = none) : id ∉ c.ids :=
  not_mem_keys_of_lookup_none c.entries id h

theorem ids_store (c : AdapterCache) (id : String) (e : AdapterEntry) :
    (c.store id e).ids = c.ids := by
  unfold store ids
  simp only [List.map_map]
  apply List.map_congr_left
  intro kv _
  simp only [Function.comp]
  split <;> rfl

theorem ids_addImpl_nodup (c : AdapterCache) (id : String) (e : AdapterEntry)
    (h : c.ids.Nodup) : (c.addImpl id e).ids.Nodup := by
  unfold addImpl
  cases hg : c.getImpl id with
  | some x => exact h
  | none =>
    show ((id, e) :: c.entries).map Prod.fst |>.Nodup
    rw [List.map_cons, List.nodup_cons]
    exact ⟨not_mem_ids_of_getImpl_none c id hg, h⟩

/-- C10: when `id` is in the cache, as a server adapter or as a replica group,
`addServerAdapter` and `addReplicaGroup` with that id both fail on their assertion that
the id is absent and leave the cache as it was; and no call of either function makes the
store hold two entries under one id. -/
theorem C10_add_existing_id_fails (c : AdapterCache) (id : String) (x : AdapterEntry)
    (hpresent : c.getImpl id = some x) :
    (∀ (desc : AdapterDescriptor) (server : ServerEntryPtr) (app : String), desc.id = id →
      c.addServerAdapter desc server app = (c, .error .AlreadyExists)) ∧
    (∀ (desc : ReplicaGroupDescriptor) (app : String), desc.id = id →
      c.addReplicaGroup desc app = (c, .error .AlreadyExists)) ∧
    (∀ (desc : AdapterDescriptor) (server : ServerEntryPtr) (app : String), c.ids.Nodup →
      (c.addServerAdapter desc server app).1.ids.Nodup) ∧
    (∀ (desc : ReplicaGroupDescriptor) (app : String), c.ids.Nodup →
      (c.addReplicaGroup desc app).1.ids.Nodup) := by
  refine ⟨?_, ?_, ?_, ?_⟩
  · intro desc server app hid
    unfold addServerAdapter
    rw [hid, hpresent]
  · intro desc app hid
    unfold addReplicaGroup
    rw [hid, hpresent]
  · intro desc server app hn
    unfold addServerAdapter
    split
    · exact hn
    · simp only []
      split
      · split
        · exact ids_addImpl_nodup c _ _ hn
        · rw [ids_store]
          exact ids_addImpl_nodup c _ _ hn
      · exact ids_addImpl_nodup c _ _ hn
  · intro desc app hn
    unfold addReplicaGroup
    split
    · exact hn
    · exact ids_addImpl_nodup c _ _ hn

theorem isEmpty_true_of_eq (s : String) (h : s = "") : s.isEmpty = true :=
  (String.isEmpty_iff s).2 h

theorem addServerAdapter_ungrouped (c : AdapterCache) (desc : AdapterDescriptor)
    (server : ServerEntryPtr) (app : String)
    (habsent : c.getImpl desc.id = none) (hrg : desc.replicaGroupId = "") :
    c.addServerAdapter desc server app =
      (c.addImpl desc.id (.server (newServerAdapter desc server app)),
       .ok (newServerAdapter desc server app)) := by
  unfold addServerAdapter
  rw [habsent]
  simp only [isEmpty_true_of_eq _ hrg]
  rfl

theorem addServerAdapter_no_group (c : AdapterCache) (desc : AdapterDescriptor)
    (server : ServerEntryPtr) (app : String)
    (habsent : c.getImpl desc.id = none) (hrg : desc.replicaGroupId ≠ "")
    (hG : asReplicaGroup (c.getImpl desc.replicaGroupId) = none) :
    c.addServerAdapter desc server app =
      (c.addImpl desc.id (.server (newServerAdapter desc server app)),
       .error .InvariantViolation) := by
  have h1 : asReplicaGroup ((c.addImpl desc.id
      (.server (newServerAdapter desc server app))).getImpl desc.replicaGroupId) = none := by
    rw [getImpl_addImpl _ _ _ _ habsent]
    split
    · rfl
    · exact hG
  unfold addServerAdapter
  rw [habsent]
  simp only [isEmpty_false_of_ne _ hrg]
  change (match asReplicaGroup ((c.addImpl desc.id
    (.server (newServerAdapter desc server app))).getImpl desc.replicaGroupId) with
    | none => _
    | some repEntry => _) = _
  rw [h1]
  rfl

theorem asReplicaGroup_eq_none_or (x : Option AdapterEntry) :
    asReplicaGroup x = none ∨ ∃ G, x = some (.group G) := by
  cases x with
  | none => exact Or.inl rfl
  | some y =>
    cases y with
    | server e => exact Or.inl rfl
    | group G => exact Or.inr ⟨G, rfl⟩

theorem asServerAdapter_eq_none_or (x : Option AdapterEntry) :
    asServerAdapter x = none ∨ ∃ e, x = some (.server e) := by
  cases x with
  | none => exact Or.inl rfl
  | some y =>
    cases y with
    | server e => exact Or.inr ⟨e, rfl⟩
    | group G => exact Or.inl rfl

theorem addServerAdapter_ok (c c2 : AdapterCache) (desc : AdapterDescriptor)
    (server : ServerEntryPtr) (app : String) (e2 : ServerAdapterEntry)
    (h : c.addServerAdapter desc server app = (c2, .ok e2)) :
    c.getImpl desc.id = none ∧
    ((desc.replicaGroupId = "" ∧
      ∀ k, c2.getImpl k =
        if k = desc.id then some (.server (newServerAdapter desc server app))
        else c.getImpl k) ∨
     (desc.replicaGroupId ≠ "" ∧ desc.replicaGroupId ≠ desc.id ∧
      ∃ G, c.getImpl desc.replicaGroupId = some (.group G) ∧
      ∀ k, c2.getImpl k =
        if k = desc.replicaGroupId then
          some (.group { G with replicas := G.replicas ++ [newServerAdapter desc server app] })
        else if k = desc.id then some (.server (newServerAdapter desc server app))
        else c.getImpl k)) := by
  cases habsent : c.getImpl desc.id with
  | some x =>
    unfold addServerAdapter at h
    rw [habsent] at h
    cases h
  | none =>
    refine ⟨rfl, ?_⟩
    by_cases hrg : desc.replicaGroupId = ""
    · left
      refine ⟨hrg, ?_⟩
      rw [addServerAdapter_ungrouped c desc server app habsent hrg] at h
      have hc : c.addImpl desc.id (.server (newServerAdapter desc server app)) = c2 :=
        congrArg Prod.fst h
      intro k
      rw [← hc, getImpl_addImpl _ _ _ _ habsent]
    · right
      rcases asReplicaGroup_eq_none_or (c.getImpl desc.replicaGroupId) with hG | ⟨G, hG⟩
      · rw [addServerAdapter_no_group c desc server app habsent hrg hG] at h
        have := congrArg Prod.snd h
        cases this
      · obtain ⟨hne, _⟩ := addServerAdapter_grouped c desc server app G habsent hrg hG
        refine ⟨hrg, hne, G, hG, ?_⟩
        intro k
        have hk := getImpl_addServerAdapter_grouped c desc server app G habsent hrg hG k
        rw [h] at hk
        exact hk

theorem addReplicaGroup_ok (c c2 : AdapterCache) (desc : ReplicaGroupDescriptor)
    (app : String) (g2 : ReplicaGroupEntry)
    (h : c.addReplicaGroup desc app = (c2, .ok g2)) :
    c.getImpl desc.id = none ∧
    ∀ k, c2.getImpl k =
      if k = desc.id then some (.group (ReplicaGroupEntry.new desc.id app desc.loadBalancing))
      else c.getImpl k := by
  cases habsent : c.getImpl desc.id with
  | some x =>
    unfold addReplicaGroup at h
    rw [habsent] at h
    cases h
  | none =>
    refine ⟨rfl, ?_⟩
    unfold addReplicaGroup at h
    rw [habsent] at h
    have hc : c.addImpl desc.id
        (.group (ReplicaGroupEntry.new desc.id app desc.loadBalancing)) = c2 :=
      congrArg Prod.fst h
    intro k
    rw [← hc, getImpl_addImpl _ _ _ _ habsent]

theorem removeServerAdapter_ungrouped (c : AdapterCache) (id : String)
    (e : ServerAdapterEntry) (he : c.getImpl id = some (.server e))
    (hrg : e.replicaGroupId = "") :
    c.removeServerAdapter id = ((c.removeImpl id).1, .ok ()) := by
  obtain ⟨hok, _⟩ := removeImpl_present c id _ he
  unfold removeServerAdapter
  rw [he]
  simp only [asServerAdapter]
  have hsplit : c.removeImpl id = ((c.removeImpl id).1, .ok ()) := by
    rw [← hok]
  rw [hsplit]
  simp only [isEmpty_true_of_eq _ hrg]
  rfl

theorem removeServerAdapter_no_group (c : AdapterCache) (id : String)
    (e : ServerAdapterEntry) (he : c.getImpl id = some (.server e))
    (hrg : e.replicaGroupId ≠ "")
    (hG : asReplicaGroup (c.getImpl e.replicaGroupId) = none) :
    c.removeServerAdapter id = ((c.removeImpl id).1, .error .InvariantViolation) := by
  obtain ⟨hok, hget⟩ := removeImpl_present c id _ he
  have h1 : asReplicaGroup ((c.removeImpl id).1.getImpl e.replicaGroupId) = none := by
    rw [hget]
    split
    · rfl
    · exact hG
  unfold removeServerAdapter
  rw [he]
  simp only [asServerAdapter]
  have hsplit : c.removeImpl id = ((c.removeImpl id).1, .ok ()) := by
    rw [← hok]
  rw [hsplit]
  simp only [isEmpty_false_of_ne _ hrg, h1]
  rfl

theorem removeServerAdapter_ok (c c2 : AdapterCache) (id : String)
    (h : c.removeServerAdapter id = (c2, .ok ())) :
    ∃ e, c.getImpl id = some (.server e) ∧
    ((e.replicaGroupId = "" ∧
      ∀ k, c2.getImpl k = if k = id then none else c.getImpl k) ∨
     (e.replicaGroupId ≠ "" ∧ e.replicaGroupId ≠ id ∧
      ∃ G, c.getImpl e.replicaGroupId = some (.group G) ∧
      ∀ k, c2.getImpl k =
        if k = e.replicaGroupId then some (.group (G.removeReplica id))
        else if k = id then none
        else c.getImpl k)) := by
  rcases asServerAdapter_eq_none_or (c.getImpl id) with hn | ⟨e, he⟩
  · unfold removeServerAdapter at h
    rw [hn] at h
    cases h
  · refine ⟨e, he, ?_⟩
    obtain ⟨_, hget⟩ := removeImpl_present c id _ he
    by_cases hrg : e.replicaGroupId = ""
    · left
      refine ⟨hrg, ?_⟩
      rw [removeServerAdapter_ungrouped c id e he hrg] at h
      have hc : (c.removeImpl id).1 = c2 := congrArg Prod.fst h
      intro k
      rw [← hc, hget]
    · right
      rcases asReplicaGroup_eq_none_or (c.getImpl e.replicaGroupId) with hG | ⟨G, hG⟩
      · rw [removeServerAdapter_no_group c id e he hrg hG] at h
        have := congrArg Prod.snd h
        cases this
      · obtain ⟨hne, _⟩ := removeServerAdapter_grouped c id e G he hrg hG
        refine ⟨hrg, hne, G, hG, ?_⟩
        intro k
        have hk := getImpl_removeServerAdapter_grouped c id e G he hrg hG k
        rw [h] at hk
        exact hk

theorem cacheInv_empty : CacheInv AdapterCache.empty where
  keyed := by intro id e h; cases h
  linked := by intro id e h; cases h
  members := by intro gid G h; cases h
  distinct := by intro gid G h; cases h

theorem linkedOnce_of_cacheInv (c : AdapterCache) (h : CacheInv c) : linkedOnce c := by
  intro id e he hrg
  obtain ⟨G, hG, hmem⟩ := h.linked id e he hrg
  refine ⟨G, hG, ?_⟩
  have hnd : G.replicas.Nodup := List.Nodup.of_map _ (h.distinct _ G hG)
  exact List.count_eq_one_of_mem hnd hmem

theorem cacheInv_addReplicaGroup (c c2 : AdapterCache) (desc : ReplicaGroupDescriptor)
    (app : String) (g2 : ReplicaGroupEntry) (hinv : CacheInv c)
    (h : c.addReplicaGroup desc app = (c2, .ok g2)) : CacheInv c2 := by
  obtain ⟨habsent, hget⟩ := addReplicaGroup_ok c c2 desc app g2 h
  have hnew : (ReplicaGroupEntry.new desc.id app desc.loadBalancing).replicas = [] :=
    (ReplicaGroupEntry.update_replicas _ _).1
  have hold : ∀ k x, c.getImpl k = some x → c2.getImpl k = some x := by
    intro k x hk
    rw [hget]
    split
    · rename_i hkid
      rw [hkid, habsent] at hk
      cases hk
    · exact hk
  constructor
  · intro id e he
    rw [hget] at he
    split at he
    · cases he
    · exact hinv.keyed id e he
  · intro id e he hrg
    rw [hget] at he
    split at he
    · cases he
    · obtain ⟨G, hG, hm⟩ := hinv.linked id e he hrg
      exact ⟨G, hold _ _ hG, hm⟩
  · intro gid G hG r hr
    rw [hget] at hG
    split at hG
    · simp only [Option.some.injEq, AdapterEntry.group.injEq] at hG
      rw [← hG, hnew] at hr
      cases hr
    · obtain ⟨h1, h2, h3⟩ := hinv.members gid G hG r hr
      exact ⟨hold _ _ h1, h2, h3⟩
  · intro gid G hG
    rw [hget] at hG
    split at hG
    · simp only [Option.some.injEq, AdapterEntry.group.injEq] at hG
      rw [← hG, hnew]
      exact List.nodup_nil
    · exact hinv.distinct gid G hG

theorem ne_of_server_of_group (c : AdapterCache) (a b : String) (e : ServerAdapterEntry)
    (G : ReplicaGroupEntry) (ha : c.getImpl a = some (.server e))
    (hb : c.getImpl b = some (.group G)) : a ≠ b := by
  intro h
  rw [h, hb] at ha
  cases ha

theorem ne_of_present_of_absent (c : AdapterCache) (a b : String) (x : AdapterEntry)
    (ha : c.getImpl a = some x) (hb : c.getImpl b = none) : a ≠ b := by
  intro h
  rw [h, hb] at ha
  cases ha

theorem cacheInv_addServerAdapter (c c2 : AdapterCache) (desc : AdapterDescriptor)
    (server : ServerEntryPtr) (app : String) (e2 : ServerAdapterEntry) (hinv : CacheInv c)
    (h : c.addServerAdapter desc server app = (c2, .ok e2)) : CacheInv c2 := by
  obtain ⟨habsent, hcase⟩ := addServerAdapter_ok c c2 desc server app e2 h
  rcases hcase with ⟨hrg, hget⟩ | ⟨hrg, hne, G, hG, hget⟩
  · have hold : ∀ k x, c.getImpl k = some x → c2.getImpl k = some x := by
      intro k x hk
      rw [hget, if_neg (ne_of_present_of_absent c _ _ x hk habsent)]
      exact hk
    constructor
    · intro id e he
      rw [hget] at he
      split at he
      · rename_i hid
        simp only [Option.some.injEq, AdapterEntry.server.injEq] at he
        rw [← he, hid]
        rfl
      · exact hinv.keyed id e he
    · intro id e he hne
      rw [hget] at he
      split at he
      · simp only [Option.some.injEq, AdapterEntry.server.injEq] at he
        rw [← he] at hne
        exact absurd hrg hne
      · obtain ⟨G, hG, hm⟩ := hinv.linked id e he hne
        exact ⟨G, hold _ _ hG, hm⟩
    · intro gid G hG r hr
      rw [hget] at hG
      split at hG
      · cases hG
      · obtain ⟨h1, h2, h3⟩ := hinv.members gid G hG r hr
        exact ⟨hold _ _ h1, h2, h3⟩
    · intro gid G hG
      rw [hget] at hG
      split at hG
      · cases hG
      · exact hinv.distinct gid G hG
  · have hold : ∀ k x, c.getImpl k = some x → k ≠ desc.replicaGroupId →
        c2.getImpl k = some x := by
      intro k x hk hk2
      rw [hget, if_neg hk2, if_neg (ne_of_present_of_absent c _ _ x hk habsent)]
      exact hk
    have hnew : c2.getImpl desc.replicaGroupId = some (.group
        { G with replicas := G.replicas ++ [newServerAdapter desc server app] }) := by
      rw [hget, if_pos rfl]
    have hnewS : c2.getImpl desc.id = some (.server (newServerAdapter desc server app)) := by
      rw [hget, if_neg (Ne.symm hne), if_pos rfl]
    constructor
    · intro id e he
      rw [hget] at he
      split at he
      · cases he
      · split at he
        · rename_i _ hid
          simp only [Option.some.injEq, AdapterEntry.server.injEq] at he
          rw [← he, hid]
          rfl
        · exact hinv.keyed id e he
    · intro id e he hne2
      rw [hget] at he
      split at he
      · cases he
      · split at he
        · simp only [Option.some.injEq, AdapterEntry.server.injEq] at he
          rw [← he]
          exact ⟨_, hnew, by simp⟩
        · obtain ⟨G0, hG0, hm⟩ := hinv.linked id e he hne2
          by_cases hrg2 : e.replicaGroupId = desc.replicaGroupId
          · rw [hrg2] at hG0 ⊢
            rw [hG] at hG0
            simp only [Option.some.injEq, AdapterEntry.group.injEq] at hG0
            refine ⟨_, hnew, ?_⟩
            rw [hG0]
            exact List.mem_append_left _ hm
          · exact ⟨G0, hold _ _ hG0 hrg2, hm⟩
    · intro gid G1 hG1 r hr
      rw [hget] at hG1
      split at hG1
      · rename_i hgid
        simp only [Option.some.injEq, AdapterEntry.group.injEq] at hG1
        rw [← hG1] at hr
        rcases List.mem_append.1 hr with hr1 | hr1
        · obtain ⟨h1, h2, h3⟩ := hinv.members _ G hG r hr1
          exact ⟨hold _ _ h1 (ne_of_server_of_group c _ _ r G h1 hG), by rw [h2, hgid], h3⟩
        · rw [List.mem_singleton.1 hr1]
          exact ⟨hnewS, hgid.symm, hrg⟩
      · split at hG1
        · cases hG1
        · obtain ⟨h1, h2, h3⟩ := hinv.members gid G1 hG1 r hr
          exact ⟨hold _ _ h1 (ne_of_server_of_group c _ _ r G h1 hG), h2, h3⟩
    · intro gid G1 hG1
      rw [hget] at hG1
      split at hG1
      · simp only [Option.some.injEq, AdapterEntry.group.injEq] at hG1
        rw [← hG1]
        simp only [List.map_append, List.map_cons, List.map_nil]
        refine List.Nodup.append (hinv.distinct _ G hG) (List.nodup_singleton _) ?_
        intro x hx1 hx2
        rw [List.mem_singleton.1 hx2] at hx1
        rcases List.mem_map.1 hx1 with ⟨r, hr, hrid⟩
        obtain ⟨h1, _, _⟩ := hinv.members _ G hG r hr
        have hrid2 : r.id = desc.id := hrid
        rw [hrid2, habsent] at h1
        cases h1
      · split at hG1
        · cases hG1
        · exact hinv.distinct gid G1 hG1

theorem removeReplica_cases (G : ReplicaGroupEntry) (id : String) :
    ((∀ m ∈ G.replicas, m.id ≠ id) ∧ G.removeReplica id = G) ∨
    (∃ l1 m l2, G.replicas = l1 ++ m :: l2 ∧ m.id = id ∧ (∀ x ∈ l1, x.id ≠ id) ∧
      (G.removeReplica id).replicas = l1 ++ l2) := by
  by_cases h : ∃ m ∈ G.replicas, m.id = id
  · right
    obtain ⟨l1, m, l2, hl, hmid, hl1, hef⟩ := eraseFirst_found id G.replicas h
    refine ⟨l1, m, l2, hl, hmid, hl1, ?_⟩
    simp [ReplicaGroupEntry.removeReplica, hef]
  · left
    have h2 : ∀ m ∈ G.replicas, m.id ≠ id := fun m hm hmid => h ⟨m, hm, hmid⟩
    refine ⟨h2, ?_⟩
    simp [ReplicaGroupEntry.removeReplica, eraseFirst_not_found id G.replicas h2]

theorem removeReplica_sublist (G : ReplicaGroupEntry) (id : String) :
    List.Sublist (G.removeReplica id).replicas G.replicas := by
  rcases removeReplica_cases G id with ⟨_, h⟩ | ⟨l1, m, l2, hl, _, _, hr⟩
  · rw [h]
  · rw [hr, hl]
    exact List.Sublist.append (List.Sublist.refl l1) (List.sublist_cons_self m l2)

theorem removeReplica_keeps (G : ReplicaGroupEntry) (id : String) (r : ServerAdapterEntry)
    (hr : r ∈ G.replicas) (hne : r.id ≠ id) : r ∈ (G.removeReplica id).replicas := by
  rcases removeReplica_cases G id with ⟨_, h⟩ | ⟨l1, m, l2, hl, hmid, _, hrep⟩
  · rw [h]; exact hr
  · rw [hrep]
    rw [hl] at hr
    rcases List.mem_append.1 hr with h1 | h1
    · exact List.mem_append_left _ h1
    · rcases List.mem_cons.1 h1 with h2 | h2
      · rw [h2] at hne
        exact absurd hmid hne
      · exact List.mem_append_right _ h2

theorem removeReplica_drops (G : ReplicaGroupEntry) (id : String)
    (hnd : (G.replicas.map fun m => m.id).Nodup) :
    ∀ r ∈ (G.removeReplica id).replicas, r.id ≠ id := by
  rcases removeReplica_cases G id with ⟨h0, h⟩ | ⟨l1, m, l2, hl, hmid, hl1, hrep⟩
  · rw [h]; exact h0
  · intro r hr
    rw [hrep] at hr
    rw [hl] at hnd
    simp only [List.map_append, List.map_cons] at hnd
    rcases List.mem_append.1 hr with h1 | h1
    · exact hl1 r h1
    · intro hrid
      have h3 := (List.nodup_cons.1 (List.Nodup.of_append_right hnd)).1
      apply h3
      rw [hmid, ← hrid]
      exact List.mem_map_of_mem _ h1

theorem cacheInv_removeServerAdapter (c c2 : AdapterCache) (id : String) (hinv : CacheInv c)
    (h : c.removeServerAdapter id = (c2, .ok ())) : CacheInv c2 := by
  obtain ⟨e, he, hcase⟩ := removeServerAdapter_ok c c2 id h
  rcases hcase with ⟨hrg, hget⟩ | ⟨hrg, hne, G, hG, hget⟩
  · have hold : ∀ k x, c.getImpl k = some x → k ≠ id → c2.getImpl k = some x := by
      intro k x hk hk2
      rw [hget, if_neg hk2]
      exact hk
    constructor
    · intro i e1 he1
      rw [hget] at he1
      split at he1
      · cases he1
      · exact hinv.keyed i e1 he1
    · intro i e1 he1 hne1
      rw [hget] at he1
      split at he1
      · cases he1
      · obtain ⟨G0, hG0, hm⟩ := hinv.linked i e1 he1 hne1
        exact ⟨G0, hold _ _ hG0 (Ne.symm (ne_of_server_of_group c _ _ e G0 he hG0)), hm⟩
    · intro gid G1 hG1 r hr
      rw [hget] at hG1
      split at hG1
      · cases hG1
      · obtain ⟨h1, h2, h3⟩ := hinv.members gid G1 hG1 r hr
        refine ⟨hold _ _ h1 ?_, h2, h3⟩
        intro hrid
        rw [hrid, he] at h1
        simp only [Option.some.injEq, AdapterEntry.server.injEq] at h1
        rw [← h1] at h3
        exact h3 hrg
    · intro gid G1 hG1
      rw [hget] at hG1
      split at hG1
      · cases hG1
      · exact hinv.distinct gid G1 hG1
  · have hold : ∀ k x, c.getImpl k = some x → k ≠ e.replicaGroupId → k ≠ id →
        c2.getImpl k = some x := by
      intro k x hk hk2 hk3
      rw [hget, if_neg hk2, if_neg hk3]
      exact hk
    have hnew : c2.getImpl e.replicaGroupId = some (.group (G.removeReplica id)) := by
      rw [hget, if_pos rfl]
    have hnd := hinv.distinct _ G hG
    constructor
    · intro i e1 he1
      rw [hget] at he1
      split at he1
      · cases he1
      · split at he1
        · cases he1
        · exact hinv.keyed i e1 he1
    · intro i e1 he1 hne1
      rw [hget] at he1
      split at he1
      · cases he1
      · split at he1
        · cases he1
        · rename_i _ hi
          obtain ⟨G0, hG0, hm⟩ := hinv.linked i e1 he1 hne1
          by_cases hrg2 : e1.replicaGroupId = e.replicaGroupId
          · rw [hrg2] at hG0 ⊢
            rw [hG] at hG0
            simp only [Option.some.injEq, AdapterEntry.group.injEq] at hG0
            refine ⟨_, hnew, ?_⟩
            rw [← hG0] at hm
            refine removeReplica_keeps G id e1 hm ?_
            rw [hinv.keyed i e1 he1]
            exact hi
          · exact ⟨G0, hold _ _ hG0 hrg2
              (Ne.symm (ne_of_server_of_group c _ _ e G0 he hG0)), hm⟩
    · intro gid G1 hG1 r hr
      rw [hget] at hG1
      split at hG1
      · rename_i hgid
        simp only [Option.some.injEq, AdapterEntry.group.injEq] at hG1
        rw [← hG1] at hr
        have hr0 : r ∈ G.replicas := (removeReplica_sublist G id).subset hr
        obtain ⟨h1, h2, h3⟩ := hinv.members _ G hG r hr0
        exact ⟨hold _ _ h1 (ne_of_server_of_group c _ _ r G h1 hG)
          (removeReplica_drops G id hnd r hr), by rw [h2, hgid], h3⟩
      · split at hG1
        · cases hG1
        · rename_i hgid _
          obtain ⟨h1, h2, h3⟩ := hinv.members gid G1 hG1 r hr
          refine ⟨hold _ _ h1 (ne_of_server_of_group c _ _ r G h1 hG) ?_, h2, h3⟩
          intro hrid
          rw [hrid, he] at h1
          simp only [Option.some.injEq, AdapterEntry.server.injEq] at h1
          rw [← h1] at h2
          exact hgid h2.symm
    · intro gid G1 hG1
      rw [hget] at hG1
      split at hG1
      · simp only [Option.some.injEq, AdapterEntry.group.injEq] at hG1
        rw [← hG1]
        exact List.Nodup.sublist ((removeReplica_sublist G id).map _) hnd
      · split at hG1
        · cases hG1
        · exact hinv.distinct gid G1 hG1

theorem cacheInv_removeReplicaGroup (c c2 : AdapterCache) (id : String) (hinv : CacheInv c)
    (G : ReplicaGroupEntry) (hG : c.getImpl id = some (.group G)) (hempty : G.replicas = [])
    (h : c.removeReplicaGroup id = (c2, .ok ())) : CacheInv c2 := by
  obtain ⟨_, hget0⟩ := removeImpl_present c id _ hG
  have hc : (c.removeImpl id).1 = c2 := congrArg Prod.fst h
  have hget : ∀ k, c2.getImpl k = if k = id then none else c.getImpl k := by
    intro k
    rw [← hc]
    exact hget0 k
  have hold : ∀ k x, c.getImpl k = some x → k ≠ id → c2.getImpl k = some x := by
    intro k x hk hk2
    rw [hget, if_neg hk2]
    exact hk
  constructor
  · intro i e1 he1
    rw [hget] at he1
    split at he1
    · cases he1
    · exact hinv.keyed i e1 he1
  · intro i e1 he1 hne1
    rw [hget] at he1
    split at he1
    · cases he1
    · obtain ⟨G0, hG0, hm⟩ := hinv.linked i e1 he1 hne1
      refine ⟨G0, hold _ _ hG0 ?_, hm⟩
      intro hid
      rw [hid, hG] at hG0
      simp only [Option.some.injEq, AdapterEntry.group.injEq] at hG0
      rw [← hG0, hempty] at hm
      cases hm
  · intro gid G1 hG1 r hr
    rw [hget] at hG1
    split at hG1
    · cases hG1
    · obtain ⟨h1, h2, h3⟩ := hinv.members gid G1 hG1 r hr
      exact ⟨hold _ _ h1 (ne_of_server_of_group c _ _ r G h1 hG), h2, h3⟩
  · intro gid G1 hG1
    rw [hget] at hG1
    split at hG1
    · cases hG1
    · exact hinv.distinct gid G1 hG1

theorem cacheInv_step (c c2 : AdapterCache) (op : CacheOp) (hinv : CacheInv c)
    (horderly : op.orderly c = true) (hrun : op.run c = some c2) : CacheInv c2 := by
  cases op with
  | addServerAdapter desc server app =>
    simp only [CacheOp.run] at hrun
    split at hrun
    · rename_i c3 e3 heq
      simp only [Option.some.injEq] at hrun
      rw [← hrun]
      exact cacheInv_addServerAdapter c c3 desc server app e3 hinv heq
    · cases hrun
  | addReplicaGroup desc app =>
    simp only [CacheOp.run] at hrun
    split at hrun
    · rename_i c3 g3 heq
      simp only [Option.some.injEq] at hrun
      rw [← hrun]
      exact cacheInv_addReplicaGroup c c3 desc app g3 hinv heq
    · cases hrun
  | removeServerAdapter id =>
    simp only [CacheOp.run] at hrun
    split at hrun
    · rename_i c3 u3 heq
      simp only [Option.some.injEq] at hrun
      rw [← hrun]
      exact cacheInv_removeServerAdapter c c3 id hinv heq
    · cases hrun
  | removeReplicaGroup id =>
    simp only [CacheOp.run] at hrun
    split at hrun
    · rename_i c3 u3 heq
      simp only [Option.some.injEq] at hrun
      rw [← hrun]
      simp only [CacheOp.orderly] at horderly
      split at horderly
      · rename_i G hG
        have hempty : G.replicas = [] := by simpa using horderly
        exact cacheInv_removeReplicaGroup c c3 id hinv G hG hempty heq
      · cases horderly
    · cases hrun

theorem cacheInv_runOrderlyOps (ops : List CacheOp) :
    ∀ c c2 : AdapterCache, CacheInv c → runOrderlyOps c ops = some c2 → CacheInv c2 := by
  induction ops with
  | nil =>
    intro c c2 hinv h
    simp only [runOrderlyOps, Option.some.injEq] at h
    rw [← h]
    exact hinv
  | cons op rest ih =>
    intro c c2 hinv h
    simp only [runOrderlyOps] at h
    split at h
    · rename_i horderly
      split at h
      · rename_i c3 hrun
        exact ih c3 c2 (cacheInv_step c c3 op hinv horderly hrun) h
      · cases h
    · cases h

/-- C9 as stated fails, in two ways.  After adding the group `G`, adding the adapter `a`
as its member and removing the group, all three calls succeeding, the cache holds the
server adapter `a` with `replicaGroupId = G` and no replica group of that id.  After
adding `G`, adding `a` as its member, removing `a` through `removeReplicaGroup` and adding
`a` as a member of `G` again, all four calls succeeding, `G` references `a` twice. -/
theorem C9_dangling_member_counterexample :
    (runCacheOps AdapterCache.empty danglingOps = some danglingCache ∧
      ¬ linkedOnce danglingCache) ∧
    (runCacheOps AdapterCache.empty staleOps = some staleCache ∧
      ¬ linkedOnce staleCache) := by
  refine ⟨⟨by decide, ?_⟩, ⟨by decide, ?_⟩⟩
  · intro h
    obtain ⟨G, hG, _⟩ := h "a" ⟨"a", "app", "G", 1, 7⟩ (by decide) (by decide)
    have hnone : danglingCache.getImpl "G" = none := by decide
    rw [show (⟨"a", "app", "G", 1, 7⟩ : ServerAdapterEntry).replicaGroupId = "G" from rfl,
      hnone] at hG
    cases hG
  · intro h
    obtain ⟨G, hG, hcount⟩ := h "a" ⟨"a", "app", "G", 1, 7⟩ (by decide) (by decide)
    have hsome : staleCache.getImpl "G" = some (.group
        { ReplicaGroupEntry.new "G" "app" ⟨.RoundRobin, "0"⟩ with
          replicas := [⟨"a", "app", "G", 1, 7⟩, ⟨"a", "app", "G", 1, 7⟩] }) := by decide
    rw [show (⟨"a", "app", "G", 1, 7⟩ : ServerAdapterEntry).replicaGroupId = "G" from rfl,
      hsome] at hG
    simp only [Option.some.injEq, AdapterEntry.group.injEq] at hG
    rw [← hG] at hcount
    revert hcount
    decide

/-- C9, amended: after any sequence of successful `addServerAdapter`, `addReplicaGroup`,
`removeServerAdapter` and `removeReplicaGroup` calls on the empty cache in which every
`removeReplicaGroup` removes a replica group whose replica sequence is empty, every server
adapter of the cache with a non-empty `replicaGroupId` is referenced exactly once in the
replica sequence of the replica group of that id. -/
theorem C9_members_linked_once (ops : List CacheOp) (c : AdapterCache)
    (h : runOrderlyOps AdapterCache.empty ops = some c) : linkedOnce c :=
  linkedOnce_of_cacheInv c (cacheInv_runOrderlyOps ops _ c cacheInv_empty h)

end AdapterCache

/-! ## The theorems at concrete inputs -/

namespace ReplicaGroupEntry

theorem C1_witness :
    groupABC.replicas ≠ [] ∧ groupABC.loadBalancing.kind = PolicyKind.RoundRobin ∧
    (groupABC.getProxies refLib envOneDown 0).entry =
      { groupABC with lastReplica := (groupABC.lastReplica + 1) % groupABC.replicas.length } ∧
    (nthCall refLib envHealthy groupABC 0).adapters = .ok [("A", 101), ("B", 102), ("C", 103)] ∧
    (nthCall refLib envHealthy groupABC 1).adapters = .ok [("B", 102), ("C", 103), ("A", 101)] ∧
    (nthCall refLib envHealthy groupABC 2).adapters = .ok [("C", 103), ("A", 101), ("B", 102)] :=
  ⟨by decide, by decide,
    (C1_roundRobin_order_and_cursor refLib envOneDown groupABC 0 (by decide) (by decide)).2.2.1,
    by decide, by decide, by decide⟩

theorem C2_witness :
    (∀ m ∈ groupABC.replicas, ∀ ex, m.getProxy envOneDown groupABC.id true = .error ex →
      skipped ex) ∧
    (groupABC.getProxies refLib envOneDown 0).adapters =
      .ok ((groupABC.candidates refLib envOneDown).filterMap (proxyPair envOneDown groupABC.id)) ∧
    (groupABC.getProxies refLib envOneDown 0).adapters = .ok [("A", 101), ("C", 103)] := by
  have h : ∀ m ∈ groupABC.replicas, ∀ ex,
      m.getProxy envOneDown groupABC.id true = .error ex → skipped ex := by
    intro m hm ex hex
    have hm1 : m = exReplica "A" 0 1 ∨ m = exReplica "B" 0 2 ∨ m = exReplica "C" 0 3 := by
      have : groupABC.replicas = [exReplica "A" 0 1, exReplica "B" 0 2, exReplica "C" 0 3] := by
        decide
      rw [this] at hm
      simpa using hm
    rcases hm1 with h1 | h1 | h1
    · have : m.getProxy envOneDown groupABC.id true = .ok 101 := by rw [h1]; decide
      rw [this] at hex
      cases hex
    · have : m.getProxy envOneDown groupABC.id true = .error Exn.NodeUnreachableException := by
        rw [h1]; decide
      rw [this] at hex
      cases hex
      exact Or.inr (Or.inr rfl)
    · have : m.getProxy envOneDown groupABC.id true = .ok 103 := by rw [h1]; decide
      rw [this] at hex
      cases hex
  exact ⟨h, (C2_getProxies_filters_candidates refLib envOneDown groupABC 0).2.1 h, by decide⟩

theorem C3_witness :
    groupXYZ.loadBalancing.kind = PolicyKind.Ordered ∧
    (groupXYZ.replicas.map fun m => m.priority).Nodup ∧
    (∀ m ∈ groupXYZ.replicas, m.getProxy envHealthy groupXYZ.id true = .ok (100 + m.server)) ∧
    (groupXYZ.getProxies refLib envHealthy 0).adapters =
      .ok ((groupXYZ.candidates refLib envHealthy).map fun m => (m.id, 100 + m.server)) ∧
    (groupXYZ.getProxies refLib envHealthy 0).adapters =
      .ok [("Y", 102), ("Z", 103), ("X", 101)] :=
  ⟨by decide, by decide, by decide,
    (C3_ordered_ascending_priority refLib envHealthy groupXYZ 0 (fun m => 100 + m.server)
      (by decide) (by decide) (by decide)).2.2.1,
    by decide⟩

theorem C4_witness :
    groupPQR.loadBalancing.kind = PolicyKind.Adaptive "1" ∧
    (groupPQR.replicas.map
      fun m => m.getLeastLoadedNodeLoad envOneDown groupPQR.loadSample).Nodup ∧
    ((groupPQR.candidates refLib envOneDown).Pairwise fun a b =>
      a.getLeastLoadedNodeLoad envOneDown groupPQR.loadSample <
        b.getLeastLoadedNodeLoad envOneDown groupPQR.loadSample) ∧
    (groupPQR.candidates refLib envOneDown).map (fun m => m.id) = ["R", "P", "Q"] :=
  ⟨by decide, by decide!,
    (C4_adaptive_ascending_load refLib envOneDown groupPQR 0 "1" (by decide) (by decide!)).2.1,
    by decide!⟩

theorem C5_witness :
    groupABC.loadBalancing.kind = PolicyKind.RoundRobin ∧ groupABC.replicas ≠ [] ∧
    (groupABC.replicas.map fun m => m.id).Nodup ∧
    (∀ m ∈ groupABC.replicas, m.getProxy envHealthy groupABC.id true = .ok (100 + m.server)) ∧
    (nthCall refLib envHealthy groupABC groupABC.replicas.length).adapters =
      (nthCall refLib envHealthy groupABC 0).adapters :=
  ⟨by decide, by decide, by decide, by decide,
    (C5_roundRobin_fairness refLib envHealthy groupABC (fun m => 100 + m.server)
      (by decide) (by decide) (by decide) (by decide)).2⟩

end ReplicaGroupEntry

namespace AdapterCache

theorem C6_witness :
    cacheG.getImpl "A" = none ∧ "G" ≠ "" ∧
    cacheG.getImpl "G" =
      some (.group (ReplicaGroupEntry.new "G" "app" ⟨PolicyKind.RoundRobin, "0"⟩)) ∧
    (cacheG.addServerAdapter ⟨"A", "G", "3"⟩ 1 "app").2 =
      .ok (newServerAdapter ⟨"A", "G", "3"⟩ 1 "app") ∧
    (cacheG.addServerAdapter ⟨"A", "G", "3"⟩ 1 "app").1.getReplicaGroup "G" =
      .ok (exGroup PolicyKind.RoundRobin [⟨"A", "app", "G", 3, 1⟩]) :=
  ⟨by decide, by decide, by decide,
    (C6_addServerAdapter_appends cacheG ⟨"A", "G", "3"⟩ 1 "app"
      (ReplicaGroupEntry.new "G" "app" ⟨PolicyKind.RoundRobin, "0"⟩)
      (by decide) (by decide) (by decide)).1,
    by decide⟩

theorem C9_witness :
    runOrderlyOps AdapterCache.empty orderlyOps =
      some ((cacheG.addServerAdapter ⟨"b", "G", "2"⟩ 8 "app").1) ∧
    linkedOnce ((cacheG.addServerAdapter ⟨"b", "G", "2"⟩ 8 "app").1) :=
  ⟨by decide,
    C9_members_linked_once orderlyOps ((cacheG.addServerAdapter ⟨"b", "G", "2"⟩ 8 "app").1)
      (by decide)⟩

theorem C10_witness :
    cacheG.getImpl "G" =
      some (.group (ReplicaGroupEntry.new "G" "app" ⟨PolicyKind.RoundRobin, "0"⟩)) ∧
    cacheG.addServerAdapter ⟨"G", "", "0"⟩ 1 "app" = (cacheG, .error .AlreadyExists) ∧
    cacheG.addReplicaGroup ⟨"G", ⟨.Random, "2"⟩⟩ "other" = (cacheG, .error .AlreadyExists) :=
  ⟨by decide,
    (C10_add_existing_id_fails cacheG "G"
      (.group (ReplicaGroupEntry.new "G" "app" ⟨PolicyKind.RoundRobin, "0"⟩))
      (by decide)).1 ⟨"G", "", "0"⟩ 1 "app" rfl,
    (C10_add_existing_id_fails cacheG "G"
      (.group (ReplicaGroupEntry.new "G" "app" ⟨PolicyKind.RoundRobin, "0"⟩))
      (by decide)).2.1 ⟨"G", ⟨.Random, "2"⟩⟩ "other" rfl⟩

end AdapterCache

/-! ## Parsing, reported replica count, error handling and lookups -/

theorem digitChar_facts (d : Nat) (h : d < 10) :
    (digitChar d).isDigit = true ∧ (digitChar d).toNat - '0'.toNat = d ∧
    digitChar d ≠ '-' ∧ digitChar d ≠ '+' ∧
    ¬ (digitChar d = ' ' ∨ digitChar d = '\t' ∨ digitChar d = '\n' ∨ digitChar d = '\r' ∨
      (digitChar d).toNat = 11 ∨ (digitChar d).toNat = 12) := by
  interval_cases d <;> decide

theorem skipWs_digit (d : Nat) (h : d < 10) (rest : List Char) :
    skipWs (digitChar d :: rest) = digitChar d :: rest := by
  unfold skipWs
  rw [if_neg (digitChar_facts d h).2.2.2.2]

theorem skipWs_minus (rest : List Char) : skipWs ('-' :: rest) = '-' :: rest := by
  unfold skipWs
  rw [if_neg (by decide)]

theorem readDigits_digits (ds : List Nat) (hd : ∀ d ∈ ds, d < 10) :
    ∀ acc n, readDigits (ds.map digitChar) acc n =
      (ds.foldl (fun a d => a * 10 + d) acc, n + ds.length) := by
  induction ds with
  | nil => intro acc n; rfl
  | cons d rest ih =>
    intro acc n
    have hf := digitChar_facts d (hd d (List.mem_cons_self _ _))
    have hr := ih (fun x hx => hd x (List.mem_cons_of_mem _ hx))
    simp only [List.map_cons, readDigits, hf.1, if_true, hf.2.1, List.foldl_cons,
      List.length_cons]
    rw [hr]
    congr 1
    omega

/-- What the extraction does once white space and sign are consumed. -/
theorem streamExtractInt_of_parts (s : String) (neg : Bool) (rest : List Char)
    (h : (match skipWs s.toList with
      | '-' :: r => (true, r)
      | '+' :: r => (false, r)
      | r => (false, r)) = (neg, rest)) :
    streamExtractInt s =
      if (readDigits rest 0 0).2 = 0 then 0
      else clampInt (if neg then -((readDigits rest 0 0).1 : Int)
        else ((readDigits rest 0 0).1 : Int)) := by
  unfold streamExtractInt
  simp only []
  rw [h]

theorem clampInt_of_range (v : Int) (hlo : -2147483648 ≤ v) (hhi : v ≤ 2147483647) :
    clampInt v = v := by
  unfold clampInt
  rw [if_neg (by omega), if_neg (by omega)]

theorem streamExtractInt_decimal (neg : Bool) (ds : List Nat) (hne : ds ≠ [])
    (hd : ∀ d ∈ ds, d < 10) :
    streamExtractInt (decimalString neg ds) =
      clampInt (if neg then -(decimalValue ds : Int) else (decimalValue ds : Int)) := by
  have hread : readDigits (ds.map digitChar) 0 0 = (decimalValue ds, 0 + ds.length) :=
    readDigits_digits ds hd 0 0
  have hlen : 0 + ds.length ≠ 0 := by
    cases ds with
    | nil => exact absurd rfl hne
    | cons d tl => simp
  have hparts : (match skipWs (decimalString neg ds).toList with
      | '-' :: r => (true, r)
      | '+' :: r => (false, r)
      | r => (false, r)) = (neg, ds.map digitChar) := by
    cases neg with
    | true =>
      have : (decimalString true ds).toList = '-' :: ds.map digitChar := rfl
      rw [this, skipWs_minus]
      rfl
    | false =>
      cases ds with
      | nil => exact absurd rfl hne
      | cons d tl =>
        have hf := digitChar_facts d (hd d (List.mem_cons_self _ _))
        have : (decimalString false (d :: tl)).toList = digitChar d :: tl.map digitChar := rfl
        rw [this, skipWs_digit d (hd d (List.mem_cons_self _ _))]
        split
        · rename_i r heq
          exact absurd (List.cons.inj heq).1 hf.2.2.1
        · rename_i r heq
          exact absurd (List.cons.inj heq).1 hf.2.2.2.1
        · rfl
  rw [streamExtractInt_of_parts _ neg _ hparts, hread]
  simp only []
  rw [if_neg hlen]

theorem streamExtractInt_denotes (s : String) (v : Int) (h : denotesInt s v) :
    streamExtractInt s = clampInt v := by
  obtain ⟨neg, ds, hne, hd, hs, hv⟩ := h
  rw [hs, hv]
  exact streamExtractInt_decimal neg ds hne hd

theorem streamExtractInt_nonNumeric (s : String) (h : nonNumeric s) :
    streamExtractInt s = 0 := by
  unfold nonNumeric at h
  cases hs : s.toList with
  | nil =>
    have hparts : (match skipWs s.toList with
        | '-' :: r => (true, r)
        | '+' :: r => (false, r)
        | r => (false, r)) = (false, []) := by
      rw [hs]
      rfl
    rw [streamExtractInt_of_parts _ false _ hparts]
    rfl
  | cons c tl =>
    rw [hs] at h
    obtain ⟨hdig, hminus, hplus, hws⟩ := h
    have hskip : skipWs (c :: tl) = c :: tl := by
      unfold skipWs
      rw [if_neg hws]
    have hparts : (match skipWs s.toList with
        | '-' :: r => (true, r)
        | '+' :: r => (false, r)
        | r => (false, r)) = (false, c :: tl) := by
      rw [hs, hskip]
      split
      · rename_i r heq
        exact absurd (List.cons.inj heq).1 hminus
      · rename_i r heq
        exact absurd (List.cons.inj heq).1 hplus
      · rfl
    rw [streamExtractInt_of_parts _ false _ hparts]
    have hread : readDigits (c :: tl) 0 0 = (0, 0) := by
      simp [readDigits, hdig]
    rw [hread]
    rfl

namespace ReplicaGroupEntry

theorem update_nReplicas (g : ReplicaGroupEntry) (policy : LoadBalancingPolicy) :
    (g.update policy).loadBalancingNReplicas =
      if streamExtractInt policy.nReplicas < 0 then 1 else streamExtractInt policy.nReplicas := by
  unfold update
  cases policy.kind with
  | Adaptive s => simp only []; split_ifs <;> rfl
  | _ => rfl

theorem new_nReplicas (id application : String) (policy : LoadBalancingPolicy) :
    (ReplicaGroupEntry.new id application policy).loadBalancingNReplicas =
      if streamExtractInt policy.nReplicas < 0 then 1 else streamExtractInt policy.nReplicas :=
  update_nReplicas _ policy

theorem getProxies_nReplicas (lib : StdLib) (env : ServerEnv) (g : ReplicaGroupEntry)
    (n : Int) (hne : g.replicas ≠ []) :
    (g.getProxies lib env n).nReplicas =
      if g.loadBalancingNReplicas > 0 then g.loadBalancingNReplicas
      else (g.replicas.length : Int) := by
  have hemp : g.replicas.isEmpty = false := by
    cases hr : g.replicas with
    | nil => exact absurd hr hne
    | cons a l => rfl
  simp [getProxies, hemp]

theorem collectProxies_length (env : ServerEnv) (groupId : String) :
    ∀ (l : List ServerAdapterEntry) (r : List (String × AdapterPrx)),
      collectProxies env groupId l = .ok r → r.length ≤ l.length := by
  intro l
  induction l with
  | nil =>
    intro r h
    simp only [collectProxies, Except.ok.injEq] at h
    rw [← h]
    exact Nat.le_refl _
  | cons p rest ih =>
    intro r h
    unfold collectProxies at h
    split at h
    · split at h
      · rename_i adapters hrest
        simp only [Except.ok.injEq] at h
        rw [← h]
        have := ih adapters hrest
        simp only [List.length_cons]
        omega
      · cases h
    · have := ih r h
      simp only [List.length_cons]
      omega
    · have := ih r h
      simp only [List.length_cons]
      omega
    · have := ih r h
      simp only [List.length_cons]
      omega
    · cases h

theorem stored_of_clampInt (v : Int) :
    (if clampInt v < 0 then 1 else clampInt v) =
      (if v < 0 then 1 else if v ≤ 2147483647 then v else 2147483647) := by
  unfold clampInt
  split_ifs <;> omega

/-- C15 as stated fails: the raw `nReplicas` string `2147483648` denotes a non-negative
integer, and the constructor and `update` store 2147483647, not the raw value; a group of
one member built with that string reports 2147483647. -/
theorem C15_beyond_int_counterexample :
    denotesInt "2147483648" 2147483648 ∧
    (ReplicaGroupEntry.new "G" "app"
      ⟨PolicyKind.RoundRobin, "2147483648"⟩).loadBalancingNReplicas = 2147483647 ∧
    (groupABC.update ⟨PolicyKind.RoundRobin, "2147483648"⟩).loadBalancingNReplicas =
      2147483647 ∧
    (ReplicaGroupEntry.new "G" "app"
      ⟨PolicyKind.RoundRobin, "2147483648"⟩).loadBalancingNReplicas ≠ 2147483648 ∧
    (exGroupRaw "2147483648" [exReplica "A" 0 1]).replicas ≠ [] ∧
    ((exGroupRaw "2147483648" [exReplica "A" 0 1]).getProxies refLib envHealthy 0).nReplicas =
      2147483647 :=
  ⟨⟨false, [2, 1, 4, 7, 4, 8, 3, 6, 4, 8], by decide, by decide, by decide, by decide⟩,
    by decide, by decide, by decide, by decide, by decide⟩

/-- C15, amended: for a non-empty group, the `nReplicas` that `getProxies` reports is the
stored `_loadBalancingNReplicas` when that is positive and the number of replicas
otherwise; and `update` and the constructor store 1 for a raw `nReplicas` string that
denotes a negative integer, the denoted value for one that denotes a non-negative integer
up to 2147483647, and 2147483647 for one that denotes a larger integer. -/
theorem C15_reported_nReplicas (lib : StdLib) (env : ServerEnv) (g : ReplicaGroupEntry)
    (n : Int) (hne : g.replicas ≠ []) :
    (g.getProxies lib env n).nReplicas =
      (if 0 < g.loadBalancingNReplicas then g.loadBalancingNReplicas
        else (g.replicas.length : Int)) ∧
    (∀ (g0 : ReplicaGroupEntry) (policy : LoadBalancingPolicy) (v : Int),
      denotesInt policy.nReplicas v →
      (g0.update policy).loadBalancingNReplicas =
        (if v < 0 then 1 else if v ≤ 2147483647 then v else 2147483647) ∧
      ∀ id application : String,
        (ReplicaGroupEntry.new id application policy).loadBalancingNReplicas =
          (if v < 0 then 1 else if v ≤ 2147483647 then v else 2147483647)) := by
  refine ⟨?_, ?_⟩
  · rw [getProxies_nReplicas lib env g n hne]
  · intro g0 policy v hden
    have hparse := streamExtractInt_denotes policy.nReplicas v hden
    refine ⟨?_, ?_⟩
    · rw [update_nReplicas, hparse]
      exact stored_of_clampInt v
    · intro id application
      rw [new_nReplicas, hparse]
      exact stored_of_clampInt v

/-- C16 as stated fails: the group of four healthy members built with the raw `nReplicas`
string `-7` reports `nReplicas = 1` and returns four candidates. -/
theorem C16_more_candidates_than_reported_counterexample :
    groupClamped.replicas ≠ [] ∧
    ∃ l, (groupClamped.getProxies refLib envHealthy 0).adapters = .ok l ∧
      ¬ ((l.length : Int) ≤ (groupClamped.getProxies refLib envHealthy 0).nReplicas) :=
  ⟨by decide, [("A", 101), ("B", 102), ("C", 103), ("D", 104)], by decide, by decide⟩

/-- C16, amended: for a non-empty group, every policy and every health state of the
members, the vector that `getProxies` returns has at most as many elements as the group has
replicas; it has at most as many as the reported `nReplicas` when the stored
`_loadBalancingNReplicas` is not positive or is not below the number of replicas. -/
theorem C16_candidates_at_most_replicas (lib : StdLib) (env : ServerEnv)
    (g : ReplicaGroupEntry) (n : Int) (l : List (String × AdapterPrx))
    (hne : g.replicas ≠ [])
    (hok : (g.getProxies lib env n).adapters = .ok l) :
    l.length ≤ g.replicas.length ∧
    ((g.loadBalancingNReplicas ≤ 0 ∨ (g.replicas.length : Int) ≤ g.loadBalancingNReplicas) →
      (l.length : Int) ≤ (g.getProxies lib env n).nReplicas) := by
  rw [getProxies_adapters] at hok
  have h1 := collectProxies_length env g.id _ l hok
  rw [(candidates_perm lib env g).length_eq] at h1
  refine ⟨h1, ?_⟩
  intro hcase
  rw [getProxies_nReplicas lib env g n hne]
  split
  · rcases hcase with h2 | h2
    · omega
    · omega
  · omega

/-- C17 as stated fails: when the proxy retrieval of the member `B` of `[A, B, C]` raises
`ServerNotExistException`, or `NodeNotExistException`, `getProxies` of the group leaves
with that exception. -/
theorem C17_server_gone_counterexample :
    exReplica "B" 0 2 ∈ groupABC.replicas ∧
    (exReplica "B" 0 2).getProxy envServerGone groupABC.id true =
      .error Exn.ServerNotExistException ∧
    (groupABC.getProxies refLib envServerGone 0).adapters =
      .error Exn.ServerNotExistException ∧
    (exReplica "B" 0 2).getProxy envNodeGone groupABC.id true =
      .error Exn.NodeNotExistException ∧
    (groupABC.getProxies refLib envNodeGone 0).adapters =
      .error Exn.NodeNotExistException := by
  refine ⟨by decide, by decide, by decide, by decide, by decide⟩

/-- C17, amended: when every member whose proxy retrieval fails raises
`NodeUnreachableException`, `getProxies` does not fail: it skips those members and returns
the remaining members in candidate order; the first candidate that raises an exception
that is not caught, if it is `ServerNotExistException` or `NodeNotExistException`, makes
`getProxies` leave with that exception. -/
theorem C17_unreachable_skipped_others_escape (lib : StdLib) (env : ServerEnv)
    (g : ReplicaGroupEntry) (n : Int) :
    ((∀ m ∈ g.replicas, ∀ ex, m.getProxy env g.id true = .error ex →
        ex = Exn.NodeUnreachableException) →
      (g.getProxies lib env n).adapters =
        .ok ((g.candidates lib env).filterMap (proxyPair env g.id))) ∧
    (∀ l1 m l2 ex, g.candidates lib env = l1 ++ m :: l2 →
      (∀ x ∈ l1, ∀ ex1, x.getProxy env g.id true = .error ex1 → skipped ex1) →
      m.getProxy env g.id true = .error ex →
      (ex = Exn.ServerNotExistException ∨ ex = Exn.NodeNotExistException) →
      (g.getProxies lib env n).adapters = .error ex) := by
  refine ⟨?_, ?_⟩
  · intro h
    rw [getProxies_adapters]
    refine collectProxies_filterMap env g.id _ ?_
    intro m hm ex hex
    exact Or.inr (Or.inr (h m ((candidates_perm lib env g).mem_iff.1 hm) ex hex))
  · intro l1 m l2 ex hc h1 hm hex
    rw [getProxies_adapters, hc]
    refine collectProxies_error env g.id l1 m l2 ex h1 hm ?_
    intro hs
    rcases hex with h2 | h2 <;> subst h2 <;> rcases hs with h3 | h3 | h3 <;> cases h3

/-- C18 as stated fails: constructing a group with the raw `nReplicas` string `abc`, or
with the empty string, or passing `abc` to `update`, stores 0 and not 1. -/
theorem C18_invalid_stores_zero_counterexample :
    (ReplicaGroupEntry.new "G" "app" ⟨PolicyKind.RoundRobin, "abc"⟩).loadBalancingNReplicas = 0 ∧
    (ReplicaGroupEntry.new "G" "app" ⟨PolicyKind.RoundRobin, ""⟩).loadBalancingNReplicas = 0 ∧
    (groupABC.update ⟨PolicyKind.Random, "abc"⟩).loadBalancingNReplicas = 0 ∧
    (ReplicaGroupEntry.new "G" "app" ⟨PolicyKind.RoundRobin, "abc"⟩).loadBalancingNReplicas ≠ 1 := by
  refine ⟨by decide, by decide, by decide, by decide⟩

/-- C18, amended: for a raw `nReplicas` string that is empty or starts with a character
that is neither a digit, a sign nor white space, `update` and the constructor store 0, so
that `getProxies` of a non-empty group reports the number of replicas. -/
theorem C18_nonNumeric_stores_zero (g0 : ReplicaGroupEntry) (policy : LoadBalancingPolicy)
    (h : nonNumeric policy.nReplicas) :
    (g0.update policy).loadBalancingNReplicas = 0 ∧
    (∀ id application : String,
      (ReplicaGroupEntry.new id application policy).loadBalancingNReplicas = 0) ∧
    (∀ (lib : StdLib) (env : ServerEnv) (n : Int), (g0.update policy).replicas ≠ [] →
      ((g0.update policy).getProxies lib env n).nReplicas =
        ((g0.update policy).replicas.length : Int)) := by
  have hparse := streamExtractInt_nonNumeric policy.nReplicas h
  have hupd : (g0.update policy).loadBalancingNReplicas = 0 := by
    rw [update_nReplicas, hparse]
    rfl
  refine ⟨hupd, ?_, ?_⟩
  · intro id application
    rw [new_nReplicas, hparse]
    rfl
  · intro lib env n hne
    rw [getProxies_nReplicas lib env _ n hne, hupd]
    rfl

end ReplicaGroupEntry

namespace ServerAdapterEntry

theorem getProxyTraced_snd (env : ServerEnv) (e : ServerAdapterEntry)
    (replicaGroupId : String) (upToDate : Bool) :
    (e.getProxyTraced env replicaGroupId upToDate).2 = e.getProxy env replicaGroupId upToDate := by
  unfold getProxyTraced getProxy
  split
  · rfl
  · split <;> rfl

theorem getProxyTraced_unfiltered (env : ServerEnv) (e : ServerAdapterEntry)
    (upToDate : Bool) :
    e.getProxyTraced env "" upToDate =
      ([⟨e.server, e.id, upToDate⟩], env.getAdapter e.server e.id upToDate) := by
  unfold getProxyTraced
  rw [if_pos (by decide)]

theorem getProxyTraced_mismatch (env : ServerEnv) (e : ServerAdapterEntry)
    (replicaGroupId : String) (upToDate : Bool) (h : filterMismatch e replicaGroupId) :
    e.getProxyTraced env replicaGroupId upToDate =
      ([], .error Exn.InvalidReplicaGroupIdException) := by
  have hemp : replicaGroupId.isEmpty = false := by
    cases hs : replicaGroupId.isEmpty with
    | false => rfl
    | true => exact absurd ((String.isEmpty_iff _).1 hs) h.1
  unfold getProxyTraced
  simp only [hemp]
  rw [if_pos h.2]
  rfl

theorem getProxyTraced_delegates (env : ServerEnv) (e : ServerAdapterEntry)
    (replicaGroupId : String) (upToDate : Bool) (h : ¬ filterMismatch e replicaGroupId) :
    e.getProxyTraced env replicaGroupId upToDate =
      ([⟨e.server, e.id, upToDate⟩], env.getAdapter e.server e.id upToDate) := by
  unfold getProxyTraced
  split
  · rfl
  · rename_i hemp
    have hne : replicaGroupId ≠ "" := fun h0 => hemp ((String.isEmpty_iff _).2 h0)
    split
    · rename_i hmis
      exact absurd ⟨hne, hmis⟩ h
    · rfl

/-- C19: `ServerAdapterEntry::getProxies` calls `ServerEntry::getAdapter` exactly once,
with its own id and `upToDate = true` and without a group filter; it sets `nReplicas = 1`
and `replicaGroup = false`; when the handle gives a proxy the returned vector is
`[(own id, proxy)]`, and when the handle raises an exception the call leaves with that
exception. -/
theorem C19_serverAdapter_getProxies (env : ServerEnv) (e : ServerAdapterEntry) :
    (e.getProxies env).queries = [⟨e.server, e.id, true⟩] ∧
    (e.getProxies env).nReplicas = 1 ∧
    (e.getProxies env).replicaGroup = false ∧
    (∀ adpt, env.getAdapter e.server e.id true = .ok adpt →
      (e.getProxies env).adapters = .ok [(e.id, adpt)]) ∧
    (∀ ex, env.getAdapter e.server e.id true = .error ex →
      (e.getProxies env).adapters = .error ex) := by
  have h := getProxyTraced_unfiltered env e true
  refine ⟨?_, rfl, rfl, ?_, ?_⟩
  · simp only [getProxies, h]
  · intro adpt hadpt
    simp only [getProxies, h, hadpt]
  · intro ex hex
    simp only [getProxies, h, hex]

/-- C20 as stated fails: with the filter `G` equal to the replica group of the entry,
`getProxy` fails with `InvalidReplicaGroupIdException` when the server handle raises it. -/
theorem C20_handle_raises_invalid_group_counterexample :
    (exReplica "A" 0 1).getProxy envInvalidGroup "G" true =
      .error Exn.InvalidReplicaGroupIdException ∧
    ¬ filterMismatch (exReplica "A" 0 1) "G" := by
  refine ⟨by decide, ?_⟩
  intro h
  exact h.2 rfl

/-- C20, amended: `getProxy` fails with `InvalidReplicaGroupIdException` without calling
the server handle if and only if the filter is set and differs from the replica group of
the entry; in every other case it calls `ServerEntry::getAdapter(own id, upToDate)` once
and its result, proxy or exception, is the result of that call; so it fails with
`InvalidReplicaGroupIdException` exactly when the filter mismatches or the handle raises
that exception. -/
theorem C20_getProxy_filter_or_delegate (env : ServerEnv) (e : ServerAdapterEntry)
    (replicaGroupId : String) (upToDate : Bool) :
    (e.getProxyTraced env replicaGroupId upToDate =
        ([], .error Exn.InvalidReplicaGroupIdException) ↔
      filterMismatch e replicaGroupId) ∧
    (¬ filterMismatch e replicaGroupId →
      e.getProxyTraced env replicaGroupId upToDate =
        ([⟨e.server, e.id, upToDate⟩], env.getAdapter e.server e.id upToDate) ∧
      e.getProxy env replicaGroupId upToDate = env.getAdapter e.server e.id upToDate) ∧
    (filterMismatch e replicaGroupId →
      e.getProxy env replicaGroupId upToDate = .error Exn.InvalidReplicaGroupIdException) ∧
    (e.getProxy env replicaGroupId upToDate = .error Exn.InvalidReplicaGroupIdException ↔
      (filterMismatch e replicaGroupId ∨
        env.getAdapter e.server e.id upToDate = .error Exn.InvalidReplicaGroupIdException)) := by
  have hdel : ¬ filterMismatch e replicaGroupId →
      e.getProxy env replicaGroupId upToDate = env.getAdapter e.server e.id upToDate := by
    intro h
    rw [← getProxyTraced_snd, getProxyTraced_delegates env e _ _ h]
  have hmis : filterMismatch e replicaGroupId →
      e.getProxy env replicaGroupId upToDate = .error Exn.InvalidReplicaGroupIdException := by
    intro h
    rw [← getProxyTraced_snd, getProxyTraced_mismatch env e _ _ h]
  refine ⟨⟨?_, getProxyTraced_mismatch env e _ _⟩, ?_, hmis, ⟨?_, ?_⟩⟩
  · intro h
    by_contra hn
    rw [getProxyTraced_delegates env e _ _ hn] at h
    have := congrArg Prod.fst h
    cases this
  · intro h
    exact ⟨getProxyTraced_delegates env e _ _ h, hdel h⟩
  · intro h
    by_cases hm : filterMismatch e replicaGroupId
    · exact Or.inl hm
    · rw [hdel hm] at h
      exact Or.inr h
  · intro h
    by_cases hm : filterMismatch e replicaGroupId
    · exact hmis hm
    · rcases h with h1 | h1
      · exact absurd h1 hm
      · rw [hdel hm]
        exact h1

end ServerAdapterEntry

namespace AdapterCache

/-- C11: `get(id)` returns the entry stored under `id` and throws
`AdapterNotExistException` when there is none; `getServerAdapter(id)` returns an entry if
and only if that entry is stored under `id` and is a server adapter, `getReplicaGroup(id)`
if and only if it is stored under `id` and is a replica group, and both throw
`AdapterNotExistException` otherwise.  The three functions are `const`: they return a
result and no cache. -/
theorem C11_lookups (c : AdapterCache) (id : String) :
    (∀ x, c.getImpl id = some x → c.get id = .ok x) ∧
    (c.getImpl id = none → c.get id = .error (.AdapterNotExistException id)) ∧
    (∀ e, c.getServerAdapter id = .ok e ↔ c.getImpl id = some (.server e)) ∧
    ((¬ ∃ e, c.getImpl id = some (.server e)) →
      c.getServerAdapter id = .error (.AdapterNotExistException id)) ∧
    (∀ G, c.getReplicaGroup id = .ok G ↔ c.getImpl id = some (.group G)) ∧
    ((¬ ∃ G, c.getImpl id = some (.group G)) →
      c.getReplicaGroup id = .error (.AdapterNotExistException id)) := by
  refine ⟨?_, ?_, ?_, ?_, ?_, ?_⟩
  · intro x hx
    simp only [get, hx]
  · intro hx
    simp only [get, hx]
  · intro e
    unfold getServerAdapter
    cases hx : c.getImpl id with
    | none => simp [asServerAdapter]
    | some x =>
      cases x with
      | server e1 => simp [asServerAdapter]
      | group G => simp [asServerAdapter]
  · intro hn
    unfold getServerAdapter
    cases hx : c.getImpl id with
    | none => rfl
    | some x =>
      cases x with
      | server e1 => exact absurd ⟨e1, hx⟩ hn
      | group G => rfl
  · intro G
    unfold getReplicaGroup
    cases hx : c.getImpl id with
    | none => simp [asReplicaGroup]
    | some x =>
      cases x with
      | server e1 => simp [asReplicaGroup]
      | group G1 => simp [asReplicaGroup]
  · intro hn
    unfold getReplicaGroup
    cases hx : c.getImpl id with
    | none => rfl
    | some x =>
      cases x with
      | server e1 => rfl
      | group G => exact absurd ⟨G, hx⟩ hn

/-- C12: when `desc.id` is not in the cache and `desc.replicaGroupId` is not empty and
names no replica group of the cache, `addServerAdapter` fails on `assert(repEntry)`. -/
theorem C12_addServerAdapter_missing_group (c : AdapterCache) (desc : AdapterDescriptor)
    (server : ServerEntryPtr) (app : String)
    (habsent : c.getImpl desc.id = none)
    (hrg : desc.replicaGroupId ≠ "")
    (hnogroup : ∀ G, c.getImpl desc.replicaGroupId ≠ some (.group G)) :
    (c.addServerAdapter desc server app).2 = .error .InvariantViolation := by
  have hG : asReplicaGroup (c.getImpl desc.replicaGroupId) = none := by
    rcases asReplicaGroup_eq_none_or (c.getImpl desc.replicaGroupId) with h | ⟨G, h⟩
    · exact h
    · exact absurd h (hnogroup G)
  rw [addServerAdapter_no_group c desc server app habsent hrg hG]

/-- C13: for a replica group `G` stored under `gid`, `removeReplicaGroup(gid)` succeeds and
removes the entry under `gid` only: every other id, and so every server adapter, maps to
the entry it mapped to before, with its `replicaGroupId` unchanged; and `getProxy(gid)` on
a server adapter whose `replicaGroupId` is `gid` passes the filter and returns what
`ServerEntry::getAdapter` returns. -/
theorem C13_removeReplicaGroup_keeps_members (c : AdapterCache) (gid : String)
    (G : ReplicaGroupEntry) (hG : c.getImpl gid = some (.group G)) :
    (c.removeReplicaGroup gid).2 = .ok () ∧
    (c.removeReplicaGroup gid).1.getImpl gid = none ∧
    (∀ k, k ≠ gid → (c.removeReplicaGroup gid).1.getImpl k = c.getImpl k) ∧
    (∀ id m, c.getImpl id = some (.server m) →
      (c.removeReplicaGroup gid).1.getImpl id = some (.server m)) ∧
    (∀ (m : ServerAdapterEntry) (env : ServerEnv) (upToDate : Bool),
      m.replicaGroupId = gid →
      m.getProxy env gid upToDate = env.getAdapter m.server m.id upToDate) := by
  obtain ⟨hok, hget⟩ := removeImpl_present c gid _ hG
  refine ⟨hok, ?_, ?_, ?_, ?_⟩
  · show (c.removeImpl gid).1.getImpl gid = none
    rw [hget, if_pos rfl]
  · intro k hk
    show (c.removeImpl gid).1.getImpl k = c.getImpl k
    rw [hget, if_neg hk]
  · intro id m hm
    show (c.removeImpl gid).1.getImpl id = some (.server m)
    rw [hget, if_neg (ne_of_server_of_group c id gid m G hm hG)]
    exact hm
  · intro m env upToDate hrg
    unfold ServerAdapterEntry.getProxy
    split
    · rfl
    · rw [if_neg (not_not.2 hrg)]

/-- C14: for an id that is not in the cache, `removeServerAdapter(id)` fails on
`assert(entry)` and `removeReplicaGroup(id)` is rejected by the store; both leave the cache
as it was. -/
theorem C14_remove_absent_rejected (c : AdapterCache) (id : String)
    (habsent : c.getImpl id = none) :
    c.removeServerAdapter id = (c, .error .NotServerAdapter) ∧
    c.removeReplicaGroup id = (c, .error .NotInCache) := by
  refine ⟨?_, ?_⟩
  · unfold removeServerAdapter
    rw [habsent]
    rfl
  · unfold removeReplicaGroup removeImpl
    rw [habsent]

end AdapterCache

namespace AdapterCache

theorem C12_witness :
    cacheG.getImpl "A" = none ∧ "H" ≠ "" ∧
    (∀ G, cacheG.getImpl "H" ≠ some (.group G)) ∧
    (cacheG.addServerAdapter ⟨"A", "H", "1"⟩ 1 "app").2 = .error .InvariantViolation := by
  have hno : ∀ G, cacheG.getImpl "H" ≠ some (.group G) := by
    intro G h
    have hnone : cacheG.getImpl "H" = none := by decide
    rw [hnone] at h
    cases h
  exact ⟨by decide, by decide, hno,
    C12_addServerAdapter_missing_group cacheG ⟨"A", "H", "1"⟩ 1 "app" (by decide) (by decide)
      hno⟩

theorem C13_witness :
    cacheABCD.getImpl "G" = some (.group groupABCD) ∧
    (cacheABCD.removeReplicaGroup "G").1.getImpl "G" = none ∧
    (cacheABCD.removeReplicaGroup "G").1.getImpl "B" = some (.server (exReplica "B" 0 2)) ∧
    (exReplica "B" 0 2).getProxy envHealthy "G" true = .ok 102 :=
  ⟨by decide,
    (C13_removeReplicaGroup_keeps_members cacheABCD "G" groupABCD (by decide)).2.1,
    by decide, by decide⟩

theorem C14_witness :
    cacheG.getImpl "A" = none ∧
    cacheG.removeServerAdapter "A" = (cacheG, .error .NotServerAdapter) ∧
    cacheG.removeReplicaGroup "A" = (cacheG, .error .NotInCache) :=
  ⟨by decide, C14_remove_absent_rejected cacheG "A" (by decide)⟩

end AdapterCache

namespace ReplicaGroupEntry

theorem C15_witness :
    groupClamped.replicas ≠ [] ∧ groupClamped.replicas.length = 4 ∧
    (groupClamped.getProxies refLib envHealthy 0).nReplicas =
      (if 0 < groupClamped.loadBalancingNReplicas then groupClamped.loadBalancingNReplicas
        else (groupClamped.replicas.length : Int)) ∧
    (groupClamped.getProxies refLib envHealthy 0).nReplicas = 1 ∧
    groupABC.replicas.length = 3 ∧ groupABC.loadBalancing.nReplicas = "0" ∧
    (groupABC.getProxies refLib envHealthy 0).nReplicas = 3 ∧
    (groupABC.update ⟨PolicyKind.RoundRobin, "-2147483649"⟩).loadBalancingNReplicas = 1 ∧
    (groupABC.update ⟨PolicyKind.RoundRobin, "2147483647"⟩).loadBalancingNReplicas =
      2147483647 ∧
    (groupABC.update ⟨PolicyKind.RoundRobin, "99999999999"⟩).loadBalancingNReplicas =
      2147483647 :=
  ⟨by decide, by decide,
    (C15_reported_nReplicas refLib envHealthy groupClamped 0 (by decide)).1,
    by decide, by decide, by decide, by decide, by decide, by decide, by decide⟩

theorem C16_witness :
    groupABC.replicas ≠ [] ∧
    (groupABC.getProxies refLib envOneDown 0).adapters = .ok [("A", 101), ("C", 103)] ∧
    ([("A", 101), ("C", 103)] : List (String × AdapterPrx)).length ≤ groupABC.replicas.length :=
  ⟨by decide, by decide,
    (C16_candidates_at_most_replicas refLib envOneDown groupABC 0 [("A", 101), ("C", 103)]
      (by decide) (by decide)).1⟩

theorem C18_witness :
    nonNumeric "abc" ∧
    (groupABC.update ⟨PolicyKind.Random, "abc"⟩).loadBalancingNReplicas = 0 :=
  have habc : nonNumeric "abc" :=
    show 'a'.isDigit = false ∧ 'a' ≠ '-' ∧ 'a' ≠ '+' ∧
      ¬ ('a' = ' ' ∨ 'a' = '\t' ∨ 'a' = '\n' ∨ 'a' = '\r' ∨ 'a'.toNat = 11 ∨ 'a'.toNat = 12)
    from by decide
  ⟨habc, (C18_nonNumeric_stores_zero groupABC ⟨PolicyKind.Random, "abc"⟩ habc).1⟩

end ReplicaGroupEntry

/-! ## Aggregate load, priorities, sort stability and failure paths -/

theorem foldl_pick_min (xs : List (Rat × ServerAdapterEntry)) :
    ∀ x : Rat × ServerAdapterEntry,
      xs.foldl (fun result y => if ReplicaLoadComp y result then y else result) x ∈ x :: xs ∧
      ∀ q ∈ x :: xs,
        (xs.foldl (fun result y => if ReplicaLoadComp y result then y else result) x).1 ≤ q.1 := by
  induction xs with
  | nil =>
    intro x
    refine ⟨List.mem_singleton.2 rfl, ?_⟩
    intro q hq
    rw [List.mem_singleton.1 hq]
    exact le_refl _
  | cons y ys ih =>
    intro x
    simp only [List.foldl_cons]
    by_cases hlt : ReplicaLoadComp y x = true
    · rw [if_pos hlt]
      obtain ⟨hm, hle⟩ := ih y
      have hyx : y.1 < x.1 := by simpa [ReplicaLoadComp] using hlt
      refine ⟨List.mem_cons_of_mem _ hm, ?_⟩
      intro q hq
      rcases List.mem_cons.1 hq with h1 | h1
      · rw [h1]
        exact le_trans (hle y (List.mem_cons_self _ _)) (le_of_lt hyx)
      · exact hle q h1
    · rw [if_neg hlt]
      obtain ⟨hm, hle⟩ := ih x
      have hxy : x.1 ≤ y.1 := by
        have : ¬ y.1 < x.1 := by simpa [ReplicaLoadComp] using hlt
        exact not_lt.1 this
      refine ⟨?_, ?_⟩
      · rcases List.mem_cons.1 hm with h1 | h1
        · rw [h1]; exact List.mem_cons_self _ _
        · exact List.mem_cons_of_mem _ (List.mem_cons_of_mem _ h1)
      · intro q hq
        rcases List.mem_cons.1 hq with h1 | h1
        · rw [h1]; exact hle x (List.mem_cons_self _ _)
        · rcases List.mem_cons.1 h1 with h2 | h2
          · rw [h2]
            exact le_trans (hle x (List.mem_cons_self _ _)) hxy
          · exact hle q (List.mem_cons_of_mem _ h2)

theorem foldl_min_spec (l : List Rat) :
    ∀ a : Rat, l.foldl min a ∈ a :: l ∧ ∀ w ∈ a :: l, l.foldl min a ≤ w := by
  induction l with
  | nil =>
    intro a
    refine ⟨List.mem_singleton.2 rfl, ?_⟩
    intro w hw
    rw [List.mem_singleton.1 hw]
    exact le_refl _
  | cons b rest ih =>
    intro a
    simp only [List.foldl_cons]
    obtain ⟨hm, hle⟩ := ih (min a b)
    refine ⟨?_, ?_⟩
    · rcases List.mem_cons.1 hm with h1 | h1
      · rw [h1]
        rcases min_choice a b with h2 | h2
        · rw [h2]; exact List.mem_cons_self _ _
        · rw [h2]; exact List.mem_cons_of_mem _ (List.mem_cons_self _ _)
      · exact List.mem_cons_of_mem _ (List.mem_cons_of_mem _ h1)
    · intro w hw
      have h0 := hle (min a b) (List.mem_cons_self _ _)
      rcases List.mem_cons.1 hw with h1 | h1
      · rw [h1]; exact le_trans h0 (min_le_left a b)
      · rcases List.mem_cons.1 h1 with h2 | h2
        · rw [h2]; exact le_trans h0 (min_le_right a b)
        · exact hle w (List.mem_cons_of_mem _ h2)

theorem serverLoad_eq_reference (env : ServerEnv) (sample : LoadSample)
    (e : ServerAdapterEntry) :
    e.getLeastLoadedNodeLoad env sample = serverLoadReference env sample e := by
  unfold ServerAdapterEntry.getLeastLoadedNodeLoad serverLoadReference
  cases h : env.getLoad e.server sample with
  | ok v => rfl
  | error ex => cases ex <;> rfl

theorem groupLoad_eq_reference (lib : StdLib) (env : ServerEnv) (sample : LoadSample)
    (g : ReplicaGroupEntry) :
    g.getLeastLoadedNodeLoad lib env sample = groupLoadReference env sample g := by
  unfold ReplicaGroupEntry.getLeastLoadedNodeLoad groupLoadReference
  cases hr : g.replicas with
  | nil => rfl
  | cons m ms =>
    cases ms with
    | nil => exact serverLoad_eq_reference env sample m
    | cons m2 ms2 =>
      simp only []
      have hperm := lib.random_shuffle_perm (m :: m2 :: ms2)
      cases hs : lib.random_shuffle (m :: m2 :: ms2) with
      | nil =>
        rw [hs] at hperm
        exact absurd hperm.symm.eq_nil (by simp)
      | cons x xs =>
        simp only [List.map_cons, min_element]
        obtain ⟨hmem, hle⟩ := foldl_pick_min (xs.map (TransformToReplicaLoad env sample))
          (TransformToReplicaLoad env sample x)
        obtain ⟨hmem2, hle2⟩ := foldl_min_spec
          ((m2 :: ms2).map (serverLoadReference env sample)) (serverLoadReference env sample m)
        have hloads : ∀ q ∈ TransformToReplicaLoad env sample x ::
            xs.map (TransformToReplicaLoad env sample),
            ∃ r ∈ m :: m2 :: ms2, q.1 = serverLoadReference env sample r := by
          intro q hq
          have hq1 : q ∈ (x :: xs).map (TransformToReplicaLoad env sample) := by
            simpa using hq
          rcases List.mem_map.1 hq1 with ⟨r, hr1, hr2⟩
          refine ⟨r, ?_, ?_⟩
          · rw [← hs] at hr1
            exact hperm.mem_iff.1 hr1
          · rw [← hr2]
            exact serverLoad_eq_reference env sample r
        have hrefs : ∀ w ∈ serverLoadReference env sample m ::
            (m2 :: ms2).map (serverLoadReference env sample),
            ∃ r ∈ m :: m2 :: ms2, w = serverLoadReference env sample r := by
          intro w hw
          have hw1 : w ∈ (m :: m2 :: ms2).map (serverLoadReference env sample) := by
            simpa using hw
          rcases List.mem_map.1 hw1 with ⟨r, hr1, hr2⟩
          exact ⟨r, hr1, hr2.symm⟩
        have hback : ∀ r ∈ m :: m2 :: ms2,
            TransformToReplicaLoad env sample r ∈ TransformToReplicaLoad env sample x ::
              xs.map (TransformToReplicaLoad env sample) := by
          intro r hr1
          have : r ∈ x :: xs := by
            rw [← hs]
            exact hperm.mem_iff.2 hr1
          have h2 := List.mem_map_of_mem (TransformToReplicaLoad env sample) this
          simpa using h2
        have hback2 : ∀ r ∈ m :: m2 :: ms2,
            serverLoadReference env sample r ∈ serverLoadReference env sample m ::
              (m2 :: ms2).map (serverLoadReference env sample) := by
          intro r hr1
          have h2 := List.mem_map_of_mem (serverLoadReference env sample) hr1
          simpa using h2
        apply le_antisymm
        · obtain ⟨r, hr1, hr2⟩ := hrefs _ hmem2
          have := hle _ (hback r hr1)
          have hT : (TransformToReplicaLoad env sample r).1 =
              serverLoadReference env sample r := serverLoad_eq_reference env sample r
          exact le_trans this (le_of_eq (hT.trans hr2.symm))
        · obtain ⟨r, hr1, hr2⟩ := hloads _ hmem
          exact le_trans (hle2 _ (hback2 r hr1)) (le_of_eq hr2.symm)

/-- C21: `getLeastLoadedNodeLoad` equals the reference definition: for a server adapter the
value that `ServerEntry::getLoad` returns, or the sentinel 999.9 when the handle raises an
exception; for a replica group the sentinel without replicas, the value of the member when
there is one, and otherwise the minimum of the values of the members, whatever the
shuffle does.  The reference value of a non-empty group is the value of one of its members
and is at most the value of each. -/
theorem C21_least_loaded_refines_reference (lib : StdLib) (env : ServerEnv)
    (sample : LoadSample) :
    (∀ e : ServerAdapterEntry,
      e.getLeastLoadedNodeLoad env sample = serverLoadReference env sample e) ∧
    (∀ g : ReplicaGroupEntry,
      g.getLeastLoadedNodeLoad lib env sample = groupLoadReference env sample g) ∧
    (∀ (g : ReplicaGroupEntry) (lib2 : StdLib),
      g.getLeastLoadedNodeLoad lib2 env sample = g.getLeastLoadedNodeLoad lib env sample) ∧
    (∀ g : ReplicaGroupEntry, g.replicas ≠ [] →
      (∃ m ∈ g.replicas, groupLoadReference env sample g = serverLoadReference env sample m) ∧
      ∀ m ∈ g.replicas, groupLoadReference env sample g ≤ serverLoadReference env sample m) := by
  refine ⟨serverLoad_eq_reference env sample, groupLoad_eq_reference lib env sample, ?_, ?_⟩
  · intro g lib2
    rw [groupLoad_eq_reference, groupLoad_eq_reference]
  · intro g hne
    unfold groupLoadReference
    cases hr : g.replicas with
    | nil => exact absurd hr hne
    | cons m ms =>
      cases ms with
      | nil =>
        refine ⟨⟨m, List.mem_singleton.2 rfl, rfl⟩, ?_⟩
        intro r hr1
        rw [List.mem_singleton.1 hr1]
      | cons m2 ms2 =>
        simp only []
        obtain ⟨hmem, hle⟩ := foldl_min_spec
          ((m2 :: ms2).map (serverLoadReference env sample)) (serverLoadReference env sample m)
        refine ⟨?_, ?_⟩
        · have hw : List.foldl min (serverLoadReference env sample m)
              ((m2 :: ms2).map (serverLoadReference env sample)) ∈
              (m :: m2 :: ms2).map (serverLoadReference env sample) := by
            simpa using hmem
          rcases List.mem_map.1 hw with ⟨r, hr1, hr2⟩
          exact ⟨r, hr1, hr2.symm⟩
        · intro r hr1
          have h2 := List.mem_map_of_mem (serverLoadReference env sample) hr1
          exact hle _ (by simpa using h2)

theorem skipWs_append (ws l : List Char) (h : ∀ c ∈ ws, isSpace c) :
    skipWs (ws ++ l) = skipWs l := by
  induction ws with
  | nil => rfl
  | cons c rest ih =>
    have hc : isSpace c := h c (List.mem_cons_self _ _)
    unfold isSpace at hc
    have hr := ih fun x hx => h x (List.mem_cons_of_mem _ hx)
    rw [List.cons_append]
    conv_lhs => unfold skipWs
    rw [if_pos hc]
    exact hr

theorem skipWs_not_space (c : Char) (tl : List Char) (h : ¬ isSpace c) :
    skipWs (c :: tl) = c :: tl := by
  unfold isSpace at h
  unfold skipWs
  rw [if_neg h]

theorem readDigits_not_digit (c : Char) (tl : List Char) (h : c.isDigit = false) :
    readDigits (c :: tl) 0 0 = (0, 0) := by
  simp [readDigits, h]

theorem extract_zero_of_rest (s : String) (neg : Bool) (rest : List Char)
    (hparts : (match skipWs s.toList with
      | '-' :: r => (true, r)
      | '+' :: r => (false, r)
      | r => (false, r)) = (neg, rest))
    (hrest : rest = [] ∨ ∃ c tl, rest = c :: tl ∧ c.isDigit = false) :
    streamExtractInt s = 0 := by
  rw [streamExtractInt_of_parts s neg rest hparts]
  have hread : readDigits rest 0 0 = (0, 0) := by
    rcases hrest with h | ⟨c, tl, h, hd⟩
    · rw [h]; rfl
    · rw [h]; exact readDigits_not_digit c tl hd
  rw [hread]
  rfl

theorem streamExtractInt_unparsable (s : String) (h : unparsable s) :
    streamExtractInt s = 0 := by
  obtain ⟨ws, sign, rest, hs, hws, hcase⟩ := h
  rcases hcase with ⟨hsign, hrest⟩ | ⟨hsign, hrest⟩
  · rw [hsign, List.append_nil] at hs
    rcases hrest with hr | ⟨c, tl, hr, hsp, hminus, hplus, hdig⟩
    · refine extract_zero_of_rest s false [] ?_ (Or.inl rfl)
      rw [hs, skipWs_append ws rest hws, hr]
      rfl
    · refine extract_zero_of_rest s false (c :: tl) ?_ (Or.inr ⟨c, tl, rfl, hdig⟩)
      rw [hs, skipWs_append ws rest hws, hr, skipWs_not_space c tl hsp]
      split
      · rename_i r heq
        exact absurd (List.cons.inj heq).1 hminus
      · rename_i r heq
        exact absurd (List.cons.inj heq).1 hplus
      · rfl
  · rcases hsign with hsign | hsign
    · refine extract_zero_of_rest s true rest ?_ hrest
      rw [hs, hsign, List.append_assoc, skipWs_append ws _ hws]
      have : skipWs (['-'] ++ rest) = '-' :: rest := skipWs_minus rest
      rw [this]
      rfl
    · refine extract_zero_of_rest s false rest ?_ hrest
      rw [hs, hsign, List.append_assoc, skipWs_append ws _ hws]
      have : skipWs (['+'] ++ rest) = '+' :: rest := by
        show skipWs ('+' :: rest) = '+' :: rest
        unfold skipWs
        rw [if_neg (by decide)]
      rw [this]
      rfl



theorem isDigit_digitChar (c : Char) (h : c.isDigit = true) :
    c.toNat - 48 < 10 ∧ digitChar (c.toNat - 48) = c := by
  have h1 : 48 ≤ c.toNat ∧ c.toNat ≤ 57 := by
    simp only [Char.isDigit, Bool.and_eq_true, decide_eq_true_eq] at h
    exact ⟨h.1, h.2⟩
  refine ⟨by omega, ?_⟩
  unfold digitChar
  rw [show 48 + (c.toNat - 48) = c.toNat by omega]
  exact Char.ofNat_toNat c

theorem readDigits_digits_append (ds : List Nat) (rest : List Char)
    (hd : ∀ d ∈ ds, d < 10)
    (hrest : rest = [] ∨ ∃ c tl, rest = c :: tl ∧ c.isDigit = false) :
    ∀ acc n, readDigits (ds.map digitChar ++ rest) acc n =
      (ds.foldl (fun a d => a * 10 + d) acc, n + ds.length) := by
  induction ds with
  | nil =>
    intro acc n
    rcases hrest with h | ⟨c, tl, h, hc⟩
    · rw [h]; rfl
    · rw [h]
      simp [readDigits, hc]
  | cons d tl ih =>
    intro acc n
    have hf := digitChar_facts d (hd d (List.mem_cons_self _ _))
    have hr := ih (fun x hx => hd x (List.mem_cons_of_mem _ hx))
    simp only [List.map_cons, List.cons_append, readDigits, hf.1, if_true, hf.2.1,
      List.foldl_cons, List.length_cons]
    show readDigits (List.map digitChar tl ++ rest) _ _ = _
    rw [hr, Nat.add_assoc, Nat.add_comm 1]

theorem skipWs_plus (rest : List Char) : skipWs ('+' :: rest) = '+' :: rest := by
  unfold skipWs
  rw [if_neg (by decide)]

theorem extract_of_parts_digits (s : String) (neg : Bool) (ds : List Nat) (rest : List Char)
    (hparts : (match skipWs s.toList with
      | '-' :: r => (true, r)
      | '+' :: r => (false, r)
      | r => (false, r)) = (neg, ds.map digitChar ++ rest))
    (hd : ∀ d ∈ ds, d < 10)
    (hrest : rest = [] ∨ ∃ c tl, rest = c :: tl ∧ c.isDigit = false) :
    streamExtractInt s = extractedValue neg ds := by
  rw [streamExtractInt_of_parts s neg _ hparts, readDigits_digits_append ds rest hd hrest 0 0]
  unfold extractedValue
  cases ds with
  | nil => rfl
  | cons d tl =>
    have hlen : 0 + (d :: tl).length ≠ 0 := by simp
    simp only []
    rw [if_neg hlen, if_neg (List.cons_ne_nil d tl)]
    rfl

theorem streamExtractInt_readsAs (s : String) (neg : Bool) (ds : List Nat)
    (h : readsAs s neg ds) : streamExtractInt s = extractedValue neg ds := by
  obtain ⟨ws, sign, rest, hs, hws, hd, hsign, hrest⟩ := h
  rcases hsign with ⟨hsg, hneg⟩ | ⟨hsg, hneg⟩ | ⟨hsg, hneg, hnone⟩
  · refine extract_of_parts_digits s neg ds rest ?_ hd hrest
    rw [hs, skipWs_append ws _ hws, hsg, hneg]
    show (match skipWs ('-' :: (ds.map digitChar ++ rest)) with
      | '-' :: r => (true, r)
      | '+' :: r => (false, r)
      | r => (false, r)) = _
    rw [skipWs_minus]
    rfl
  · refine extract_of_parts_digits s neg ds rest ?_ hd hrest
    rw [hs, skipWs_append ws _ hws, hsg, hneg]
    show (match skipWs ('+' :: (ds.map digitChar ++ rest)) with
      | '-' :: r => (true, r)
      | '+' :: r => (false, r)
      | r => (false, r)) = _
    rw [skipWs_plus]
    rfl
  · refine extract_of_parts_digits s neg ds rest ?_ hd hrest
    rw [hs, skipWs_append ws _ hws, hsg, hneg, List.nil_append]
    cases ds with
    | nil =>
      rcases hnone rfl with hr | ⟨c, tl, hr, hsp, hminus, hplus⟩
      · rw [hr]
        rfl
      · rw [hr]
        simp only [List.map_nil, List.nil_append]
        rw [skipWs_not_space c tl hsp]
        split
        · rename_i r heq
          exact absurd (List.cons.inj heq).1 hminus
        · rename_i r heq
          exact absurd (List.cons.inj heq).1 hplus
        · rfl
    | cons d tl =>
      have hf := digitChar_facts d (hd d (List.mem_cons_self _ _))
      simp only [List.map_cons, List.cons_append]
      rw [skipWs_digit d (hd d (List.mem_cons_self _ _))]
      split
      · rename_i r heq
        exact absurd (List.cons.inj heq).1 hf.2.2.1
      · rename_i r heq
        exact absurd (List.cons.inj heq).1 hf.2.2.2.1
      · rfl

theorem exists_space_prefix (l : List Char) :
    ∃ ws body, l = ws ++ body ∧ (∀ c ∈ ws, isSpace c) ∧
      (body = [] ∨ ∃ c tl, body = c :: tl ∧ ¬ isSpace c) := by
  induction l with
  | nil => exact ⟨[], [], rfl, fun _ hc => absurd hc (List.not_mem_nil _), Or.inl rfl⟩
  | cons c tl ih =>
    by_cases hc : isSpace c
    · obtain ⟨ws, body, hl, hws, hbody⟩ := ih
      refine ⟨c :: ws, body, by rw [hl]; rfl, ?_, hbody⟩
      intro x hx
      rcases List.mem_cons.1 hx with h1 | h1
      · rw [h1]; exact hc
      · exact hws x h1
    · exact ⟨[], c :: tl, rfl, fun _ hx => absurd hx (List.not_mem_nil _), Or.inr ⟨c, tl, rfl, hc⟩⟩

theorem exists_digit_prefix (l : List Char) :
    ∃ (ds : List Nat) (rest : List Char), l = ds.map digitChar ++ rest ∧ (∀ d ∈ ds, d < 10) ∧
      (rest = [] ∨ ∃ c tl, rest = c :: tl ∧ c.isDigit = false) := by
  induction l with
  | nil => exact ⟨[], [], rfl, fun _ hd => absurd hd (List.not_mem_nil _), Or.inl rfl⟩
  | cons c tl ih =>
    cases hc : c.isDigit with
    | true =>
      obtain ⟨ds, rest, hl, hds, hrest⟩ := ih
      obtain ⟨hlt, hch⟩ := isDigit_digitChar c hc
      refine ⟨(c.toNat - 48) :: ds, rest, ?_, ?_, hrest⟩
      · rw [List.map_cons, hch, hl]
        rfl
      · intro d hd
        rcases List.mem_cons.1 hd with h1 | h1
        · rw [h1]; exact hlt
        · exact hds d h1
    | false =>
      exact ⟨[], c :: tl, rfl, fun _ hd => absurd hd (List.not_mem_nil _), Or.inr ⟨c, tl, rfl, hc⟩⟩

theorem exists_readsAs (s : String) : ∃ neg ds, readsAs s neg ds := by
  obtain ⟨ws, body, hl, hws, hbody⟩ := exists_space_prefix s.toList
  rcases hbody with hb | ⟨c, tl, hb, hsp⟩
  · refine ⟨false, [], ws, [], [], ?_, hws, fun _ hd => absurd hd (List.not_mem_nil _), ?_, Or.inl rfl⟩
    · rw [hl, hb]
      rfl
    · exact Or.inr (Or.inr ⟨rfl, rfl, fun _ => Or.inl rfl⟩)
  · by_cases hminus : c = '-'
    · obtain ⟨ds, rest, hd, hds, hrest⟩ := exists_digit_prefix tl
      refine ⟨true, ds, ws, ['-'], rest, ?_, hws, hds, Or.inl ⟨rfl, rfl⟩, hrest⟩
      rw [hl, hb, hminus, hd]
      rfl
    · by_cases hplus : c = '+'
      · obtain ⟨ds, rest, hd, hds, hrest⟩ := exists_digit_prefix tl
        refine ⟨false, ds, ws, ['+'], rest, ?_, hws, hds, Or.inr (Or.inl ⟨rfl, rfl⟩), hrest⟩
        rw [hl, hb, hplus, hd]
        rfl
      · obtain ⟨ds, rest, hd, hds, hrest⟩ := exists_digit_prefix (c :: tl)
        refine ⟨false, ds, ws, [], rest, ?_, hws, hds, Or.inr (Or.inr ⟨rfl, rfl, ?_⟩), hrest⟩
        · rw [hl, hb, hd]
          rfl
        · intro hnil
          rw [hnil] at hd
          refine Or.inr ⟨c, tl, ?_, hsp, hminus, hplus⟩
          exact hd.symm

theorem denotesInt_chars (s : String) (v : Int) (h : denotesInt s v) :
    ∀ c ∈ s.toList, c = '-' ∨ c.isDigit = true := by
  obtain ⟨neg, ds, _, hd, hs, _⟩ := h
  intro c hc
  rw [hs] at hc
  unfold decimalString at hc
  rcases List.mem_append.1 hc with h1 | h1
  · left
    cases neg with
    | true => exact List.mem_singleton.1 h1
    | false => exact absurd h1 (List.not_mem_nil _)
  · right
    obtain ⟨d, hdm, hdc⟩ := List.mem_map.1 h1
    rw [← hdc]
    exact (digitChar_facts d (hd d hdm)).1

namespace AdapterCache

theorem addServerAdapter_ok_entry (c c2 : AdapterCache) (desc : AdapterDescriptor)
    (server : ServerEntryPtr) (app : String) (e2 : ServerAdapterEntry)
    (h : c.addServerAdapter desc server app = (c2, .ok e2)) :
    e2 = newServerAdapter desc server app ∧ c2.getImpl desc.id = some (.server e2) := by
  obtain ⟨habsent, hcase⟩ := addServerAdapter_ok c c2 desc server app e2 h
  have he : e2 = newServerAdapter desc server app := by
    rcases hcase with ⟨hrg, _⟩ | ⟨hrg, _, G, hG, _⟩
    · rw [addServerAdapter_ungrouped c desc server app habsent hrg] at h
      have := congrArg Prod.snd h
      simp only [Except.ok.injEq] at this
      exact this.symm
    · rw [(addServerAdapter_grouped c desc server app G habsent hrg hG).2] at h
      have := congrArg Prod.snd h
      simp only [Except.ok.injEq] at this
      exact this.symm
  refine ⟨he, ?_⟩
  rcases hcase with ⟨_, hget⟩ | ⟨_, hne, G, _, hget⟩
  · rw [hget, if_pos rfl, he]
  · rw [hget, if_neg (Ne.symm hne), if_pos rfl, he]

/-- C22 as stated fails, in both of its halves.  The string `99999999999` is a decimal
integer, and `addServerAdapter` accepts a descriptor with that priority, but the entry it
stores has the priority 2147483647 and not the integer the string denotes.  The string
`12abc` is no decimal integer, and the entry stored for it has the priority 12 and not 0. -/
theorem C22_range_and_prefix_counterexample :
    denotesInt "99999999999" 99999999999 ∧
    (cacheG.addServerAdapter ⟨"b", "", "99999999999"⟩ 7 "app").2 =
      .ok ⟨"b", "app", "", 2147483647, 7⟩ ∧
    (2147483647 : Int) ≠ 99999999999 ∧
    (¬ ∃ v, denotesInt "12abc" v) ∧
    (cacheG.addServerAdapter ⟨"b", "", "12abc"⟩ 7 "app").2 = .ok ⟨"b", "app", "", 12, 7⟩ :=
  ⟨⟨false, [9, 9, 9, 9, 9, 9, 9, 9, 9, 9, 9], by decide, by decide, by decide, by decide⟩,
    by decide, by decide,
    fun ⟨v, hv⟩ => absurd (denotesInt_chars "12abc" v hv 'a' (by decide)) (by decide),
    by decide⟩

/-- C22, amended: when `addServerAdapter` accepts a descriptor, the entry it returns is the
one stored under `desc.id`, and its priority is what the extraction of an `int` reads from
`desc.priority`.  Every string reads in exactly the way `readsAs` describes: leading white
space, an optional sign, the longest run of decimal digits, and a remainder that is
ignored.  The priority is 0 when there is no digit at that place, and otherwise the number
the digits denote, negated after a minus sign and replaced by the nearest bound when it
lies outside of -2147483648 .. 2147483647.  In particular a decimal integer gives the
integer it denotes brought into that range, and an empty string or one from which no
number can be read gives 0. -/
theorem C22_priority_parsed (c c2 : AdapterCache) (desc : AdapterDescriptor)
    (server : ServerEntryPtr) (app : String) (e2 : ServerAdapterEntry)
    (h : c.addServerAdapter desc server app = (c2, .ok e2)) :
    c2.getImpl desc.id = some (.server e2) ∧
    (∃ neg ds, readsAs desc.priority neg ds) ∧
    (∀ neg ds, readsAs desc.priority neg ds → e2.priority = extractedValue neg ds) ∧
    (∀ v : Int, denotesInt desc.priority v →
      e2.priority = (if v < -2147483648 then -2147483648
        else if 2147483647 < v then 2147483647 else v)) ∧
    (unparsable desc.priority → e2.priority = 0) := by
  obtain ⟨he, hget⟩ := addServerAdapter_ok_entry c c2 desc server app e2 h
  refine ⟨hget, exists_readsAs desc.priority, ?_, ?_, ?_⟩
  · intro neg ds hr
    rw [he]
    exact streamExtractInt_readsAs desc.priority neg ds hr
  · intro v hden
    rw [he]
    exact streamExtractInt_denotes desc.priority v hden
  · intro hun
    rw [he]
    exact streamExtractInt_unparsable desc.priority hun

end AdapterCache

theorem iter_swap_map {α β : Type} (f : β → α) (v : List β) (i j : Nat) :
    iter_swap (v.map f) i j = (iter_swap v i j).map f := by
  unfold iter_swap
  rw [List.getElem?_map, List.getElem?_map]
  cases v[i]? <;> cases v[j]? <;> simp [List.map_set]

theorem compAt_map {α β : Type} (f : β → α) (lt : α → α → Bool) (v : List β) (i j : Nat) :
    compAt lt (v.map f) i j = compAt (fun a b => lt (f a) (f b)) v i j := by
  unfold compAt
  rw [List.getElem?_map, List.getElem?_map]
  cases v[i]? <;> cases v[j]? <;> rfl

theorem move_median_to_first_map {α β : Type} (f : β → α) (lt : α → α → Bool) (v : List β)
    (r a b c : Nat) :
    move_median_to_first lt (v.map f) r a b c =
      (move_median_to_first (fun a b => lt (f a) (f b)) v r a b c).map f := by
  unfold move_median_to_first
  simp only [compAt_map, iter_swap_map]
  split_ifs <;> rfl

theorem scanUp_map {α β : Type} (f : β → α) (lt : α → α → Bool) (v : List β) (pivot : Nat) :
    ∀ fuel first, scanUp lt (v.map f) pivot fuel first =
      scanUp (fun a b => lt (f a) (f b)) v pivot fuel first := by
  intro fuel
  induction fuel with
  | zero => intro first; rfl
  | succ fuel ih =>
    intro first
    unfold scanUp
    rw [compAt_map, ih]

theorem scanDown_map {α β : Type} (f : β → α) (lt : α → α → Bool) (v : List β) (pivot : Nat) :
    ∀ last, scanDown lt (v.map f) pivot last =
      scanDown (fun a b => lt (f a) (f b)) v pivot last := by
  intro last
  induction last with
  | zero => rfl
  | succ last ih =>
    unfold scanDown
    rw [compAt_map, ih]

theorem unguarded_partition_map {α β : Type} (f : β → α) (lt : α → α → Bool) (pivot : Nat) :
    ∀ (fuel : Nat) (v : List β) (first last : Nat),
      unguarded_partition lt pivot fuel (v.map f) first last =
        (unguarded_partition (fun a b => lt (f a) (f b)) pivot fuel v first last).map
          (fun r => (r.1.map f, r.2)) := by
  intro fuel
  induction fuel with
  | zero => intro v first last; rfl
  | succ fuel ih =>
    intro v first last
    unfold unguarded_partition
    simp only [scanUp_map, scanDown_map, List.length_map, iter_swap_map, ih]
    split_ifs <;> rfl

theorem unguarded_partition_pivot_map {α β : Type} (f : β → α) (lt : α → α → Bool)
    (v : List β) (first last : Nat) :
    unguarded_partition_pivot lt (v.map f) first last =
      (unguarded_partition_pivot (fun a b => lt (f a) (f b)) v first last).map
        (fun r => (r.1.map f, r.2)) := by
  unfold unguarded_partition_pivot
  simp only [move_median_to_first_map, unguarded_partition_map]

theorem introsort_loop_map {α β : Type} (f : β → α) (lt : α → α → Bool) :
    ∀ (depth : Nat) (v : List β) (first last : Nat),
      introsort_loop lt depth (v.map f) first last =
        (introsort_loop (fun a b => lt (f a) (f b)) depth v first last).map (List.map f) := by
  intro depth
  induction depth with
  | zero =>
    intro v first last
    unfold introsort_loop
    split_ifs <;> rfl
  | succ depth ih =>
    intro v first last
    unfold introsort_loop
    simp only [unguarded_partition_pivot_map]
    split_ifs
    · cases unguarded_partition_pivot (fun a b => lt (f a) (f b)) v first last with
      | none => rfl
      | some r =>
        obtain ⟨v1, cut⟩ := r
        simp only [Option.map_some', ih]
        cases introsort_loop (fun a b => lt (f a) (f b)) depth v1 cut last with
        | none => rfl
        | some v2 => simp only [Option.map_some', ih]
    · rfl

theorem linear_insert_map {α β : Type} (f : β → α) (lt : α → α → Bool) (x : β) (s : List β) :
    linear_insert lt (f x) (s.map f) =
      (linear_insert (fun a b => lt (f a) (f b)) x s).map f := by
  induction s with
  | nil => rfl
  | cons y ys ih =>
    simp only [List.map_cons, linear_insert, ih]
    split_ifs <;> rfl

theorem final_insertion_sort_map {α β : Type} (f : β → α) (lt : α → α → Bool) (v : List β) :
    final_insertion_sort lt (v.map f) =
      (final_insertion_sort (fun a b => lt (f a) (f b)) v).map f := by
  have h : ∀ (v acc : List β),
      (v.map f).foldl (fun sorted val => linear_insert lt val sorted) (acc.map f) =
        (v.foldl (fun sorted val => linear_insert (fun a b => lt (f a) (f b)) val sorted)
          acc).map f := by
    intro v
    induction v with
    | nil => intro acc; rfl
    | cons x xs ih =>
      intro acc
      simp only [List.map_cons, List.foldl_cons, linear_insert_map, ih]
  unfold final_insertion_sort
  have h1 := h v []
  simp only [List.map_nil] at h1
  rw [h1, List.map_reverse]

theorem gnuSort_map {α β : Type} (f : β → α) (lt : α → α → Bool) (v : List β) :
    gnuSort lt (v.map f) = (gnuSort (fun a b => lt (f a) (f b)) v).map (List.map f) := by
  unfold gnuSort
  rw [List.length_map, introsort_loop_map]
  cases introsort_loop (fun a b => lt (f a) (f b)) (2 * Nat.log2 v.length) v 0 v.length with
  | none => rfl
  | some w => simp only [Option.map_some', final_insertion_sort_map]

theorem gnuSort_tied17 {α : Type} (d : α) (s : List α) (hlen : s.length = 17) :
    gnuSort (fun _ _ => false) s =
      some ([8, 16, 15, 14, 13, 12, 11, 10, 9, 0, 7, 6, 5, 4, 3, 2, 1].map
        fun i => s.getD i d) := by
  have hs : s = (List.range 17).map (fun i => s.getD i d) := by
    apply List.ext_getElem
    · simp [hlen]
    · intro i h1 h2
      simp [List.getD_eq_getElem?_getD, List.getElem?_eq_getElem h1]
  have hr : gnuSort (fun (_ _ : Nat) => false) (List.range 17) =
      some [8, 16, 15, 14, 13, 12, 11, 10, 9, 0, 7, 6, 5, 4, 3, 2, 1] := by decide!
  calc gnuSort (fun _ _ => false) s
      = gnuSort (fun _ _ => false) ((List.range 17).map (fun i => s.getD i d)) := by rw [← hs]
    _ = _ := by rw [gnuSort_map, hr]; rfl

namespace ReplicaGroupEntry

theorem candidates_ordered_sorted (lib : StdLib) (env : ServerEnv) (g : ReplicaGroupEntry)
    (hord : g.loadBalancing.kind = PolicyKind.Ordered) :
    (g.candidates lib env).Pairwise fun a b => a.priority ≤ b.priority := by
  have hs := lib.sort_sorted ReplicaPriorityComp g.replicas priorityComp_strictWeakOrder
  have hc : g.candidates lib env = lib.sort ReplicaPriorityComp g.replicas := by
    simp [candidates, snapshot, hord]
  rw [hc]
  refine hs.imp ?_
  intro a b h
  have : ¬ b.priority < a.priority := by
    simpa [ReplicaPriorityComp, ServerAdapterEntry.getPriority] using h
  exact not_lt.1 this

theorem candidates_adaptive_sorted (lib : StdLib) (env : ServerEnv) (g : ReplicaGroupEntry)
    (s : String) (hk : g.loadBalancing.kind = PolicyKind.Adaptive s) :
    (g.candidates lib env).Pairwise fun a b =>
      a.getLeastLoadedNodeLoad env g.loadSample ≤ b.getLeastLoadedNodeLoad env g.loadSample := by
  have hc : g.candidates lib env =
      (lib.sort ReplicaLoadComp ((lib.random_shuffle g.replicas).map
        (TransformToReplicaLoad env g.loadSample))).map TransformToReplica := by
    simp [candidates, snapshot, hk, adaptiveRefine]
  rw [hc, List.pairwise_map]
  have hs := lib.sort_sorted ReplicaLoadComp ((lib.random_shuffle g.replicas).map
    (TransformToReplicaLoad env g.loadSample)) loadComp_strictWeakOrder
  have hmem : ∀ x ∈ lib.sort ReplicaLoadComp ((lib.random_shuffle g.replicas).map
      (TransformToReplicaLoad env g.loadSample)),
      x.1 = x.2.getLeastLoadedNodeLoad env g.loadSample := by
    intro x hx
    have hx1 := (lib.sort_perm ReplicaLoadComp _).mem_iff.1 hx
    rcases List.mem_map.1 hx1 with ⟨m, _, hm⟩
    rw [← hm]
    rfl
  refine List.Pairwise.imp_of_mem ?_ hs
  intro a b ha hb hab
  simp only [ReplicaLoadComp, decide_eq_false_iff_not] at hab
  have h2 : a.1 ≤ b.1 := not_lt.1 hab
  rw [hmem a ha, hmem b hb] at h2
  exact h2

theorem candidates_adaptive_tied17 (lib : StdLib)
    (hsort : ∀ l : List (Rat × ServerAdapterEntry),
      lib.sort ReplicaLoadComp l = gnuLib.sort ReplicaLoadComp l) :
    groupTiedLoad.candidates lib envEqualLoads =
      [8, 16, 15, 14, 13, 12, 11, 10, 9, 0, 7, 6, 5, 4, 3, 2, 1].map
        (fun i => (lib.random_shuffle groupTiedLoad.replicas).getD i (exReplica "A" 1 1)) ∧
    groupTiedLoad.candidates lib envEqualLoads ≠ lib.random_shuffle groupTiedLoad.replicas := by
  have hperm := lib.random_shuffle_perm groupTiedLoad.replicas
  have hc : groupTiedLoad.candidates lib envEqualLoads =
      (lib.sort ReplicaLoadComp ((lib.random_shuffle groupTiedLoad.replicas).map
        (TransformToReplicaLoad envEqualLoads groupTiedLoad.loadSample))).map
          TransformToReplica := by
    have hk : groupTiedLoad.loadBalancing.kind = PolicyKind.Adaptive "1" := by decide
    simp [candidates, snapshot, hk, adaptiveRefine]
  rw [hc, hsort]
  generalize lib.random_shuffle groupTiedLoad.replicas = s at hperm ⊢
  have hlen : s.length = 17 := by
    rw [hperm.length_eq]
    decide
  have hnodup : s.Nodup := hperm.nodup_iff.2 (by decide)
  have hT : ∀ m, TransformToReplicaLoad envEqualLoads groupTiedLoad.loadSample m = (1, m) :=
    fun _ => rfl
  have hlt : (fun a b : ServerAdapterEntry => ReplicaLoadComp
      (TransformToReplicaLoad envEqualLoads groupTiedLoad.loadSample a)
      (TransformToReplicaLoad envEqualLoads groupTiedLoad.loadSample b)) =
      fun _ _ => false := by
    funext a b
    rw [hT, hT]
    simp [ReplicaLoadComp]
  have hg : gnuSort ReplicaLoadComp
      (s.map (TransformToReplicaLoad envEqualLoads groupTiedLoad.loadSample)) =
      some (([8, 16, 15, 14, 13, 12, 11, 10, 9, 0, 7, 6, 5, 4, 3, 2, 1].map
        (fun i => s.getD i (exReplica "A" 1 1))).map
          (TransformToReplicaLoad envEqualLoads groupTiedLoad.loadSample)) := by
    rw [gnuSort_map, hlt, gnuSort_tied17 (exReplica "A" 1 1) s hlen]
    rfl
  have hs : gnuLib.sort ReplicaLoadComp
      (s.map (TransformToReplicaLoad envEqualLoads groupTiedLoad.loadSample)) =
      ([8, 16, 15, 14, 13, 12, 11, 10, 9, 0, 7, 6, 5, 4, 3, 2, 1].map
        (fun i => s.getD i (exReplica "A" 1 1))).map
          (TransformToReplicaLoad envEqualLoads groupTiedLoad.loadSample) := by
    simp only [gnuLib, hg]
  have hres : (gnuLib.sort ReplicaLoadComp
      (s.map (TransformToReplicaLoad envEqualLoads groupTiedLoad.loadSample))).map
        TransformToReplica =
      [8, 16, 15, 14, 13, 12, 11, 10, 9, 0, 7, 6, 5, 4, 3, 2, 1].map
        (fun i => s.getD i (exReplica "A" 1 1)) := by
    rw [hs, List.map_map]
    exact List.map_id _
  refine ⟨hres, ?_⟩
  rw [hres]
  intro heq
  have h0 : s.getD 8 (exReplica "A" 1 1) = s.getD 0 (exReplica "A" 1 1) := by
    have := congrArg (fun l => l.getD 0 (exReplica "A" 1 1)) heq
    exact this
  have h8 : (8 : Nat) < s.length := by omega
  have h00 : (0 : Nat) < s.length := by omega
  rw [List.getD_eq_getElem _ _ h8, List.getD_eq_getElem _ _ h00] at h0
  have := (List.Nodup.getElem_inj_iff hnodup).1 h0
  omega

/-- C24 as stated fails for the `std::sort` of libstdc++ (GCC), which is not stable on more
than 16 elements.  Under the ordered policy the seventeen members `A` .. `Q` of the
priority 1, added in this order, are asked in the order `I, Q, P, O, N, M, L, K, J, A, H,
G, F, E, D, C, B`.  Under the adaptive policy the same members with the equal sampled load
1, shuffled into the order `A` .. `Q`, are asked in that same order `I, Q, P, .. , C, B`;
and whatever order the shuffle gives them, a library with this sort asks the member at the
position 8 of that order first, then those at 16 down to 9, at 0, and at 7 down to 1,
which is never the order of the shuffle. -/
theorem C24_gnu_sort_counterexample :
    (groupTiedPriority.replicas = tiedMembers ∧
      (∀ m ∈ tiedMembers, m.priority = 1) ∧
      gnuSort ReplicaPriorityComp groupTiedPriority.replicas =
        some (groupTiedPriority.candidates gnuLib envHealthy) ∧
      groupTiedPriority.candidates gnuLib envHealthy =
        [exReplica "I" 1 9, exReplica "Q" 1 17, exReplica "P" 1 16, exReplica "O" 1 15,
          exReplica "N" 1 14, exReplica "M" 1 13, exReplica "L" 1 12, exReplica "K" 1 11,
          exReplica "J" 1 10, exReplica "A" 1 1, exReplica "H" 1 8, exReplica "G" 1 7,
          exReplica "F" 1 6, exReplica "E" 1 5, exReplica "D" 1 4, exReplica "C" 1 3,
          exReplica "B" 1 2] ∧
      (groupTiedPriority.getProxies gnuLib envHealthy 0).adapters =
        .ok [("I", 109), ("Q", 117), ("P", 116), ("O", 115), ("N", 114), ("M", 113),
          ("L", 112), ("K", 111), ("J", 110), ("A", 101), ("H", 108), ("G", 107), ("F", 106),
          ("E", 105), ("D", 104), ("C", 103), ("B", 102)]) ∧
    (gnuLib.random_shuffle groupTiedLoad.replicas = tiedMembers ∧
      (∀ m ∈ tiedMembers,
        m.getLeastLoadedNodeLoad envEqualLoads groupTiedLoad.loadSample = 1) ∧
      groupTiedLoad.candidates gnuLib envEqualLoads =
        [exReplica "I" 1 9, exReplica "Q" 1 17, exReplica "P" 1 16, exReplica "O" 1 15,
          exReplica "N" 1 14, exReplica "M" 1 13, exReplica "L" 1 12, exReplica "K" 1 11,
          exReplica "J" 1 10, exReplica "A" 1 1, exReplica "H" 1 8, exReplica "G" 1 7,
          exReplica "F" 1 6, exReplica "E" 1 5, exReplica "D" 1 4, exReplica "C" 1 3,
          exReplica "B" 1 2]) ∧
    (∀ lib : StdLib,
      (∀ l : List (Rat × ServerAdapterEntry),
        lib.sort ReplicaLoadComp l = gnuLib.sort ReplicaLoadComp l) →
      groupTiedLoad.candidates lib envEqualLoads =
        [8, 16, 15, 14, 13, 12, 11, 10, 9, 0, 7, 6, 5, 4, 3, 2, 1].map
          (fun i => (lib.random_shuffle groupTiedLoad.replicas).getD i (exReplica "A" 1 1)) ∧
      groupTiedLoad.candidates lib envEqualLoads ≠
        lib.random_shuffle groupTiedLoad.replicas) := by
  refine ⟨⟨by decide!, by decide!, by decide!, by decide!, by decide!⟩,
    ⟨by decide!, by decide!, by decide!⟩, candidates_adaptive_tied17⟩

/-- C24, amended: the sorts of the resolution order by key only: under the ordered policy
the candidates are a rearrangement of the replicas in which no member has a higher
priority than a later one, under the adaptive policy one in which no member has a higher
sampled load than a later one; nothing is said about the order of members with equal
keys. -/
theorem C24_sorts_order_by_key (lib : StdLib) (env : ServerEnv) (g : ReplicaGroupEntry) :
    (g.loadBalancing.kind = PolicyKind.Ordered →
      (g.candidates lib env).Perm g.replicas ∧
      (g.candidates lib env).Pairwise fun a b => a.priority ≤ b.priority) ∧
    (∀ s, g.loadBalancing.kind = PolicyKind.Adaptive s →
      (g.candidates lib env).Perm g.replicas ∧
      (g.candidates lib env).Pairwise fun a b =>
        a.getLeastLoadedNodeLoad env g.loadSample ≤
          b.getLeastLoadedNodeLoad env g.loadSample) :=
  ⟨fun hord => ⟨candidates_perm lib env g, candidates_ordered_sorted lib env g hord⟩,
    fun s hk => ⟨candidates_perm lib env g, candidates_adaptive_sorted lib env g s hk⟩⟩

end ReplicaGroupEntry

namespace AdapterCache

/-- C25: when `id` names a server adapter of the cache that is a replica of a group `G` of
the cache, `removeReplicaGroup(id)` succeeds and removes that entry; `G` is left as it was,
so it still references the adapter and its `getProxies` still returns it when the members
give their proxies, while `getServerAdapter(id)` throws `AdapterNotExistException`. -/
theorem C25_removeReplicaGroup_on_member (c : AdapterCache) (id gid : String)
    (e : ServerAdapterEntry) (G : ReplicaGroupEntry)
    (he : c.getImpl id = some (.server e))
    (hG : c.getImpl gid = some (.group G))
    (hmem : e ∈ G.replicas) :
    (c.removeReplicaGroup id).2 = .ok () ∧
    (c.removeReplicaGroup id).1.getImpl id = none ∧
    (c.removeReplicaGroup id).1.getServerAdapter id = .error (.AdapterNotExistException id) ∧
    (c.removeReplicaGroup id).1.getReplicaGroup gid = .ok G ∧
    (∀ k, k ≠ id → (c.removeReplicaGroup id).1.getImpl k = c.getImpl k) ∧
    (∀ (lib : StdLib) (env : ServerEnv) (n : Int) (prx : ServerAdapterEntry → AdapterPrx),
      (∀ m ∈ G.replicas, m.getProxy env G.id true = .ok (prx m)) →
      ∃ l, (G.getProxies lib env n).adapters = .ok l ∧ (e.id, prx e) ∈ l) := by
  obtain ⟨hok, hget⟩ := removeImpl_present c id _ he
  have hne : id ≠ gid := ne_of_server_of_group c id gid e G he hG
  have hnone : (c.removeImpl id).1.getImpl id = none := by
    rw [hget, if_pos rfl]
  refine ⟨hok, hnone, ?_, ?_, ?_, ?_⟩
  · show (c.removeImpl id).1.getServerAdapter id = _
    unfold getServerAdapter
    rw [hnone]
    rfl
  · show (c.removeImpl id).1.getReplicaGroup gid = _
    unfold getReplicaGroup
    rw [hget, if_neg (Ne.symm hne), hG]
    rfl
  · intro k hk
    show (c.removeImpl id).1.getImpl k = c.getImpl k
    rw [hget, if_neg hk]
  · intro lib env n prx hhealthy
    have hperm := ReplicaGroupEntry.candidates_perm lib env G
    refine ⟨(G.candidates lib env).map fun m => (m.id, prx m), ?_, ?_⟩
    · rw [ReplicaGroupEntry.getProxies_adapters]
      exact ReplicaGroupEntry.collectProxies_healthy env G.id prx _
        fun m hm => hhealthy m (hperm.mem_iff.1 hm)
    · exact List.mem_map.2 ⟨e, hperm.mem_iff.2 hmem, rfl⟩

/-- C26: when `id` names a server adapter whose `replicaGroupId` is not empty and names no
replica group of the cache, `removeServerAdapter(id)` fails on `assert(repEntry)`; the
entry has left the store by then and the other ids are unchanged. -/
theorem C26_removeServerAdapter_without_group (c : AdapterCache) (id : String)
    (e : ServerAdapterEntry)
    (he : c.getImpl id = some (.server e))
    (hrg : e.replicaGroupId ≠ "")
    (hnogroup : ∀ G, c.getImpl e.replicaGroupId ≠ some (.group G)) :
    (c.removeServerAdapter id).2 = .error .InvariantViolation ∧
    (c.removeServerAdapter id).1.getImpl id = none ∧
    (∀ k, k ≠ id → (c.removeServerAdapter id).1.getImpl k = c.getImpl k) := by
  have hG : asReplicaGroup (c.getImpl e.replicaGroupId) = none := by
    rcases asReplicaGroup_eq_none_or (c.getImpl e.replicaGroupId) with h | ⟨G, h⟩
    · exact h
    · exact absurd h (hnogroup G)
  obtain ⟨_, hget⟩ := removeImpl_present c id _ he
  rw [removeServerAdapter_no_group c id e he hrg hG]
  refine ⟨rfl, ?_, ?_⟩
  · show (c.removeImpl id).1.getImpl id = none
    rw [hget, if_pos rfl]
  · intro k hk
    show (c.removeImpl id).1.getImpl k = c.getImpl k
    rw [hget, if_neg hk]

/-- C27: when `desc.id` is not in the cache and the non-empty `desc.replicaGroupId` names no
replica group, `addServerAdapter` fails on `assert(repEntry)` and leaves a store that
holds the new entry under `desc.id`, with the other ids unchanged; a second
`addServerAdapter` with that id fails on `assert(!getImpl(desc.id))`. -/
theorem C27_addServerAdapter_failure_leaves_entry (c : AdapterCache)
    (desc : AdapterDescriptor) (server : ServerEntryPtr) (app : String)
    (habsent : c.getImpl desc.id = none)
    (hrg : desc.replicaGroupId ≠ "")
    (hnogroup : ∀ G, c.getImpl desc.replicaGroupId ≠ some (.group G)) :
    (c.addServerAdapter desc server app).2 = .error .InvariantViolation ∧
    (c.addServerAdapter desc server app).1.getImpl desc.id =
      some (.server (newServerAdapter desc server app)) ∧
    (∀ k, k ≠ desc.id → (c.addServerAdapter desc server app).1.getImpl k = c.getImpl k) ∧
    (∀ (server2 : ServerEntryPtr) (app2 : String),
      (c.addServerAdapter desc server app).1.addServerAdapter desc server2 app2 =
        ((c.addServerAdapter desc server app).1, .error .AlreadyExists)) := by
  have hG : asReplicaGroup (c.getImpl desc.replicaGroupId) = none := by
    rcases asReplicaGroup_eq_none_or (c.getImpl desc.replicaGroupId) with h | ⟨G, h⟩
    · exact h
    · exact absurd h (hnogroup G)
  rw [addServerAdapter_no_group c desc server app habsent hrg hG]
  have hnew : (c.addImpl desc.id (.server (newServerAdapter desc server app))).getImpl desc.id =
      some (.server (newServerAdapter desc server app)) := by
    rw [getImpl_addImpl _ _ _ _ habsent, if_pos rfl]
  refine ⟨rfl, hnew, ?_, ?_⟩
  · intro k hk
    show (c.addImpl desc.id (.server (newServerAdapter desc server app))).getImpl k = c.getImpl k
    rw [getImpl_addImpl _ _ _ _ habsent, if_neg hk]
  · intro server2 app2
    show (c.addImpl desc.id (.server (newServerAdapter desc server app))).addServerAdapter
      desc server2 app2 = _
    unfold addServerAdapter
    rw [hnew]

theorem C22_witness :
    cacheG.addServerAdapter ⟨"b", "", " 7"⟩ 7 "app" =
      ((cacheG.addServerAdapter ⟨"b", "", " 7"⟩ 7 "app").1, .ok ⟨"b", "app", "", 7, 7⟩) ∧
    readsAs " 7" false [7] ∧ extractedValue false [7] = 7 ∧
    ((cacheG.addServerAdapter ⟨"b", "", " 7"⟩ 7 "app").1.getImpl "b" =
        some (.server ⟨"b", "app", "", 7, 7⟩) ∧
      (∃ neg ds, readsAs " 7" neg ds) ∧
      (∀ neg ds, readsAs " 7" neg ds → (7 : Int) = extractedValue neg ds) ∧
      (∀ v : Int, denotesInt " 7" v →
        (7 : Int) = (if v < -2147483648 then -2147483648
          else if 2147483647 < v then 2147483647 else v)) ∧
      (unparsable " 7" → (7 : Int) = 0)) ∧
    (cacheG.addServerAdapter ⟨"b", "", "+5"⟩ 7 "app").2 = .ok ⟨"b", "app", "", 5, 7⟩ ∧
    (cacheG.addServerAdapter ⟨"b", "", "-12"⟩ 7 "app").2 = .ok ⟨"b", "app", "", -12, 7⟩ ∧
    (cacheG.addServerAdapter ⟨"b", "", "12abc"⟩ 7 "app").2 = .ok ⟨"b", "app", "", 12, 7⟩ ∧
    (cacheG.addServerAdapter ⟨"b", "", "-99999999999"⟩ 7 "app").2 =
      .ok ⟨"b", "app", "", -2147483648, 7⟩ ∧
    (cacheG.addServerAdapter ⟨"b", "", ""⟩ 7 "app").2 = .ok ⟨"b", "app", "", 0, 7⟩ ∧
    (cacheG.addServerAdapter ⟨"b", "", "high"⟩ 7 "app").2 = .ok ⟨"b", "app", "", 0, 7⟩ ∧
    (cacheG.addServerAdapter ⟨"b", "", "- 5"⟩ 7 "app").2 = .ok ⟨"b", "app", "", 0, 7⟩ :=
  ⟨by decide,
    ⟨[' '], [], [], by decide, fun c hc => List.mem_singleton.1 hc ▸ Or.inl rfl, by decide,
      Or.inr (Or.inr ⟨rfl, rfl, fun h => absurd h (by decide)⟩), Or.inl rfl⟩,
    by decide,
    C22_priority_parsed cacheG (cacheG.addServerAdapter ⟨"b", "", " 7"⟩ 7 "app").1
      ⟨"b", "", " 7"⟩ 7 "app" ⟨"b", "app", "", 7, 7⟩ (by decide),
    by decide, by decide, by decide, by decide, by decide, by decide, by decide⟩

theorem C25_witness :
    cacheGa.getImpl "a" = some (.server ⟨"a", "app", "G", 1, 7⟩) ∧
    cacheGa.getImpl "G" = some (.group (exGroup .RoundRobin [⟨"a", "app", "G", 1, 7⟩])) ∧
    (⟨"a", "app", "G", 1, 7⟩ : ServerAdapterEntry) ∈
      (exGroup .RoundRobin [⟨"a", "app", "G", 1, 7⟩]).replicas ∧
    (cacheGa.removeReplicaGroup "a").1.getServerAdapter "a" =
      .error (.AdapterNotExistException "a") ∧
    (cacheGa.removeReplicaGroup "a").1.getReplicaGroup "G" =
      .ok (exGroup .RoundRobin [⟨"a", "app", "G", 1, 7⟩]) ∧
    ((exGroup .RoundRobin [⟨"a", "app", "G", 1, 7⟩]).getProxies refLib envHealthy 0).adapters =
      .ok [("a", 107)] :=
  ⟨by decide, by decide, by decide,
    (C25_removeReplicaGroup_on_member cacheGa "a" "G" ⟨"a", "app", "G", 1, 7⟩
      (exGroup .RoundRobin [⟨"a", "app", "G", 1, 7⟩]) (by decide) (by decide) (by decide)).2.2.1,
    by decide, by decide⟩

theorem C26_witness :
    runCacheOps AdapterCache.empty danglingOps = some danglingCache ∧
    danglingCache.getImpl "a" = some (.server ⟨"a", "app", "G", 1, 7⟩) ∧
    (∀ G, danglingCache.getImpl "G" ≠ some (.group G)) ∧
    (danglingCache.removeServerAdapter "a").2 = .error .InvariantViolation := by
  have hno : ∀ G, danglingCache.getImpl "G" ≠ some (.group G) := by
    intro G h
    have hnone : danglingCache.getImpl "G" = none := by decide
    rw [hnone] at h
    cases h
  exact ⟨by decide, by decide, hno,
    (C26_removeServerAdapter_without_group danglingCache "a" ⟨"a", "app", "G", 1, 7⟩
      (by decide) (by decide) hno).1⟩

theorem C27_witness :
    cacheG.getImpl "A" = none ∧
    (∀ G, cacheG.getImpl "H" ≠ some (.group G)) ∧
    (cacheG.addServerAdapter ⟨"A", "H", "1"⟩ 1 "app").1.getImpl "A" =
      some (.server (newServerAdapter ⟨"A", "H", "1"⟩ 1 "app")) ∧
    (cacheG.addServerAdapter ⟨"A", "H", "1"⟩ 1 "app").2 = .error .InvariantViolation := by
  have hno : ∀ G, cacheG.getImpl "H" ≠ some (.group G) := by
    intro G h
    have hnone : cacheG.getImpl "H" = none := by decide
    rw [hnone] at h
    cases h
  exact ⟨by decide, hno,
    (C27_addServerAdapter_failure_leaves_entry cacheG ⟨"A", "H", "1"⟩ 1 "app" (by decide)
      (by decide) hno).2.1, by decide⟩

end AdapterCache

end IceGrid
